import Mathlib

/-!
Verification of the tetsuo/isobmff MP4 parsing library against its
natural-language specification.

The development shallowly embeds the Go sources:
- byte buffers are `List Nat` (each byte taken modulo 256 when read),
- the sample-table iterators of the mp4 package (whose sources are not
  provided; only the spec describes them) are modelled from the spec,
- `Track.parseSamples` and the surrounding track logic are translated
  directly from the track package source,
- the box codec layer (`box.go`, `codec.go`) is translated directly,
  with Go slice-bounds panics modelled as a distinguished outcome.
-/

set_option maxHeartbeats 1000000

namespace ISOBMFF

/-! ## Byte-level primitives -/

/-- Big-endian 32-bit read at offset `i`; bytes are taken modulo 256 and
missing bytes read as 0 (callers bounds-check before reading). -/
def readU32 (b : List Nat) (i : Nat) : Nat :=
  (b.getD i 0 % 256) * 16777216 + (b.getD (i+1) 0 % 256) * 65536 +
    (b.getD (i+2) 0 % 256) * 256 + (b.getD (i+3) 0 % 256)

/-- Big-endian 64-bit read at offset `i`. -/
def readU64 (b : List Nat) (i : Nat) : Nat :=
  readU32 b i * 4294967296 + readU32 b (i+4)

/-- Reinterpret a 32-bit unsigned value as signed two's-complement. -/
def toSigned32 (n : Nat) : Int :=
  if n < 2147483648 then (n : Int) else (n : Int) - 4294967296

/-- Reinterpret a 64-bit unsigned value as signed two's-complement:
Go's `int64(v)` conversion of a `uint64`. -/
def toSigned64 (n : Nat) : Int :=
  if n < 9223372036854775808 then (n : Int)
  else (n : Int) - 18446744073709551616

/-- Two's-complement wrap of an integer into the int64 range: the value
Go's wrapping int64 addition produces. -/
def wrapI64 (x : Int) : Int :=
  (x + 9223372036854775808) % 18446744073709551616 - 9223372036854775808

theorem wrapI64_add_left (a b : Int) :
    wrapI64 (wrapI64 a + b) = wrapI64 (a + b) := by
  unfold wrapI64
  omega

theorem wrapI64_id (x : Int) (h1 : -9223372036854775808 ≤ x)
    (h2 : x < 9223372036854775808) : wrapI64 x = x := by
  unfold wrapI64
  omega

theorem readU32_lt (b : List Nat) (i : Nat) : readU32 b i < 4294967296 := by
  unfold readU32
  omega

theorem readU64_lt (b : List Nat) (i : Nat) :
    readU64 b i < 18446744073709551616 := by
  unfold readU64
  have h1 := readU32_lt b i
  have h2 := readU32_lt b (i + 4)
  omega

theorem toSigned64_range (n : Nat) (h : n < 18446744073709551616) :
    -9223372036854775808 ≤ toSigned64 n ∧
      toSigned64 n < 9223372036854775808 := by
  unfold toSigned64
  split <;> constructor <;> omega

/-! ## Table iterators

The iterators live in the mp4 package, whose iterator sources are not part
of the provided files; they are modelled from the spec (section 4.3). -/

/-- Modelled from the spec: every table iterator exposes `count()`, the
number of declared entries, read from the leading 32-bit field of the
payload (the mp4 package iterator sources are not provided). -/
def tblCount (d : List Nat) : Nat :=
  if 4 ≤ d.length then readU32 d 0 else 0

/-- Modelled from the spec: the stsz payload starts with the constant
`sample_size` field followed by the 32-bit sample count. -/
def stszSampleSize (d : List Nat) : Nat :=
  if 8 ≤ d.length then readU32 d 0 else 0

/-- Modelled from the spec: declared sample count of the stsz payload. -/
def stszCount (d : List Nat) : Nat :=
  if 8 ≤ d.length then readU32 d 4 else 0

/-- Modelled from the spec: stsz iterator `Next`, expanding the
constant-size form into a stream of identical sizes; yields `none` past
the declared count or past the end of the payload. -/
def stszNext (d : List Nat) (i : Nat) : Option Nat :=
  if i < stszCount d then
    if stszSampleSize d ≠ 0 then some (stszSampleSize d)
    else if 8 + 4 * i + 4 ≤ d.length then some (readU32 d (8 + 4 * i)) else none
  else none

/-- A `{count, duration}` run of the stts table. -/
structure SttsEntry where
  Count : Nat
  Duration : Nat
deriving Repr, DecidableEq

/-- Modelled from the spec: stts iterator entry at index `i` (stride 8
after the 4-byte entry count), bounds-checked. -/
def sttsEntryAt (d : List Nat) (i : Nat) : Option SttsEntry :=
  if i < tblCount d ∧ 4 + 8 * i + 8 ≤ d.length then
    some ⟨readU32 d (4 + 8 * i), readU32 d (4 + 8 * i + 4)⟩
  else none

/-- A `{count, offset}` run of the ctts table. -/
structure CttsEntry where
  Count : Nat
  Offset : Int
deriving Repr, DecidableEq

/-- Modelled from the spec: ctts iterator entry at index `i`; version 0
treats the 32-bit offset as unsigned, version 1 as signed
two's-complement. -/
def cttsEntryAt (d : List Nat) (version : Nat) (i : Nat) : Option CttsEntry :=
  if i < tblCount d ∧ 4 + 8 * i + 8 ≤ d.length then
    some ⟨readU32 d (4 + 8 * i),
      if version = 1 then toSigned32 (readU32 d (4 + 8 * i + 4))
      else (readU32 d (4 + 8 * i + 4) : Int)⟩
  else none

/-- A `{first_chunk, samples_per_chunk, sample_desc_idx}` run of stsc. -/
structure StscEntry where
  FirstChunk : Nat
  SamplesPerChunk : Nat
  SampleDescriptionId : Nat
deriving Repr, DecidableEq

/-- Modelled from the spec: stsc iterator entry at index `i` (stride 12),
bounds-checked. -/
def stscEntryAt (d : List Nat) (i : Nat) : Option StscEntry :=
  if i < tblCount d ∧ 4 + 12 * i + 12 ≤ d.length then
    some ⟨readU32 d (4 + 12 * i), readU32 d (4 + 12 * i + 4),
      readU32 d (4 + 12 * i + 8)⟩
  else none

/-- Modelled from the spec: generic u32 iterator entry (used for stco and
stss), stride 4, bounds-checked. -/
def u32EntryAt (d : List Nat) (i : Nat) : Option Nat :=
  if i < tblCount d ∧ 4 + 4 * i + 4 ≤ d.length then
    some (readU32 d (4 + 4 * i))
  else none

/-- Modelled from the spec: co64 iterator entry (64-bit chunk offsets),
stride 8, bounds-checked. -/
def co64EntryAt (d : List Nat) (i : Nat) : Option Nat :=
  if i < tblCount d ∧ 4 + 8 * i + 8 ≤ d.length then
    some (readU64 d (4 + 8 * i))
  else none

/-! ## The track package: Sample, Track, parseSamples -/

/-- Mirrors the Go `Sample` struct of the track package. -/
structure Sample where
  TrackID : Nat := 0
  Offset : Int := 0
  Size : Nat := 0
  Duration : Nat := 0
  DTS : Int := 0
  PresentationOffset : Int := 0
  IsSync : Bool := false
deriving Repr, DecidableEq

/-- `Sample.PTS` returns the presentation timestamp. -/
def Sample.PTS (s : Sample) : Int := s.DTS + s.PresentationOffset

/-- Mirrors the Go `Track` struct: public metadata plus the raw
sample-table payload slices captured during extraction (a `none` mirrors
a nil Go slice). -/
structure Track where
  ID : Nat := 0
  TimeScale : Nat := 0
  Duration : Nat := 0
  Width : Nat := 0
  Height : Nat := 0
  ChannelCount : Nat := 0
  SampleRate : Nat := 0
  Samples : Option (List Sample) := none
  SampleDescIdx : Nat := 0
  codec : List Nat := []
  stszData : Option (List Nat) := none
  sttsData : Option (List Nat) := none
  stscData : Option (List Nat) := none
  cttsData : Option (List Nat) := none
  cttsVersion : Nat := 0
  stssData : Option (List Nat) := none
  stcoData : Option (List Nat) := none
  co64Data : Option (List Nat) := none
  hasCo64 : Bool := false
deriving Repr, DecidableEq

/-- The two error kinds raised by `Track.parseSamples`
(`ErrInvalidTrack` and `ErrCorruptData`). -/
inductive TrackErr where
  | invalidTrack
  | corruptData
deriving Repr, DecidableEq

deriving instance DecidableEq for Except

/-- The table inputs of the sample-fusion loop of `Track.parseSamples`. -/
structure FuseCtx where
  trackID : Nat := 0
  numSamples : Nat := 0
  stszD : List Nat := []
  stscD : List Nat := []
  sttsD : List Nat := []
  cttsD : List Nat := []
  cttsVersion : Nat := 0
  hasCtts : Bool := false
  stssD : List Nat := []
  hasSync : Bool := false
  stcoD : List Nat := []
  co64D : List Nat := []
  hasCo64 : Bool := false
deriving Repr

/-- The loop state of the fusion loop in `Track.parseSamples` (iterator
cursors plus the local variables of the Go loop). -/
structure FState where
  stszIdx : Nat := 0
  stscIdx : Nat := 0
  sttsIdx : Nat := 0
  cttsIdx : Nat := 0
  syncIdx : Nat := 0
  coIdx : Nat := 0
  curStsc : StscEntry := ⟨0, 0, 0⟩
  nextStsc : Option StscEntry := none
  curStts : SttsEntry := ⟨0, 0⟩
  sttsRemaining : Int := 0
  curCtts : CttsEntry := ⟨0, 0⟩
  cttsRemaining : Int := 0
  nextSync : Nat := 0
  haveSync : Bool := false
  chunkOffset : Int := 0
  chunkIdx : Nat := 0
  sampleInChunk : Nat := 0
  offsetInChunk : Int := 0
  dts : Int := 0
deriving Repr

/-- The chunk-offset fetch of the fusion loop: `co64It.Next()` or
`stcoIt.Next()` depending on `hasCo64`; on iterator exhaustion the
previous chunk offset is kept. -/
def chunkFetch (c : FuseCtx) (coIdx : Nat) (old : Int) : Int × Nat :=
  if c.hasCo64 then
    match co64EntryAt c.co64D coIdx with
    | some v => (toSigned64 v, coIdx + 1)
    | none => (old, coIdx)
  else
    match u32EntryAt c.stcoD coIdx with
    | some v => (toSigned64 v, coIdx + 1)
    | none => (old, coIdx)

/-- The chunk-advance block of the fusion loop in `Track.parseSamples`:
`sampleInChunk++`, `offsetInChunk += size`, and when the current chunk is
full, reset both, fetch the next chunk offset and activate the next stsc
run when its first chunk is reached. -/
def chunkStep (c : FuseCtx) (st : FState) (size : Nat) : FState :=
  let sampleInChunk := st.sampleInChunk + 1
  let offsetInChunk := wrapI64 (st.offsetInChunk + (size : Int))
  if st.curStsc.SamplesPerChunk ≤ sampleInChunk then
    let chunkIdx := st.chunkIdx + 1
    let co := chunkFetch c st.coIdx st.chunkOffset
    let next : StscEntry × Option StscEntry × Nat :=
      match st.nextStsc with
      | some ns =>
        if ns.FirstChunk ≤ chunkIdx then
          match stscEntryAt c.stscD st.stscIdx with
          | some e => (ns, some e, st.stscIdx + 1)
          | none => (ns, (none : Option StscEntry), st.stscIdx)
        else (st.curStsc, some ns, st.stscIdx)
      | none => (st.curStsc, (none : Option StscEntry), st.stscIdx)
    { st with
      sampleInChunk := 0, offsetInChunk := 0, chunkIdx := chunkIdx,
      chunkOffset := co.1, coIdx := co.2,
      curStsc := next.1, nextStsc := next.2.1, stscIdx := next.2.2 }
  else
    { st with sampleInChunk := sampleInChunk, offsetInChunk := offsetInChunk }

/-- The stts block of the fusion loop: `dts += curStts.Duration`,
`sttsRemaining--`, and on exhaustion of the current run fetch the next
run, keeping the current one when the iterator is done. -/
def sttsStep (c : FuseCtx) (st : FState) : FState :=
  let dts := st.dts + (st.curStts.Duration : Int)
  let sttsRemaining := st.sttsRemaining - 1
  if sttsRemaining ≤ 0 then
    match sttsEntryAt c.sttsD st.sttsIdx with
    | some e => { st with
        dts := dts, curStts := e,
        sttsRemaining := (e.Count : Int), sttsIdx := st.sttsIdx + 1 }
    | none => { st with dts := dts, sttsRemaining := sttsRemaining }
  else { st with dts := dts, sttsRemaining := sttsRemaining }

/-- The ctts block of the fusion loop: when a ctts table is present,
`cttsRemaining--`, and on exhaustion fetch the next run, keeping the
current one (with the non-positive residual) when the iterator is
done. -/
def cttsStep (c : FuseCtx) (st : FState) : FState :=
  if c.hasCtts then
    let cttsRemaining := st.cttsRemaining - 1
    if cttsRemaining ≤ 0 then
      match cttsEntryAt c.cttsD c.cttsVersion st.cttsIdx with
      | some e => { st with
          curCtts := e,
          cttsRemaining := (e.Count : Int), cttsIdx := st.cttsIdx + 1 }
      | none => { st with cttsRemaining := cttsRemaining }
    else { st with cttsRemaining := cttsRemaining }
  else st

/-- The sync-sample block of the fusion loop: after emitting a sync
sample, advance the stss cursor; when the iterator is done, clear
`haveSync`. -/
def syncStep (c : FuseCtx) (st : FState) (isSync : Bool) : FState :=
  if isSync && c.hasSync then
    match u32EntryAt c.stssD st.syncIdx with
    | some v => { st with nextSync := v, syncIdx := st.syncIdx + 1 }
    | none => { st with haveSync := false }
  else st

/-- The post-emit update of the fusion loop in `Track.parseSamples`:
the chunk-advance, stts, ctts and sync blocks in the order the Go loop
executes them. -/
def stepState (c : FuseCtx) (st : FState) (size : Nat) (isSync : Bool) : FState :=
  syncStep c (cttsStep c (sttsStep c (chunkStep c st size))) isSync

/-- The per-sample fusion loop of `Track.parseSamples` (the
`for i := range numSamples` loop): emits the samples from index `i`
onward and returns them together with the final active stsc run. The
last sample does not advance the chunk or time cursors. The `fuel`
argument makes the recursion structural; instantiated with the number
of samples still to emit (as `parseSamples` does) it is never
exhausted, since the loop stops at index `numSamples - 1`. -/
def fuseFrom (c : FuseCtx) :
    Nat → Nat → FState → Except TrackErr (List Sample × StscEntry)
  | 0, _, st => .ok ([], st.curStsc)
  | fuel + 1, i, st =>
    match stszNext c.stszD st.stszIdx with
    | none => .error .corruptData
    | some size =>
      let presOff : Int :=
        if c.hasCtts ∧ st.cttsRemaining > 0 then st.curCtts.Offset else 0
      let isSync : Bool :=
        if c.hasSync then st.haveSync && (st.nextSync == i + 1) else true
      let s : Sample :=
        { TrackID := c.trackID,
          Offset := wrapI64 (st.offsetInChunk + st.chunkOffset),
          Size := size, Duration := st.curStts.Duration, DTS := st.dts,
          PresentationOffset := presOff, IsSync := isSync }
      if c.numSamples ≤ i + 1 then .ok ([s], st.curStsc)
      else
        let st1 := { st with stszIdx := st.stszIdx + 1 }
        match fuseFrom c fuel (i + 1) (stepState c st1 size isSync) with
        | .ok res => .ok (s :: res.1, res.2)
        | .error e => .error e

/-- The fusion context `parseSamples` builds for a track. -/
def fuseCtxOf (t : Track) : FuseCtx :=
  { trackID := t.ID, numSamples := stszCount (t.stszData.getD []),
    stszD := t.stszData.getD [], stscD := t.stscData.getD [],
    sttsD := t.sttsData.getD [], cttsD := t.cttsData.getD [],
    cttsVersion := t.cttsVersion, hasCtts := t.cttsData ≠ none,
    stssD := t.stssData.getD [], hasSync := t.stssData ≠ none,
    stcoD := t.stcoData.getD [], co64D := t.co64Data.getD [],
    hasCo64 := t.hasCo64 }

/-- The initial loop state `parseSamples` builds, given the first stsc
and stts entries. -/
def initState (t : Track) (curStsc : StscEntry) (curStts : SttsEntry) : FState :=
  let c := fuseCtxOf t
  let nextStsc := stscEntryAt (t.stscData.getD []) 1
  let cttsInit : CttsEntry × Int × Nat :=
    if c.hasCtts then
      match cttsEntryAt c.cttsD c.cttsVersion 0 with
      | some e => (e, (e.Count : Int), 1)
      | none => ((⟨0, 0⟩ : CttsEntry), (0 : Int), 0)
    else ((⟨0, 0⟩ : CttsEntry), (0 : Int), 0)
  let syncInit : Nat × Bool × Nat :=
    if c.hasSync then
      match u32EntryAt c.stssD 0 with
      | some v => (v, true, 1)
      | none => (0, false, 0)
    else (0, false, 0)
  let co := chunkFetch c 0 0
  { stszIdx := 0, stscIdx := 2, sttsIdx := 1,
    cttsIdx := cttsInit.2.2, syncIdx := syncInit.2.2,
    coIdx := co.2, curStsc := curStsc, nextStsc := nextStsc,
    curStts := curStts, sttsRemaining := (curStts.Count : Int),
    curCtts := cttsInit.1, cttsRemaining := cttsInit.2.1,
    nextSync := syncInit.1, haveSync := syncInit.2.1,
    chunkOffset := co.1, chunkIdx := 1, sampleInChunk := 0,
    offsetInChunk := 0, dts := 0 }

/-- `Track.parseSamples`: validates the required tables, sets up the
iterators and cursors (`fuseCtxOf`, `initState`), runs the fusion loop,
and on success stores the samples and finalises `SampleDescIdx` from the
last active stsc run. -/
def Track.parseSamples (t : Track) : Except TrackErr Track :=
  if t.Samples ≠ none then .ok t
  else if t.stszData = none ∨ t.sttsData = none ∨ t.stscData = none then
    .error .invalidTrack
  else if t.stcoData = none ∧ t.co64Data = none then
    .error .invalidTrack
  else if stszCount (t.stszData.getD []) = 0 then .ok { t with Samples := some [] }
  else
    match stscEntryAt (t.stscData.getD []) 0 with
    | none => .error .invalidTrack
    | some curStsc =>
      match sttsEntryAt (t.sttsData.getD []) 0 with
      | none => .error .invalidTrack
      | some curStts =>
        match fuseFrom (fuseCtxOf t) (stszCount (t.stszData.getD [])) 0
            (initState t curStsc curStts) with
        | .ok res =>
          .ok { t with
            Samples := some res.1,
            SampleDescIdx := res.2.SampleDescriptionId }
        | .error e => .error e

/-- The validation phase of `ParseTracks`: parse samples for all
extracted tracks and keep exactly those for which `parseSamples`
succeeds. -/
def validTracks (l : List Track) : List Track :=
  l.filterMap (fun t => t.parseSamples.toOption)

/-- The value `ParseTracks` returns once the moov box has been found:
the valid tracks, the mvhd duration, and a nil error. -/
def parseTracksResult (l : List Track) (duration : Nat) :
    List Track × Nat × Option TrackErr :=
  (validTracks l, duration, none)

end ISOBMFF

namespace ISOBMFF

/-! ## Sample-count invariant -/

theorem fuseFrom_length (c : FuseCtx) :
    ∀ (fuel i : Nat) (st : FState) (l : List Sample) (fin : StscEntry),
      fuseFrom c fuel i st = .ok (l, fin) → i < c.numSamples →
      c.numSamples - i ≤ fuel → l.length = c.numSamples - i := by
  intro fuel
  induction fuel with
  | zero => intro i st l fin h hi hf; omega
  | succ fuel ih =>
    intro i st l fin h hi hf
    simp only [fuseFrom] at h
    cases hsz : stszNext c.stszD st.stszIdx with
    | none => rw [hsz] at h; exact absurd h (by simp)
    | some size =>
      rw [hsz] at h
      simp only [] at h
      split at h
      · rename_i hle
        cases h
        simp
        omega
      · rename_i hgt
        cases hr : fuseFrom c fuel (i + 1)
            (stepState c { st with stszIdx := st.stszIdx + 1 } size
              (if c.hasSync then st.haveSync && (st.nextSync == i + 1) else true)) with
        | ok res =>
          rw [hr] at h
          cases h
          have := ih (i + 1) _ res.1 res.2 (by rw [hr]) (by omega) (by omega)
          simp [this]
          omega
        | error e => rw [hr] at h; exact absurd h (by simp)

end ISOBMFF

namespace ISOBMFF

theorem toOption_ok {e : Except TrackErr Track} {u : Track}
    (h : e.toOption = some u) : e = .ok u := by
  cases e with
  | ok v => cases h; rfl
  | error _ => exact absurd h (by simp [Except.toOption])

theorem parseSamples_samples_length (t u : Track) (hs : t.Samples = none)
    (h : t.parseSamples = .ok u) :
    ∃ l, u.Samples = some l ∧ l.length = stszCount (u.stszData.getD []) := by
  unfold Track.parseSamples at h
  simp only [hs, ne_eq, not_true_eq_false, if_false, reduceIte] at h
  split at h
  · exact absurd h (by simp)
  split at h
  · exact absurd h (by simp)
  split at h
  · rename_i hzero
    cases h
    exact ⟨[], by simp, by simp [hzero]⟩
  · rename_i hnz
    split at h
    · exact absurd h (by simp)
    split at h
    · exact absurd h (by simp)
    rename_i curStsc hstsc curStts hstts
    split at h
    · rename_i res hfuse
      cases h
      refine ⟨res.1, by simp, ?_⟩
      have hlen := fuseFrom_length _ _ _ _ _ _ hfuse
        (Nat.pos_of_ne_zero hnz) (Nat.sub_le _ _)
      simpa using hlen
    · exact absurd h (by simp)

end ISOBMFF

namespace ISOBMFF

/-- C1: for every collection of tracks extracted from a moov buffer
(their `Samples` not yet populated) and every track returned by the
validation phase of `ParseTracks`, the length of the track's `Samples`
list equals the sample count declared in that track's stsz payload. -/
theorem claim_C1_sample_count (L : List Track) (u : Track)
    (hL : ∀ t ∈ L, t.Samples = none) (hu : u ∈ validTracks L) :
    ∃ l, u.Samples = some l ∧ l.length = stszCount (u.stszData.getD []) := by
  rcases List.mem_filterMap.mp hu with ⟨t, htL, ht⟩
  exact parseSamples_samples_length t u (hL t htL) (toOption_ok ht)

/-- A small one-track moov extraction used as concrete input: constant
sample size 417, ten samples, one stts run, five samples per chunk, two
chunk offsets. -/
def exTrack1 : Track :=
  { ID := 7,
    stszData := some [0,0,1,161, 0,0,0,10],
    sttsData := some [0,0,0,1, 0,0,0,10, 0,0,4,0],
    stscData := some [0,0,0,1, 0,0,0,1, 0,0,0,5, 0,0,0,1],
    stcoData := some [0,0,0,2, 0,0,16,0, 0,0,32,0] }

/-- The parsed form of `exTrack1`. -/
def exParsed1 : Track := exTrack1.parseSamples.toOption.getD {}

theorem claim_C1_sample_count_witness :
    ∃ l, exParsed1.Samples = some l ∧
      l.length = stszCount (exParsed1.stszData.getD []) :=
  claim_C1_sample_count [exTrack1] exParsed1 (by decide) (by decide)

end ISOBMFF

namespace ISOBMFF

theorem parseSamples_missing (t : Track) (hs : t.Samples = none)
    (hmiss : t.stszData = none ∨ t.sttsData = none ∨ t.stscData = none ∨
      (t.stcoData = none ∧ t.co64Data = none)) :
    t.parseSamples = .error .invalidTrack := by
  unfold Track.parseSamples
  simp only [hs, ne_eq, not_true_eq_false, reduceIte]
  rcases hmiss with h | h | h | ⟨h1, h2⟩
  · simp [h]
  · simp [h]
  · simp [h]
  · by_cases hc : t.stszData = none ∨ t.sttsData = none ∨ t.stscData = none
    · simp [hc]
    · simp [hc, h1, h2]

/-- C5: for every collection of extracted tracks, the validation phase
of `ParseTracks` fails any track that is missing a required table (stsz,
stts, stsc, or both stco and co64) with `ErrInvalidTrack`, returns
exactly the tracks whose sample parsing succeeds, and returns a nil
error even when the resulting list is empty. -/
theorem claim_C5_drop_invalid (L : List Track) (d : Nat)
    (hL : ∀ t ∈ L, t.Samples = none) :
    (parseTracksResult L d).2.2 = none ∧
    (∀ t ∈ L, (t.stszData = none ∨ t.sttsData = none ∨ t.stscData = none ∨
        (t.stcoData = none ∧ t.co64Data = none)) →
      t.parseSamples = .error .invalidTrack) ∧
    (∀ u, u ∈ validTracks L ↔ ∃ t ∈ L, t.parseSamples = .ok u) := by
  refine ⟨rfl, fun t ht hmiss => parseSamples_missing t (hL t ht) hmiss, fun u => ?_⟩
  constructor
  · intro hu
    rcases List.mem_filterMap.mp hu with ⟨t, htL, ht⟩
    exact ⟨t, htL, toOption_ok ht⟩
  · intro ⟨t, htL, ht⟩
    exact List.mem_filterMap.mpr ⟨t, htL, by simp [ht, Except.toOption]⟩

/-- A track with stsz present but stts missing (spec scenario S6). -/
def exTrackNoStts : Track :=
  { ID := 9,
    stszData := some [0,0,1,161, 0,0,0,10],
    stscData := some [0,0,0,1, 0,0,0,1, 0,0,0,5, 0,0,0,1],
    stcoData := some [0,0,0,1, 0,0,16,0] }

theorem claim_C5_drop_invalid_witness :
    (parseTracksResult [exTrackNoStts] 0).2.2 = none ∧
    (∀ t ∈ [exTrackNoStts],
      (t.stszData = none ∨ t.sttsData = none ∨ t.stscData = none ∨
        (t.stcoData = none ∧ t.co64Data = none)) →
      t.parseSamples = .error .invalidTrack) ∧
    (∀ u, u ∈ validTracks [exTrackNoStts] ↔
      ∃ t ∈ [exTrackNoStts], t.parseSamples = .ok u) :=
  claim_C5_drop_invalid [exTrackNoStts] 0 (by decide)

end ISOBMFF

namespace ISOBMFF

/-! ## Codec-string assembly (track package) -/

/-- ASCII bytes of a string literal. -/
def asciiBytes (s : String) : List Nat := s.toList.map Char.toNat

/-- The `hexChars` table of the track package
(`"0123456789abcdef"`). -/
def hexChars : List Nat := asciiBytes "0123456789abcdef"

/-- `Track.setCodec`: copy into the 24-byte codec buffer (Go `copy`
truncates at the buffer size). -/
def setCodec (s : List Nat) : List Nat := s.take 24

/-- `Track.appendCodec`: append to the codec buffer, truncated to the
remaining capacity. -/
def appendCodec (buf s : List Nat) : List Nat := buf ++ s.take (24 - buf.length)

/-- `Track.appendAvcCProfile`: append the six hex digits `XXYYZZ` of
profile, compatibility and level to the codec buffer (the Go source
indexes `hexChars` with the nibbles of each byte). -/
def appendAvcCProfile (buf : List Nat) (profile compat level : Nat) : List Nat :=
  buf ++ [hexChars.getD (profile % 256 / 16) 0, hexChars.getD (profile % 16) 0,
    hexChars.getD (compat % 256 / 16) 0, hexChars.getD (compat % 16) 0,
    hexChars.getD (level % 256 / 16) 0, hexChars.getD (level % 16) 0]

/-- The avc1 codec-string assembly of `parseStsd` as a function of the
avcC payload found below the sample entry: `setCodec("avc1")` followed,
when the payload has at least 4 bytes, by `appendCodec(".")` and
`appendAvcCProfile(d[1], d[2], d[3])`. -/
def avc1CodecString (d : List Nat) : List Nat :=
  let buf := setCodec (asciiBytes "avc1")
  if 4 ≤ d.length then
    appendAvcCProfile (appendCodec buf (asciiBytes "."))
      (d.getD 1 0) (d.getD 2 0) (d.getD 3 0)
  else buf

/-- Specification-level lowercase hexadecimal digit. -/
def hexDigit (n : Nat) : Nat := if n < 10 then 48 + n else 87 + n

/-- Specification-level two lowercase hex digits of a byte. -/
def lowerHexByte (b : Nat) : List Nat := [hexDigit (b / 16), hexDigit (b % 16)]

theorem hexChars_getD (k : Nat) (hk : k < 16) :
    hexChars.getD k 0 = hexDigit k := by
  interval_cases k <;> decide

/-- C9: the assembled video codec string is exactly `avc1.` followed by
the six lowercase hex digits of avcC payload bytes 1, 2 and 3 when the
payload has at least 4 bytes; a shorter payload contributes no profile
suffix. -/
theorem claim_C9_avc1_codec (d : List Nat) :
    (4 ≤ d.length →
      avc1CodecString d =
        asciiBytes "avc1." ++ lowerHexByte (d.getD 1 0 % 256) ++
          lowerHexByte (d.getD 2 0 % 256) ++ lowerHexByte (d.getD 3 0 % 256)) ∧
    (d.length < 4 → avc1CodecString d = asciiBytes "avc1") := by
  constructor
  · intro h4
    simp only [avc1CodecString, if_pos h4, appendAvcCProfile, appendCodec, setCodec]
    rw [hexChars_getD _ (by omega), hexChars_getD _ (by omega),
      hexChars_getD _ (by omega), hexChars_getD _ (by omega),
      hexChars_getD _ (by omega), hexChars_getD _ (by omega)]
    have hm : ∀ x : Nat, x % 16 = x % 256 % 16 := by omega
    rw [hm (d.getD 1 0), hm (d.getD 2 0), hm (d.getD 3 0)]
    simp [lowerHexByte, asciiBytes]
  · intro hlt
    simp only [avc1CodecString, Nat.not_le.mpr hlt, if_false, reduceIte]
    decide

theorem claim_C9_avc1_codec_witness :
    (avc1CodecString [1, 100, 0, 30] =
      asciiBytes "avc1." ++ lowerHexByte (([1, 100, 0, 30].getD 1 0 : Nat) % 256) ++
        lowerHexByte (([1, 100, 0, 30].getD 2 0 : Nat) % 256) ++
        lowerHexByte (([1, 100, 0, 30].getD 3 0 : Nat) % 256)) ∧
    (avc1CodecString [1, 100] = asciiBytes "avc1") :=
  ⟨(claim_C9_avc1_codec [1, 100, 0, 30]).1 (by decide),
    (claim_C9_avc1_codec [1, 100]).2 (by decide)⟩

end ISOBMFF

namespace ISOBMFF

/-! ## CollectTrackSampleStats -/

/-- Mirrors the Go `TrackSampleStats` struct. -/
structure TrackSampleStats where
  TrackID : Nat := 0
  TimeScale : Nat := 0
  Duration : Nat := 0
  EarliestPTS : Int := 0
  SampleCount : Nat := 0
deriving Repr, DecidableEq

/-- The per-entry update of the sample loop in
`CollectTrackSampleStats`: count, duration and earliest-PTS update. -/
def updStat (s : Sample) (st : TrackSampleStats) : TrackSampleStats :=
  { st with
    SampleCount := st.SampleCount + 1,
    Duration := st.Duration + s.Duration,
    EarliestPTS :=
      if st.EarliestPTS < 0 ∨ s.PTS < st.EarliestPTS then s.PTS
      else st.EarliestPTS }

/-- The inner loop of `CollectTrackSampleStats`: find the first entry
whose `TrackID` matches the sample and update it (the Go loop breaks
after the first match). -/
def bumpStats (s : Sample) : List TrackSampleStats → List TrackSampleStats
  | [] => []
  | st :: rest =>
    if st.TrackID = s.TrackID then updStat s st :: rest
    else st :: bumpStats s rest

/-- `CollectTrackSampleStats`: initialise one stats entry per track with
`EarliestPTS = -1`, accumulate every sample into the first entry with a
matching `TrackID`, and return only the entries with at least one
sample. -/
def CollectTrackSampleStats (tracks : List Track) (samples : List Sample) :
    List TrackSampleStats :=
  let dst := tracks.map (fun t =>
    { TrackID := t.ID, TimeScale := t.TimeScale,
      EarliestPTS := -1 : TrackSampleStats })
  let dst := samples.foldl (fun d s => bumpStats s d) dst
  dst.filter (fun st => 0 < st.SampleCount)

theorem updStat_TrackID (s : Sample) (st : TrackSampleStats) :
    (updStat s st).TrackID = st.TrackID := rfl

theorem bumpStats_eq_map (s : Sample) (d : List TrackSampleStats)
    (hd : (d.map (·.TrackID)).Pairwise (· ≠ ·)) :
    bumpStats s d =
      d.map (fun st => if st.TrackID = s.TrackID then updStat s st else st) := by
  induction d with
  | nil => rfl
  | cons st rest ih =>
    simp only [List.map_cons, List.pairwise_cons] at hd
    by_cases h : st.TrackID = s.TrackID
    · simp only [bumpStats, if_pos h, List.map_cons]
      have : rest.map (fun x => if x.TrackID = s.TrackID then updStat s x else x)
          = rest.map id := by
        apply List.map_congr_left
        intro x hx
        have : st.TrackID ≠ x.TrackID := hd.1 x.TrackID (List.mem_map_of_mem _ hx)
        rw [if_neg (by rw [← h]; exact fun e => this e.symm)]
        rfl
      rw [this, List.map_id]
    · simp only [bumpStats, if_neg h, List.map_cons, ih hd.2]

theorem bumpStats_map_TrackID (s : Sample) (d : List TrackSampleStats)
    (hd : (d.map (·.TrackID)).Pairwise (· ≠ ·)) :
    (bumpStats s d).map (·.TrackID) = d.map (·.TrackID) := by
  rw [bumpStats_eq_map s d hd]
  simp only [List.map_map]
  apply List.map_congr_left
  intro x _
  by_cases h : x.TrackID = s.TrackID <;> simp [h, updStat_TrackID]

theorem foldl_bump_eq_map (samples : List Sample) :
    ∀ (d : List TrackSampleStats),
      (d.map (·.TrackID)).Pairwise (· ≠ ·) →
      samples.foldl (fun d s => bumpStats s d) d =
        d.map (fun st =>
          (samples.filter (fun s => s.TrackID = st.TrackID)).foldl
            (fun a s => updStat s a) st) := by
  induction samples with
  | nil => intro d _; simp
  | cons s rest ih =>
    intro d hd
    simp only [List.foldl_cons]
    rw [bumpStats_eq_map s d hd,
      ih _ (by rw [← bumpStats_eq_map s d hd]; exact (bumpStats_map_TrackID s d hd).symm ▸ hd)]
    rw [List.map_map]
    apply List.map_congr_left
    intro st _
    simp only [Function.comp_apply]
    by_cases h : st.TrackID = s.TrackID
    · have h2 : s.TrackID = st.TrackID := h.symm
      simp only [if_pos h, updStat_TrackID]
      rw [List.filter_cons]
      simp [h2]
    · have h2 : ¬ s.TrackID = st.TrackID := fun e => h e.symm
      simp only [if_neg h]
      rw [List.filter_cons]
      simp [h2]

end ISOBMFF

namespace ISOBMFF

theorem foldl_upd_min (ms : List Sample) :
    ∀ (st : TrackSampleStats), (∀ s ∈ ms, 0 ≤ s.PTS) → 0 ≤ st.EarliestPTS →
      ((ms.foldl (fun a s => updStat s a) st).EarliestPTS = st.EarliestPTS ∨
        ∃ s ∈ ms, (ms.foldl (fun a s => updStat s a) st).EarliestPTS = s.PTS) ∧
      (ms.foldl (fun a s => updStat s a) st).EarliestPTS ≤ st.EarliestPTS ∧
      (∀ s ∈ ms, (ms.foldl (fun a s => updStat s a) st).EarliestPTS ≤ s.PTS) ∧
      (ms.foldl (fun a s => updStat s a) st).TrackID = st.TrackID ∧
      (ms.foldl (fun a s => updStat s a) st).SampleCount
        = st.SampleCount + ms.length := by
  induction ms with
  | nil => intro st _ _; exact ⟨Or.inl rfl, le_refl _, by simp, rfl, rfl⟩
  | cons s rest ih =>
    intro st hpts hE
    simp only [List.foldl_cons]
    have hsp : 0 ≤ s.PTS := hpts s (List.mem_cons_self s rest)
    have hE1 : (updStat s st).EarliestPTS =
        if s.PTS < st.EarliestPTS then s.PTS else st.EarliestPTS := by
      simp only [updStat]
      by_cases h : s.PTS < st.EarliestPTS
      · rw [if_pos (Or.inr h), if_pos h]
      · rw [if_neg (by omega), if_neg h]
    have hE1nn : 0 ≤ (updStat s st).EarliestPTS := by
      rw [hE1]; split <;> omega
    obtain ⟨hmem, hle, hub, htid, hcnt⟩ :=
      ih (updStat s st) (fun x hx => hpts x (List.mem_cons_of_mem s hx)) hE1nn
    have hle1 : (updStat s st).EarliestPTS ≤ st.EarliestPTS := by
      rw [hE1]; split <;> omega
    have hles : (updStat s st).EarliestPTS ≤ s.PTS := by
      rw [hE1]; split <;> omega
    refine ⟨?_, le_trans hle hle1, ?_, htid,
      by rw [hcnt]; simp only [updStat, List.length_cons]; omega⟩
    · rcases hmem with h | ⟨x, hx, he⟩
      · rw [h, hE1]
        by_cases hc : s.PTS < st.EarliestPTS
        · exact Or.inr ⟨s, List.mem_cons_self s rest, by rw [if_pos hc]⟩
        · exact Or.inl (by rw [if_neg hc])
      · exact Or.inr ⟨x, List.mem_cons_of_mem s hx, he⟩
    · intro x hx
      rcases List.mem_cons.mp hx with h | h
      · subst h; exact le_trans hle hles
      · exact hub x h

theorem foldl_upd_start (ms : List Sample) (st : TrackSampleStats)
    (hpts : ∀ s ∈ ms, 0 ≤ s.PTS) (hE : st.EarliestPTS = -1) (hms : ms ≠ []) :
    (∃ s ∈ ms, (ms.foldl (fun a s => updStat s a) st).EarliestPTS = s.PTS) ∧
    (∀ s ∈ ms, (ms.foldl (fun a s => updStat s a) st).EarliestPTS ≤ s.PTS) ∧
    (ms.foldl (fun a s => updStat s a) st).TrackID = st.TrackID ∧
    (ms.foldl (fun a s => updStat s a) st).SampleCount
      = st.SampleCount + ms.length := by
  cases ms with
  | nil => exact absurd rfl hms
  | cons s rest =>
    simp only [List.foldl_cons]
    have hsp : 0 ≤ s.PTS := hpts s (List.mem_cons_self s rest)
    have hE1 : (updStat s st).EarliestPTS = s.PTS := by
      simp only [updStat]
      rw [if_pos (Or.inl (by omega))]
    obtain ⟨hmem, hle, hub, htid, hcnt⟩ :=
      foldl_upd_min rest (updStat s st)
        (fun x hx => hpts x (List.mem_cons_of_mem s hx)) (by rw [hE1]; exact hsp)
    refine ⟨?_, ?_, htid,
      by rw [hcnt]; simp only [updStat, List.length_cons]; omega⟩
    · rcases hmem with h | ⟨x, hx, he⟩
      · exact ⟨s, List.mem_cons_self s rest, by rw [h, hE1]⟩
      · exact ⟨x, List.mem_cons_of_mem s hx, he⟩
    · intro x hx
      rcases List.mem_cons.mp hx with h | h
      · subst h; exact le_trans hle (le_of_eq hE1)
      · exact hub x h

end ISOBMFF

namespace ISOBMFF

/-- C10 (amended): for every track list with pairwise-distinct IDs and
every sample list all of whose PTS values are non-negative, each entry
returned by `CollectTrackSampleStats` has `EarliestPTS` equal to the
minimum of `PTS` over the samples whose `TrackID` matches, and only
tracks with at least one matching sample appear in the result. -/
theorem claim_C10_earliest (tracks : List Track) (samples : List Sample)
    (hdist : (tracks.map (·.ID)).Pairwise (· ≠ ·))
    (hpts : ∀ s ∈ samples, 0 ≤ s.PTS) :
    ∀ e ∈ CollectTrackSampleStats tracks samples,
      (∃ s ∈ samples, s.TrackID = e.TrackID) ∧
      (∃ s ∈ samples, s.TrackID = e.TrackID ∧ e.EarliestPTS = s.PTS) ∧
      (∀ s ∈ samples, s.TrackID = e.TrackID → e.EarliestPTS ≤ s.PTS) := by
  intro e he
  simp only [CollectTrackSampleStats] at he
  have hd0 : ((tracks.map (fun t =>
      { TrackID := t.ID, TimeScale := t.TimeScale,
        EarliestPTS := -1 : TrackSampleStats })).map (·.TrackID)).Pairwise
      (· ≠ ·) := by
    rw [List.map_map]
    exact hdist
  rw [foldl_bump_eq_map samples _ hd0] at he
  rw [List.mem_filter, List.map_map, List.mem_map] at he
  obtain ⟨⟨t, htm, hte⟩, hcnt⟩ := he
  simp only [Function.comp_apply] at hte
  have hte2 : (samples.filter (fun s => s.TrackID = t.ID)).foldl
      (fun a s => updStat s a)
      { TrackID := t.ID, TimeScale := t.TimeScale, EarliestPTS := -1 } = e := hte
  by_cases hnil : samples.filter (fun s => s.TrackID = t.ID) = []
  · rw [hnil] at hte2
    simp only [List.foldl_nil] at hte2
    rw [← hte2] at hcnt
    simp at hcnt
  · obtain ⟨hex, hub, htid, _⟩ :=
      foldl_upd_start (samples.filter (fun s => s.TrackID = t.ID))
        { TrackID := t.ID, TimeScale := t.TimeScale, EarliestPTS := -1 }
        (fun x hx => hpts x (List.mem_of_mem_filter hx)) rfl hnil
    rw [hte2] at hex hub htid
    have htid2 : e.TrackID = t.ID := htid
    refine ⟨?_, ?_, ?_⟩
    · obtain ⟨x, hx, _⟩ := hex
      have hxid : x.TrackID = t.ID := of_decide_eq_true (List.mem_filter.mp hx).2
      exact ⟨x, (List.mem_filter.mp hx).1, by rw [htid2, hxid]⟩
    · obtain ⟨x, hx, hxe⟩ := hex
      have hxid : x.TrackID = t.ID := of_decide_eq_true (List.mem_filter.mp hx).2
      exact ⟨x, (List.mem_filter.mp hx).1, by rw [htid2, hxid], hxe⟩
    · intro x hx hxid
      have hxt : x.TrackID = t.ID := by rw [hxid, htid2]
      exact hub x (List.mem_filter.mpr ⟨hx, decide_eq_true hxt⟩)

/-- C10 counterexample: one track, two matching samples with PTS values
-5 and 3; the returned entry records EarliestPTS = 3 although the
minimum matching PTS is -5 (the -1 sentinel treats every negative
running value as unset). -/
theorem claim_C10_counterexample :
    ∃ e ∈ CollectTrackSampleStats [{ ID := 1 }]
        [{ TrackID := 1, DTS := -5 }, { TrackID := 1, DTS := 3 }],
      ∃ s ∈ [({ TrackID := 1, DTS := -5 } : Sample),
          { TrackID := 1, DTS := 3 }],
        s.TrackID = e.TrackID ∧ s.PTS < e.EarliestPTS := by decide

theorem claim_C10_earliest_witness :
    ({ TrackID := 1, TimeScale := 0, Duration := 0, EarliestPTS := 3,
        SampleCount := 2 } : TrackSampleStats) ∈
      CollectTrackSampleStats [{ ID := 1 }]
        [{ TrackID := 1, DTS := 5 }, { TrackID := 1, DTS := 3 }] ∧
    (∃ s ∈ [({ TrackID := 1, DTS := 5 } : Sample), { TrackID := 1, DTS := 3 }],
      s.TrackID = 1) ∧
    (∃ s ∈ [({ TrackID := 1, DTS := 5 } : Sample), { TrackID := 1, DTS := 3 }],
      s.TrackID = 1 ∧ (3 : Int) = s.PTS) ∧
    (∀ s ∈ [({ TrackID := 1, DTS := 5 } : Sample), { TrackID := 1, DTS := 3 }],
      s.TrackID = 1 → (3 : Int) ≤ s.PTS) :=
  ⟨by decide,
    claim_C10_earliest [{ ID := 1 }]
      [{ TrackID := 1, DTS := 5 }, { TrackID := 1, DTS := 3 }]
      (by decide) (by decide)
      { TrackID := 1, TimeScale := 0, Duration := 0, EarliestPTS := 3,
        SampleCount := 2 } (by decide)⟩

end ISOBMFF


namespace ISOBMFF
/-! ## Field-level equations for the loop sub-steps -/
@[simp] theorem chunkStep_stszIdx (c : FuseCtx) (st : FState) (size : Nat) :
    (chunkStep c st size).stszIdx = st.stszIdx := by
  simp only [chunkStep]
  repeat' split
  all_goals rfl
@[simp] theorem chunkStep_sttsIdx (c : FuseCtx) (st : FState) (size : Nat) :
    (chunkStep c st size).sttsIdx = st.sttsIdx := by
  simp only [chunkStep]
  repeat' split
  all_goals rfl
@[simp] theorem chunkStep_cttsIdx (c : FuseCtx) (st : FState) (size : Nat) :
    (chunkStep c st size).cttsIdx = st.cttsIdx := by
  simp only [chunkStep]
  repeat' split
  all_goals rfl
@[simp] theorem chunkStep_syncIdx (c : FuseCtx) (st : FState) (size : Nat) :
    (chunkStep c st size).syncIdx = st.syncIdx := by
  simp only [chunkStep]
  repeat' split
  all_goals rfl
@[simp] theorem chunkStep_curStts (c : FuseCtx) (st : FState) (size : Nat) :
    (chunkStep c st size).curStts = st.curStts := by
  simp only [chunkStep]
  repeat' split
  all_goals rfl
@[simp] theorem chunkStep_sttsRemaining (c : FuseCtx) (st : FState) (size : Nat) :
    (chunkStep c st size).sttsRemaining = st.sttsRemaining := by
  simp only [chunkStep]
  repeat' split
  all_goals rfl
@[simp] theorem chunkStep_curCtts (c : FuseCtx) (st : FState) (size : Nat) :
    (chunkStep c st size).curCtts = st.curCtts := by
  simp only [chunkStep]
  repeat' split
  all_goals rfl
@[simp] theorem chunkStep_cttsRemaining (c : FuseCtx) (st : FState) (size : Nat) :
    (chunkStep c st size).cttsRemaining = st.cttsRemaining := by
  simp only [chunkStep]
  repeat' split
  all_goals rfl
@[simp] theorem chunkStep_nextSync (c : FuseCtx) (st : FState) (size : Nat) :
    (chunkStep c st size).nextSync = st.nextSync := by
  simp only [chunkStep]
  repeat' split
  all_goals rfl
@[simp] theorem chunkStep_haveSync (c : FuseCtx) (st : FState) (size : Nat) :
    (chunkStep c st size).haveSync = st.haveSync := by
  simp only [chunkStep]
  repeat' split
  all_goals rfl
@[simp] theorem chunkStep_dts (c : FuseCtx) (st : FState) (size : Nat) :
    (chunkStep c st size).dts = st.dts := by
  simp only [chunkStep]
  repeat' split
  all_goals rfl
@[simp] theorem sttsStep_stszIdx (c : FuseCtx) (st : FState) :
    (sttsStep c st).stszIdx = st.stszIdx := by
  simp only [sttsStep]
  repeat' split
  all_goals rfl
@[simp] theorem sttsStep_stscIdx (c : FuseCtx) (st : FState) :
    (sttsStep c st).stscIdx = st.stscIdx := by
  simp only [sttsStep]
  repeat' split
  all_goals rfl
@[simp] theorem sttsStep_cttsIdx (c : FuseCtx) (st : FState) :
    (sttsStep c st).cttsIdx = st.cttsIdx := by
  simp only [sttsStep]
  repeat' split
  all_goals rfl
@[simp] theorem sttsStep_syncIdx (c : FuseCtx) (st : FState) :
    (sttsStep c st).syncIdx = st.syncIdx := by
  simp only [sttsStep]
  repeat' split
  all_goals rfl
@[simp] theorem sttsStep_coIdx (c : FuseCtx) (st : FState) :
    (sttsStep c st).coIdx = st.coIdx := by
  simp only [sttsStep]
  repeat' split
  all_goals rfl
@[simp] theorem sttsStep_curStsc (c : FuseCtx) (st : FState) :
    (sttsStep c st).curStsc = st.curStsc := by
  simp only [sttsStep]
  repeat' split
  all_goals rfl
@[simp] theorem sttsStep_nextStsc (c : FuseCtx) (st : FState) :
    (sttsStep c st).nextStsc = st.nextStsc := by
  simp only [sttsStep]
  repeat' split
  all_goals rfl
@[simp] theorem sttsStep_curCtts (c : FuseCtx) (st : FState) :
    (sttsStep c st).curCtts = st.curCtts := by
  simp only [sttsStep]
  repeat' split
  all_goals rfl
@[simp] theorem sttsStep_cttsRemaining (c : FuseCtx) (st : FState) :
    (sttsStep c st).cttsRemaining = st.cttsRemaining := by
  simp only [sttsStep]
  repeat' split
  all_goals rfl
@[simp] theorem sttsStep_nextSync (c : FuseCtx) (st : FState) :
    (sttsStep c st).nextSync = st.nextSync := by
  simp only [sttsStep]
  repeat' split
  all_goals rfl
@[simp] theorem sttsStep_haveSync (c : FuseCtx) (st : FState) :
    (sttsStep c st).haveSync = st.haveSync := by
  simp only [sttsStep]
  repeat' split
  all_goals rfl
@[simp] theorem sttsStep_chunkOffset (c : FuseCtx) (st : FState) :
    (sttsStep c st).chunkOffset = st.chunkOffset := by
  simp only [sttsStep]
  repeat' split
  all_goals rfl
@[simp] theorem sttsStep_chunkIdx (c : FuseCtx) (st : FState) :
    (sttsStep c st).chunkIdx = st.chunkIdx := by
  simp only [sttsStep]
  repeat' split
  all_goals rfl
@[simp] theorem sttsStep_sampleInChunk (c : FuseCtx) (st : FState) :
    (sttsStep c st).sampleInChunk = st.sampleInChunk := by
  simp only [sttsStep]
  repeat' split
  all_goals rfl
@[simp] theorem sttsStep_offsetInChunk (c : FuseCtx) (st : FState) :
    (sttsStep c st).offsetInChunk = st.offsetInChunk := by
  simp only [sttsStep]
  repeat' split
  all_goals rfl
@[simp] theorem cttsStep_stszIdx (c : FuseCtx) (st : FState) :
    (cttsStep c st).stszIdx = st.stszIdx := by
  simp only [cttsStep]
  repeat' split
  all_goals rfl
@[simp] theorem cttsStep_stscIdx (c : FuseCtx) (st : FState) :
    (cttsStep c st).stscIdx = st.stscIdx := by
  simp only [cttsStep]
  repeat' split
  all_goals rfl
@[simp] theorem cttsStep_sttsIdx (c : FuseCtx) (st : FState) :
    (cttsStep c st).sttsIdx = st.sttsIdx := by
  simp only [cttsStep]
  repeat' split
  all_goals rfl
@[simp] theorem cttsStep_syncIdx (c : FuseCtx) (st : FState) :
    (cttsStep c st).syncIdx = st.syncIdx := by
  simp only [cttsStep]
  repeat' split
  all_goals rfl
@[simp] theorem cttsStep_coIdx (c : FuseCtx) (st : FState) :
    (cttsStep c st).coIdx = st.coIdx := by
  simp only [cttsStep]
  repeat' split
  all_goals rfl
@[simp] theorem cttsStep_curStsc (c : FuseCtx) (st : FState) :
    (cttsStep c st).curStsc = st.curStsc := by
  simp only [cttsStep]
  repeat' split
  all_goals rfl
@[simp] theorem cttsStep_nextStsc (c : FuseCtx) (st : FState) :
    (cttsStep c st).nextStsc = st.nextStsc := by
  simp only [cttsStep]
  repeat' split
  all_goals rfl
@[simp] theorem cttsStep_curStts (c : FuseCtx) (st : FState) :
    (cttsStep c st).curStts = st.curStts := by
  simp only [cttsStep]
  repeat' split
  all_goals rfl
@[simp] theorem cttsStep_sttsRemaining (c : FuseCtx) (st : FState) :
    (cttsStep c st).sttsRemaining = st.sttsRemaining := by
  simp only [cttsStep]
  repeat' split
  all_goals rfl
@[simp] theorem cttsStep_nextSync (c : FuseCtx) (st : FState) :
    (cttsStep c st).nextSync = st.nextSync := by
  simp only [cttsStep]
  repeat' split
  all_goals rfl
@[simp] theorem cttsStep_haveSync (c : FuseCtx) (st : FState) :
    (cttsStep c st).haveSync = st.haveSync := by
  simp only [cttsStep]
  repeat' split
  all_goals rfl
@[simp] theorem cttsStep_chunkOffset (c : FuseCtx) (st : FState) :
    (cttsStep c st).chunkOffset = st.chunkOffset := by
  simp only [cttsStep]
  repeat' split
  all_goals rfl
@[simp] theorem cttsStep_chunkIdx (c : FuseCtx) (st : FState) :
    (cttsStep c st).chunkIdx = st.chunkIdx := by
  simp only [cttsStep]
  repeat' split
  all_goals rfl
@[simp] theorem cttsStep_sampleInChunk (c : FuseCtx) (st : FState) :
    (cttsStep c st).sampleInChunk = st.sampleInChunk := by
  simp only [cttsStep]
  repeat' split
  all_goals rfl
@[simp] theorem cttsStep_offsetInChunk (c : FuseCtx) (st : FState) :
    (cttsStep c st).offsetInChunk = st.offsetInChunk := by
  simp only [cttsStep]
  repeat' split
  all_goals rfl
@[simp] theorem cttsStep_dts (c : FuseCtx) (st : FState) :
    (cttsStep c st).dts = st.dts := by
  simp only [cttsStep]
  repeat' split
  all_goals rfl
@[simp] theorem syncStep_stszIdx (c : FuseCtx) (st : FState) (b : Bool) :
    (syncStep c st b).stszIdx = st.stszIdx := by
  simp only [syncStep]
  repeat' split
  all_goals rfl
@[simp] theorem syncStep_stscIdx (c : FuseCtx) (st : FState) (b : Bool) :
    (syncStep c st b).stscIdx = st.stscIdx := by
  simp only [syncStep]
  repeat' split
  all_goals rfl
@[simp] theorem syncStep_sttsIdx (c : FuseCtx) (st : FState) (b : Bool) :
    (syncStep c st b).sttsIdx = st.sttsIdx := by
  simp only [syncStep]
  repeat' split
  all_goals rfl
@[simp] theorem syncStep_cttsIdx (c : FuseCtx) (st : FState) (b : Bool) :
    (syncStep c st b).cttsIdx = st.cttsIdx := by
  simp only [syncStep]
  repeat' split
  all_goals rfl
@[simp] theorem syncStep_coIdx (c : FuseCtx) (st : FState) (b : Bool) :
    (syncStep c st b).coIdx = st.coIdx := by
  simp only [syncStep]
  repeat' split
  all_goals rfl
@[simp] theorem syncStep_curStsc (c : FuseCtx) (st : FState) (b : Bool) :
    (syncStep c st b).curStsc = st.curStsc := by
  simp only [syncStep]
  repeat' split
  all_goals rfl
@[simp] theorem syncStep_nextStsc (c : FuseCtx) (st : FState) (b : Bool) :
    (syncStep c st b).nextStsc = st.nextStsc := by
  simp only [syncStep]
  repeat' split
  all_goals rfl
@[simp] theorem syncStep_curStts (c : FuseCtx) (st : FState) (b : Bool) :
    (syncStep c st b).curStts = st.curStts := by
  simp only [syncStep]
  repeat' split
  all_goals rfl
@[simp] theorem syncStep_sttsRemaining (c : FuseCtx) (st : FState) (b : Bool) :
    (syncStep c st b).sttsRemaining = st.sttsRemaining := by
  simp only [syncStep]
  repeat' split
  all_goals rfl
@[simp] theorem syncStep_curCtts (c : FuseCtx) (st : FState) (b : Bool) :
    (syncStep c st b).curCtts = st.curCtts := by
  simp only [syncStep]
  repeat' split
  all_goals rfl
@[simp] theorem syncStep_cttsRemaining (c : FuseCtx) (st : FState) (b : Bool) :
    (syncStep c st b).cttsRemaining = st.cttsRemaining := by
  simp only [syncStep]
  repeat' split
  all_goals rfl
@[simp] theorem syncStep_chunkOffset (c : FuseCtx) (st : FState) (b : Bool) :
    (syncStep c st b).chunkOffset = st.chunkOffset := by
  simp only [syncStep]
  repeat' split
  all_goals rfl
@[simp] theorem syncStep_chunkIdx (c : FuseCtx) (st : FState) (b : Bool) :
    (syncStep c st b).chunkIdx = st.chunkIdx := by
  simp only [syncStep]
  repeat' split
  all_goals rfl
@[simp] theorem syncStep_sampleInChunk (c : FuseCtx) (st : FState) (b : Bool) :
    (syncStep c st b).sampleInChunk = st.sampleInChunk := by
  simp only [syncStep]
  repeat' split
  all_goals rfl
@[simp] theorem syncStep_offsetInChunk (c : FuseCtx) (st : FState) (b : Bool) :
    (syncStep c st b).offsetInChunk = st.offsetInChunk := by
  simp only [syncStep]
  repeat' split
  all_goals rfl
@[simp] theorem syncStep_dts (c : FuseCtx) (st : FState) (b : Bool) :
    (syncStep c st b).dts = st.dts := by
  simp only [syncStep]
  repeat' split
  all_goals rfl

end ISOBMFF


namespace ISOBMFF

/-! ## Update equations for the loop sub-steps -/

theorem sttsStep_curStts (c : FuseCtx) (st : FState) :
    (sttsStep c st).curStts =
      (if st.sttsRemaining - 1 ≤ 0 then
        match sttsEntryAt c.sttsD st.sttsIdx with
        | some e => e
        | none => st.curStts
      else st.curStts) := by
  simp only [sttsStep]
  repeat' split
  all_goals rfl

theorem sttsStep_sttsRemaining (c : FuseCtx) (st : FState) :
    (sttsStep c st).sttsRemaining =
      (if st.sttsRemaining - 1 ≤ 0 then
        match sttsEntryAt c.sttsD st.sttsIdx with
        | some e => (e.Count : Int)
        | none => st.sttsRemaining - 1
      else st.sttsRemaining - 1) := by
  simp only [sttsStep]
  repeat' split
  all_goals rfl

theorem sttsStep_sttsIdx (c : FuseCtx) (st : FState) :
    (sttsStep c st).sttsIdx =
      (if st.sttsRemaining - 1 ≤ 0 then
        match sttsEntryAt c.sttsD st.sttsIdx with
        | some _ => st.sttsIdx + 1
        | none => st.sttsIdx
      else st.sttsIdx) := by
  simp only [sttsStep]
  repeat' split
  all_goals rfl

theorem cttsStep_curCtts (c : FuseCtx) (st : FState) :
    (cttsStep c st).curCtts =
      (if c.hasCtts then
        if st.cttsRemaining - 1 ≤ 0 then
          match cttsEntryAt c.cttsD c.cttsVersion st.cttsIdx with
          | some e => e
          | none => st.curCtts
        else st.curCtts
      else st.curCtts) := by
  simp only [cttsStep]
  repeat' split
  all_goals rfl

theorem cttsStep_cttsRemaining (c : FuseCtx) (st : FState) :
    (cttsStep c st).cttsRemaining =
      (if c.hasCtts then
        if st.cttsRemaining - 1 ≤ 0 then
          match cttsEntryAt c.cttsD c.cttsVersion st.cttsIdx with
          | some e => (e.Count : Int)
          | none => st.cttsRemaining - 1
        else st.cttsRemaining - 1
      else st.cttsRemaining) := by
  simp only [cttsStep]
  repeat' split
  all_goals rfl

theorem cttsStep_cttsIdx (c : FuseCtx) (st : FState) :
    (cttsStep c st).cttsIdx =
      (if c.hasCtts then
        if st.cttsRemaining - 1 ≤ 0 then
          match cttsEntryAt c.cttsD c.cttsVersion st.cttsIdx with
          | some _ => st.cttsIdx + 1
          | none => st.cttsIdx
        else st.cttsIdx
      else st.cttsIdx) := by
  simp only [cttsStep]
  repeat' split
  all_goals rfl

theorem syncStep_nextSync (c : FuseCtx) (st : FState) (b : Bool) :
    (syncStep c st b).nextSync =
      (if b && c.hasSync then
        match u32EntryAt c.stssD st.syncIdx with
        | some v => v
        | none => st.nextSync
      else st.nextSync) := by
  simp only [syncStep]
  repeat' split
  all_goals rfl

theorem syncStep_haveSync (c : FuseCtx) (st : FState) (b : Bool) :
    (syncStep c st b).haveSync =
      (if b && c.hasSync then
        match u32EntryAt c.stssD st.syncIdx with
        | some _ => st.haveSync
        | none => false
      else st.haveSync) := by
  simp only [syncStep]
  repeat' split
  all_goals rfl

theorem syncStep_syncIdx (c : FuseCtx) (st : FState) (b : Bool) :
    (syncStep c st b).syncIdx =
      (if b && c.hasSync then
        match u32EntryAt c.stssD st.syncIdx with
        | some _ => st.syncIdx + 1
        | none => st.syncIdx
      else st.syncIdx) := by
  simp only [syncStep]
  repeat' split
  all_goals rfl

end ISOBMFF

namespace ISOBMFF

theorem stepState_curStts (c : FuseCtx) (st : FState) (size : Nat) (b : Bool) :
    (stepState c st size b).curStts =
      (if st.sttsRemaining - 1 ≤ 0 then
        match sttsEntryAt c.sttsD st.sttsIdx with
        | some e => e
        | none => st.curStts
      else st.curStts) := by
  simp [stepState, sttsStep_curStts]

theorem stepState_sttsRemaining (c : FuseCtx) (st : FState) (size : Nat) (b : Bool) :
    (stepState c st size b).sttsRemaining =
      (if st.sttsRemaining - 1 ≤ 0 then
        match sttsEntryAt c.sttsD st.sttsIdx with
        | some e => (e.Count : Int)
        | none => st.sttsRemaining - 1
      else st.sttsRemaining - 1) := by
  simp [stepState, sttsStep_sttsRemaining]

theorem stepState_sttsIdx (c : FuseCtx) (st : FState) (size : Nat) (b : Bool) :
    (stepState c st size b).sttsIdx =
      (if st.sttsRemaining - 1 ≤ 0 then
        match sttsEntryAt c.sttsD st.sttsIdx with
        | some _ => st.sttsIdx + 1
        | none => st.sttsIdx
      else st.sttsIdx) := by
  simp [stepState, sttsStep_sttsIdx]

theorem stepState_curCtts (c : FuseCtx) (st : FState) (size : Nat) (b : Bool) :
    (stepState c st size b).curCtts =
      (if c.hasCtts then
        if st.cttsRemaining - 1 ≤ 0 then
          match cttsEntryAt c.cttsD c.cttsVersion st.cttsIdx with
          | some e => e
          | none => st.curCtts
        else st.curCtts
      else st.curCtts) := by
  simp [stepState, cttsStep_curCtts]

theorem stepState_cttsRemaining (c : FuseCtx) (st : FState) (size : Nat) (b : Bool) :
    (stepState c st size b).cttsRemaining =
      (if c.hasCtts then
        if st.cttsRemaining - 1 ≤ 0 then
          match cttsEntryAt c.cttsD c.cttsVersion st.cttsIdx with
          | some e => (e.Count : Int)
          | none => st.cttsRemaining - 1
        else st.cttsRemaining - 1
      else st.cttsRemaining) := by
  simp [stepState, cttsStep_cttsRemaining]

theorem stepState_cttsIdx (c : FuseCtx) (st : FState) (size : Nat) (b : Bool) :
    (stepState c st size b).cttsIdx =
      (if c.hasCtts then
        if st.cttsRemaining - 1 ≤ 0 then
          match cttsEntryAt c.cttsD c.cttsVersion st.cttsIdx with
          | some _ => st.cttsIdx + 1
          | none => st.cttsIdx
        else st.cttsIdx
      else st.cttsIdx) := by
  simp [stepState, cttsStep_cttsIdx]

theorem stepState_nextSync (c : FuseCtx) (st : FState) (size : Nat) (b : Bool) :
    (stepState c st size b).nextSync =
      (if b && c.hasSync then
        match u32EntryAt c.stssD st.syncIdx with
        | some v => v
        | none => st.nextSync
      else st.nextSync) := by
  simp [stepState, syncStep_nextSync]

theorem stepState_haveSync (c : FuseCtx) (st : FState) (size : Nat) (b : Bool) :
    (stepState c st size b).haveSync =
      (if b && c.hasSync then
        match u32EntryAt c.stssD st.syncIdx with
        | some _ => st.haveSync
        | none => false
      else st.haveSync) := by
  simp [stepState, syncStep_haveSync]

theorem stepState_syncIdx (c : FuseCtx) (st : FState) (size : Nat) (b : Bool) :
    (stepState c st size b).syncIdx =
      (if b && c.hasSync then
        match u32EntryAt c.stssD st.syncIdx with
        | some _ => st.syncIdx + 1
        | none => st.syncIdx
      else st.syncIdx) := by
  simp [stepState, syncStep_syncIdx]

end ISOBMFF

namespace ISOBMFF

/-! ## Run-exhaustion semantics of the time tables -/

/-- Number of entries the stts iterator can actually yield. -/
def sttsAvail (d : List Nat) : Nat := min (tblCount d) ((d.length - 4) / 8)

/-- The decoded stts runs (exactly the entries the iterator yields). -/
def sttsEntries (d : List Nat) : List SttsEntry :=
  (List.range (sttsAvail d)).map fun i =>
    ⟨readU32 d (4 + 8 * i), readU32 d (4 + 8 * i + 4)⟩

/-- Number of entries the ctts iterator can actually yield. -/
def cttsAvail (d : List Nat) : Nat := min (tblCount d) ((d.length - 4) / 8)

/-- The decoded ctts runs (exactly the entries the iterator yields). -/
def cttsEntries (d : List Nat) (version : Nat) : List CttsEntry :=
  (List.range (cttsAvail d)).map fun i =>
    ⟨readU32 d (4 + 8 * i),
      if version = 1 then toSigned32 (readU32 d (4 + 8 * i + 4))
      else (readU32 d (4 + 8 * i + 4) : Int)⟩

theorem sttsEntryAt_eq (d : List Nat) (i : Nat) :
    sttsEntryAt d i = (sttsEntries d)[i]? := by
  unfold sttsEntryAt sttsEntries sttsAvail
  by_cases h : i < min (tblCount d) ((d.length - 4) / 8)
  · rw [if_pos ⟨by omega, by omega⟩, List.getElem?_map,
      List.getElem?_range (by omega)]
    rfl
  · rw [if_neg (by omega), List.getElem?_map]
    rw [List.getElem?_eq_none (by simpa using by omega)]
    rfl

theorem cttsEntryAt_eq (d : List Nat) (v : Nat) (i : Nat) :
    cttsEntryAt d v i = (cttsEntries d v)[i]? := by
  unfold cttsEntryAt cttsEntries cttsAvail
  by_cases h : i < min (tblCount d) ((d.length - 4) / 8)
  · rw [if_pos ⟨by omega, by omega⟩, List.getElem?_map,
      List.getElem?_range (by omega)]
    rfl
  · rw [if_neg (by omega), List.getElem?_map]
    rw [List.getElem?_eq_none (by simpa using by omega)]
    rfl

/-- The stts projection of the fusion loop: the durations it assigns to
the next `k` samples from a given run state. -/
def simStts (d : List Nat) : Nat → SttsEntry → Int → Nat → List Nat
  | 0, _, _, _ => []
  | k+1, cur, rem, idx =>
    cur.Duration ::
      (if rem - 1 ≤ 0 then
        match sttsEntryAt d idx with
        | some e => simStts d k e (e.Count : Int) (idx + 1)
        | none => simStts d k cur (rem - 1) idx
      else simStts d k cur (rem - 1) idx)

/-- The ctts projection of the fusion loop: the composition offsets it
assigns to the next `k` samples (0 once the residual is exhausted). -/
def simCtts (d : List Nat) (v : Nat) : Nat → CttsEntry → Int → Nat → List Int
  | 0, _, _, _ => []
  | k+1, cur, rem, idx =>
    (if rem > 0 then cur.Offset else 0) ::
      (if rem - 1 ≤ 0 then
        match cttsEntryAt d v idx with
        | some e => simCtts d v k e (e.Count : Int) (idx + 1)
        | none => simCtts d v k cur (rem - 1) idx
      else simCtts d v k cur (rem - 1) idx)

theorem simStts_exhausted (d : List Nat) :
    ∀ (k : Nat) (cur : SttsEntry) (rem : Int) (idx : Nat), rem ≤ 0 →
      sttsEntryAt d idx = none →
      simStts d k cur rem idx = List.replicate k cur.Duration := by
  intro k
  induction k with
  | zero => intro cur rem idx _ _; rfl
  | succ k ih =>
    intro cur rem idx hrem hnone
    simp only [simStts, hnone, if_pos (by omega : rem - 1 ≤ 0)]
    rw [ih cur (rem - 1) idx (by omega) hnone]
    rfl

theorem simCtts_exhausted (d : List Nat) (v : Nat) :
    ∀ (k : Nat) (cur : CttsEntry) (rem : Int) (idx : Nat), rem ≤ 0 →
      cttsEntryAt d v idx = none →
      simCtts d v k cur rem idx = List.replicate k 0 := by
  intro k
  induction k with
  | zero => intro cur rem idx _ _; rfl
  | succ k ih =>
    intro cur rem idx hrem hnone
    simp only [simCtts, hnone, if_pos (by omega : rem - 1 ≤ 0),
      if_neg (by omega : ¬ rem > 0)]
    rw [ih cur (rem - 1) idx (by omega) hnone]
    rfl

end ISOBMFF

namespace ISOBMFF

/-- The declared per-sample duration stream: each stts run expanded to
`count` copies of its duration. -/
def expandStts (rs : List SttsEntry) : List Nat :=
  rs.flatMap fun r => List.replicate r.Count r.Duration

/-- The declared per-sample composition-offset stream. -/
def expandCtts (rs : List CttsEntry) : List Int :=
  rs.flatMap fun r => List.replicate r.Count r.Offset

theorem simStts_spec (d : List Nat) :
    ∀ (k : Nat) (cur : SttsEntry) (rem : Int) (idx : Nat),
      0 < rem →
      (∀ e ∈ (sttsEntries d).drop idx, 0 < e.Count) →
      simStts d k cur rem idx =
        (List.replicate rem.toNat cur.Duration ++
          expandStts ((sttsEntries d).drop idx)).take k ++
        List.replicate
          (k - (rem.toNat + (expandStts ((sttsEntries d).drop idx)).length))
          (((sttsEntries d).drop idx).getLastD cur).Duration := by
  intro k
  induction k with
  | zero => intro cur rem idx _ _; simp [simStts]
  | succ k ih =>
    intro cur rem idx hrem hpos
    have htn : rem.toNat = (rem - 1).toNat + 1 := by omega
    simp only [simStts]
    by_cases hc : rem - 1 ≤ 0
    · have hrem1 : rem = 1 := by omega
      rw [if_pos hc]
      cases hent : sttsEntryAt d idx with
      | some e =>
        show cur.Duration :: simStts d k e (e.Count : Int) (idx + 1) = _
        have hidx : idx < (sttsEntries d).length := by
          by_contra hge
          rw [sttsEntryAt_eq, List.getElem?_eq_none (by omega)] at hent
          exact absurd hent (by simp)
        have hdrop : (sttsEntries d).drop idx =
            (sttsEntries d)[idx] :: (sttsEntries d).drop (idx + 1) :=
          List.drop_eq_getElem_cons hidx
        have hget : (sttsEntries d)[idx] = e := by
          rw [sttsEntryAt_eq, List.getElem?_eq_getElem hidx] at hent
          exact Option.some_injective _ hent
        have hepos : 0 < (e.Count : Int) := by
          have := hpos e (by rw [hdrop, hget]; exact List.mem_cons_self _ _)
          omega
        have hsub : ∀ x ∈ (sttsEntries d).drop (idx + 1), 0 < x.Count := by
          intro x hx
          apply hpos x
          rw [hdrop]
          exact List.mem_cons_of_mem _ hx
        rw [ih e (e.Count : Int) (idx + 1) hepos hsub]
        rw [hdrop, hget]
        simp only [expandStts, List.flatMap_cons, List.getLastD_cons, hrem1]
        have h1 : ((1 : Int)).toNat = 1 := rfl
        rw [h1]
        simp only [List.replicate_one, List.singleton_append, List.take_succ_cons,
          List.length_cons, List.length_append, Int.toNat_natCast]
        rw [List.cons_append]
        congr 1
        simp only [List.length_replicate]
        have harith : ∀ A : Nat, k + 1 - (1 + A) = k - A := fun A => by omega
        rw [harith]
      | none =>
        show cur.Duration :: simStts d k cur (rem - 1) idx = _
        have hdrop : (sttsEntries d).drop idx = [] := by
          rw [sttsEntryAt_eq] at hent
          rw [List.drop_eq_nil_iff]
          by_contra hlt
          rw [List.getElem?_eq_getElem (by omega)] at hent
          exact absurd hent (by simp)
        rw [simStts_exhausted d k cur (rem - 1) idx (by omega) hent]
        rw [hdrop, hrem1]
        simp [expandStts, List.replicate_succ]
    · rw [if_neg hc]
      rw [ih cur (rem - 1) idx (by omega) hpos]
      rw [htn]
      simp only [List.replicate_succ, List.cons_append, List.take_succ_cons,
        List.length_append, List.length_replicate]
      have harith : ∀ A B : Nat, k + 1 - (A + 1 + B) = k - (A + B) := fun A B => by omega
      rw [harith]

end ISOBMFF

namespace ISOBMFF

theorem simCtts_spec (d : List Nat) (v : Nat) :
    ∀ (k : Nat) (cur : CttsEntry) (rem : Int) (idx : Nat),
      0 < rem →
      (∀ e ∈ (cttsEntries d v).drop idx, 0 < e.Count) →
      simCtts d v k cur rem idx =
        (List.replicate rem.toNat cur.Offset ++
          expandCtts ((cttsEntries d v).drop idx)).take k ++
        List.replicate
          (k - (rem.toNat + (expandCtts ((cttsEntries d v).drop idx)).length))
          0 := by
  intro k
  induction k with
  | zero => intro cur rem idx _ _; simp [simCtts]
  | succ k ih =>
    intro cur rem idx hrem hpos
    have htn : rem.toNat = (rem - 1).toNat + 1 := by omega
    simp only [simCtts, if_pos hrem]
    by_cases hc : rem - 1 ≤ 0
    · have hrem1 : rem = 1 := by omega
      rw [if_pos hc]
      cases hent : cttsEntryAt d v idx with
      | some e =>
        show cur.Offset :: simCtts d v k e (e.Count : Int) (idx + 1) = _
        have hidx : idx < (cttsEntries d v).length := by
          by_contra hge
          rw [cttsEntryAt_eq, List.getElem?_eq_none (by omega)] at hent
          exact absurd hent (by simp)
        have hdrop : (cttsEntries d v).drop idx =
            (cttsEntries d v)[idx] :: (cttsEntries d v).drop (idx + 1) :=
          List.drop_eq_getElem_cons hidx
        have hget : (cttsEntries d v)[idx] = e := by
          rw [cttsEntryAt_eq, List.getElem?_eq_getElem hidx] at hent
          exact Option.some_injective _ hent
        have hepos : 0 < (e.Count : Int) := by
          have := hpos e (by rw [hdrop, hget]; exact List.mem_cons_self _ _)
          omega
        have hsub : ∀ x ∈ (cttsEntries d v).drop (idx + 1), 0 < x.Count := by
          intro x hx
          apply hpos x
          rw [hdrop]
          exact List.mem_cons_of_mem _ hx
        rw [ih e (e.Count : Int) (idx + 1) hepos hsub]
        rw [hdrop, hget]
        simp only [expandCtts, List.flatMap_cons, hrem1]
        have h1 : ((1 : Int)).toNat = 1 := rfl
        rw [h1]
        simp only [List.replicate_one, List.singleton_append, List.take_succ_cons,
          List.length_cons, List.length_append, Int.toNat_natCast]
        rw [List.cons_append]
        congr 1
        simp only [List.length_replicate]
        have harith : ∀ A : Nat, k + 1 - (1 + A) = k - A := fun A => by omega
        rw [harith]
      | none =>
        show cur.Offset :: simCtts d v k cur (rem - 1) idx = _
        have hdrop : (cttsEntries d v).drop idx = [] := by
          rw [cttsEntryAt_eq] at hent
          rw [List.drop_eq_nil_iff]
          by_contra hlt
          rw [List.getElem?_eq_getElem (by omega)] at hent
          exact absurd hent (by simp)
        rw [simCtts_exhausted d v k cur (rem - 1) idx (by omega) hent]
        rw [hdrop, hrem1]
        simp [expandCtts, List.replicate_succ]
    · rw [if_neg hc]
      rw [ih cur (rem - 1) idx (by omega) hpos]
      rw [htn]
      simp only [List.replicate_succ, List.cons_append, List.take_succ_cons,
        List.length_append, List.length_replicate]
      have harith : ∀ A B : Nat, k + 1 - (A + 1 + B) = k - (A + B) := fun A B => by omega
      rw [harith]

end ISOBMFF

namespace ISOBMFF

theorem fuseFrom_durations (c : FuseCtx) :
    ∀ (fuel i : Nat) (st : FState) (l : List Sample) (fin : StscEntry),
      fuseFrom c fuel i st = .ok (l, fin) →
      l.map (·.Duration) =
        simStts c.sttsD l.length st.curStts st.sttsRemaining st.sttsIdx := by
  intro fuel
  induction fuel with
  | zero =>
    intro i st l fin h
    simp only [fuseFrom] at h
    cases h
    rfl
  | succ fuel ih =>
    intro i st l fin h
    simp only [fuseFrom] at h
    cases hsz : stszNext c.stszD st.stszIdx with
    | none => rw [hsz] at h; exact absurd h (by simp)
    | some size =>
      rw [hsz] at h
      simp only [] at h
      split at h
      · cases h
        simp only [List.map_cons, List.map_nil, List.length_cons, List.length_nil]
        show [st.curStts.Duration] = simStts c.sttsD 1 _ _ _
        simp only [simStts]
        repeat' split
        all_goals rfl
      · rename_i hgt
        cases hr : fuseFrom c fuel (i + 1)
            (stepState c { st with stszIdx := st.stszIdx + 1 } size
              (if c.hasSync then st.haveSync && (st.nextSync == i + 1) else true)) with
        | error e => rw [hr] at h; exact absurd h (by simp)
        | ok res =>
          rw [hr] at h
          cases h
          have hih := ih (i + 1) _ res.1 res.2 (by rw [hr])
          simp only [List.map_cons, List.length_cons]
          rw [hih]
          rw [stepState_curStts, stepState_sttsRemaining, stepState_sttsIdx]
          show _ = simStts c.sttsD (res.1.length + 1) st.curStts st.sttsRemaining st.sttsIdx
          simp only [simStts]
          by_cases hcnd : st.sttsRemaining - 1 ≤ 0
          · simp only [if_pos hcnd]
            cases he : sttsEntryAt c.sttsD st.sttsIdx <;> rfl
          · simp only [if_neg hcnd]

theorem fuseFrom_presOffs (c : FuseCtx) (hct : c.hasCtts = true) :
    ∀ (fuel i : Nat) (st : FState) (l : List Sample) (fin : StscEntry),
      fuseFrom c fuel i st = .ok (l, fin) →
      l.map (·.PresentationOffset) =
        simCtts c.cttsD c.cttsVersion l.length st.curCtts st.cttsRemaining
          st.cttsIdx := by
  intro fuel
  induction fuel with
  | zero =>
    intro i st l fin h
    simp only [fuseFrom] at h
    cases h
    rfl
  | succ fuel ih =>
    intro i st l fin h
    simp only [fuseFrom] at h
    cases hsz : stszNext c.stszD st.stszIdx with
    | none => rw [hsz] at h; exact absurd h (by simp)
    | some size =>
      rw [hsz] at h
      simp only [] at h
      split at h
      · cases h
        simp only [List.map_cons, List.map_nil, List.length_cons, List.length_nil]
        show [if c.hasCtts ∧ st.cttsRemaining > 0 then st.curCtts.Offset else 0] =
          simCtts c.cttsD c.cttsVersion 1 _ _ _
        simp only [simCtts, hct, true_and]
        repeat' split
        all_goals rfl
      · rename_i hgt
        cases hr : fuseFrom c fuel (i + 1)
            (stepState c { st with stszIdx := st.stszIdx + 1 } size
              (if c.hasSync then st.haveSync && (st.nextSync == i + 1) else true)) with
        | error e => rw [hr] at h; exact absurd h (by simp)
        | ok res =>
          rw [hr] at h
          cases h
          have hih := ih (i + 1) _ res.1 res.2 (by rw [hr])
          simp only [List.map_cons, List.length_cons]
          rw [hih]
          rw [stepState_curCtts, stepState_cttsRemaining, stepState_cttsIdx]
          show _ = simCtts c.cttsD c.cttsVersion (res.1.length + 1) st.curCtts
            st.cttsRemaining st.cttsIdx
          simp only [simCtts, hct, if_true, true_and]
          by_cases hcnd : st.cttsRemaining - 1 ≤ 0
          · simp only [if_pos hcnd]
            cases he : cttsEntryAt c.cttsD c.cttsVersion st.cttsIdx <;> rfl
          · simp only [if_neg hcnd]

end ISOBMFF

namespace ISOBMFF

/-- Number of sizes the stsz iterator can actually yield. -/
def stszAvail (d : List Nat) : Nat :=
  if stszSampleSize d ≠ 0 then stszCount d
  else min (stszCount d) ((d.length - 8) / 4)

theorem stszNext_none_iff (d : List Nat) (i : Nat) :
    stszNext d i = none ↔ stszAvail d ≤ i := by
  unfold stszNext stszAvail
  by_cases hi : i < stszCount d
  · rw [if_pos hi]
    by_cases hss : stszSampleSize d ≠ 0
    · rw [if_pos hss, if_pos hss]
      simp
      omega
    · rw [if_neg hss, if_neg hss]
      by_cases hb : 8 + 4 * i + 4 ≤ d.length
      · rw [if_pos hb]
        simp
        omega
      · rw [if_neg hb]
        simp
        omega
  · rw [if_neg hi]
    by_cases hss : stszSampleSize d ≠ 0
    · rw [if_pos hss]
      simp
      omega
    · rw [if_neg hss]
      simp
      omega

theorem stepState_stszIdx (c : FuseCtx) (st : FState) (size : Nat) (b : Bool) :
    (stepState c st size b).stszIdx = st.stszIdx := by
  simp [stepState]

theorem fuseFrom_stsz_exhaust (c : FuseCtx) :
    ∀ (fuel i : Nat) (st : FState),
      st.stszIdx = i → i ≤ stszAvail c.stszD → stszAvail c.stszD < c.numSamples →
      c.numSamples - i ≤ fuel →
      fuseFrom c fuel i st = .error .corruptData := by
  intro fuel
  induction fuel with
  | zero => intro i st _ h2 h3 h4; omega
  | succ fuel ih =>
    intro i st hidx hle hlt hfuel
    simp only [fuseFrom]
    by_cases hi : i = stszAvail c.stszD
    · have hnone : stszNext c.stszD st.stszIdx = none := by
        rw [hidx, hi, stszNext_none_iff]
      rw [hnone]
    · have hi2 : i < stszAvail c.stszD := by omega
      have hsome : ∃ v, stszNext c.stszD st.stszIdx = some v := by
        cases hv : stszNext c.stszD st.stszIdx with
        | none => rw [stszNext_none_iff, hidx] at hv; omega
        | some v => exact ⟨v, rfl⟩
      obtain ⟨v, hv⟩ := hsome
      rw [hv]
      simp only []
      rw [if_neg (by omega : ¬ c.numSamples ≤ i + 1)]
      have hidx2 : (stepState c { st with stszIdx := st.stszIdx + 1 } v
          (if c.hasSync then st.haveSync && (st.nextSync == i + 1) else true)).stszIdx
          = i + 1 := by
        rw [stepState_stszIdx]
        simp [hidx]
      rw [ih (i + 1) _ hidx2 (by omega) hlt (by omega)]

end ISOBMFF

namespace ISOBMFF

theorem parseSamples_ok_zero (t u : Track) (hs : t.Samples = none)
    (hne0 : stszCount (t.stszData.getD []) = 0) (h : t.parseSamples = .ok u) :
    u = { t with Samples := some [] } := by
  unfold Track.parseSamples at h
  rw [if_neg (by simp [hs])] at h
  by_cases hm1 : t.stszData = none ∨ t.sttsData = none ∨ t.stscData = none
  · rw [if_pos hm1] at h
    exact absurd h (by simp)
  rw [if_neg hm1] at h
  by_cases hm2 : t.stcoData = none ∧ t.co64Data = none
  · rw [if_pos hm2] at h
    exact absurd h (by simp)
  rw [if_neg hm2, if_pos hne0] at h
  cases h
  rfl

theorem parseSamples_ok_inv (t u : Track) (hs : t.Samples = none)
    (hne : stszCount (t.stszData.getD []) ≠ 0)
    (h : t.parseSamples = .ok u) :
    ∃ curStsc curStts res,
      stscEntryAt (t.stscData.getD []) 0 = some curStsc ∧
      sttsEntryAt (t.sttsData.getD []) 0 = some curStts ∧
      fuseFrom (fuseCtxOf t) (stszCount (t.stszData.getD [])) 0
        (initState t curStsc curStts) = .ok res ∧
      u = { t with
        Samples := some res.1,
        SampleDescIdx := res.2.SampleDescriptionId } := by
  unfold Track.parseSamples at h
  rw [if_neg (by simp [hs])] at h
  by_cases hm1 : t.stszData = none ∨ t.sttsData = none ∨ t.stscData = none
  · rw [if_pos hm1] at h
    exact absurd h (by simp)
  rw [if_neg hm1] at h
  by_cases hm2 : t.stcoData = none ∧ t.co64Data = none
  · rw [if_pos hm2] at h
    exact absurd h (by simp)
  rw [if_neg hm2, if_neg hne] at h
  cases hstsc0 : stscEntryAt (t.stscData.getD []) 0 with
  | none => rw [hstsc0] at h; exact absurd h (by simp)
  | some cs =>
    simp only [hstsc0] at h
    cases hstts0 : sttsEntryAt (t.sttsData.getD []) 0 with
    | none => rw [hstts0] at h; exact absurd h (by simp)
    | some ct =>
      simp only [hstts0] at h
      cases hfuse : fuseFrom (fuseCtxOf t) (stszCount (t.stszData.getD [])) 0
          (initState t cs ct) with
      | error e => rw [hfuse] at h; exact absurd h (by simp)
      | ok res =>
        rw [hfuse] at h
        cases h
        exact ⟨cs, ct, res, rfl, rfl, hfuse, rfl⟩

end ISOBMFF

namespace ISOBMFF

theorem initState_stts (t : Track) (cs : StscEntry) (ct : SttsEntry) :
    (initState t cs ct).curStts = ct ∧
    (initState t cs ct).sttsRemaining = (ct.Count : Int) ∧
    (initState t cs ct).sttsIdx = 1 :=
  ⟨rfl, rfl, rfl⟩

theorem sttsEntries_head (d : List Nat) (e : SttsEntry)
    (h : sttsEntryAt d 0 = some e) :
    sttsEntries d = e :: (sttsEntries d).drop 1 := by
  rw [sttsEntryAt_eq] at h
  have hlen : 0 < (sttsEntries d).length := by
    by_contra hle
    rw [List.getElem?_eq_none (by omega)] at h
    exact absurd h (by simp)
  have h0 : (sttsEntries d)[0] = e := by
    rw [List.getElem?_eq_getElem hlen] at h
    exact Option.some_injective _ h
  have := List.drop_eq_getElem_cons hlen
  rw [List.drop_zero] at this
  rw [← h0]
  simpa using this

theorem parseSamples_durations_padded (t u : Track) (l : List Sample)
    (hs : t.Samples = none) (h : t.parseSamples = .ok u)
    (hl : u.Samples = some l)
    (hpos : ∀ e ∈ sttsEntries (t.sttsData.getD []), 0 < e.Count) :
    l.map (·.Duration) =
      (expandStts (sttsEntries (t.sttsData.getD []))).take l.length ++
      List.replicate
        (l.length - (expandStts (sttsEntries (t.sttsData.getD []))).length)
        ((sttsEntries (t.sttsData.getD [])).getLastD ⟨0, 0⟩).Duration := by
  by_cases hne : stszCount (t.stszData.getD []) = 0
  · have hu := parseSamples_ok_zero t u hs hne h
    rw [hu] at hl
    simp only at hl
    have : l = [] := by
      injection hl with hl2
      exact hl2.symm
    subst this
    simp
  · obtain ⟨cs, ct, res, hstsc0, hstts0, hfuse, hu⟩ :=
      parseSamples_ok_inv t u hs hne h
    have hl2 : l = res.1 := by
      rw [hu] at hl
      simp only at hl
      injection hl with hl3
      exact hl3.symm
    subst hl2
    have hmap := fuseFrom_durations (fuseCtxOf t) _ 0 _ res.1 res.2 hfuse
    have hcons : sttsEntries (t.sttsData.getD []) =
        ct :: (sttsEntries (t.sttsData.getD [])).drop 1 :=
      sttsEntries_head _ _ hstts0
    have hctpos : 0 < ((ct.Count : Nat) : Int) := by
      have := hpos ct (by rw [hcons]; exact List.mem_cons_self _ _)
      omega
    have hdpos : ∀ e ∈ (sttsEntries (t.sttsData.getD [])).drop 1, 0 < e.Count := by
      intro e he
      apply hpos e
      rw [hcons]
      exact List.mem_cons_of_mem _ he
    have hspec := simStts_spec (t.sttsData.getD []) res.1.length ct
      (ct.Count : Int) 1 hctpos hdpos
    have hinit : (initState t cs ct).curStts = ct := rfl
    have hinit2 : (initState t cs ct).sttsRemaining = (ct.Count : Int) := rfl
    have hinit3 : (initState t cs ct).sttsIdx = 1 := rfl
    rw [hinit, hinit2, hinit3] at hmap
    rw [show (fuseCtxOf t).sttsD = t.sttsData.getD [] from rfl] at hmap
    rw [hmap, hspec]
    conv_rhs => rw [hcons]
    simp only [expandStts, List.flatMap_cons, Int.toNat_natCast,
      List.getLastD_cons, List.length_append, List.length_replicate]

end ISOBMFF

namespace ISOBMFF

theorem cttsEntries_head (d : List Nat) (v : Nat) (e : CttsEntry)
    (h : cttsEntryAt d v 0 = some e) :
    cttsEntries d v = e :: (cttsEntries d v).drop 1 := by
  rw [cttsEntryAt_eq] at h
  have hlen : 0 < (cttsEntries d v).length := by
    by_contra hle
    rw [List.getElem?_eq_none (by omega)] at h
    exact absurd h (by simp)
  have h0 : (cttsEntries d v)[0] = e := by
    rw [List.getElem?_eq_getElem hlen] at h
    exact Option.some_injective _ h
  have := List.drop_eq_getElem_cons hlen
  rw [List.drop_zero] at this
  rw [← h0]
  simpa using this

theorem fuseCtxOf_hasCtts (t : Track) (hctts : t.cttsData ≠ none) :
    (fuseCtxOf t).hasCtts = true := by
  simp [fuseCtxOf, hctts]

theorem initState_ctts_some (t : Track) (cs : StscEntry) (ct : SttsEntry)
    (hctts : t.cttsData ≠ none) (e : CttsEntry)
    (h0 : cttsEntryAt (t.cttsData.getD []) t.cttsVersion 0 = some e) :
    (initState t cs ct).curCtts = e ∧
    (initState t cs ct).cttsRemaining = (e.Count : Int) ∧
    (initState t cs ct).cttsIdx = 1 := by
  simp only [initState, fuseCtxOf_hasCtts t hctts, if_true]
  rw [show (fuseCtxOf t).cttsD = t.cttsData.getD [] from rfl,
    show (fuseCtxOf t).cttsVersion = t.cttsVersion from rfl, h0]
  refine ⟨?_, ?_, ?_⟩ <;> trivial

theorem initState_ctts_none (t : Track) (cs : StscEntry) (ct : SttsEntry)
    (h0 : cttsEntryAt (t.cttsData.getD []) t.cttsVersion 0 = none) :
    (initState t cs ct).curCtts = ⟨0, 0⟩ ∧
    (initState t cs ct).cttsRemaining = 0 ∧
    (initState t cs ct).cttsIdx = 0 := by
  simp only [initState]
  by_cases hb : (fuseCtxOf t).hasCtts = true
  · simp only [hb, if_true]
    rw [show (fuseCtxOf t).cttsD = t.cttsData.getD [] from rfl,
      show (fuseCtxOf t).cttsVersion = t.cttsVersion from rfl, h0]
    refine ⟨?_, ?_, ?_⟩ <;> trivial
  · simp only [Bool.not_eq_true] at hb
    simp only [hb, Bool.false_eq_true, if_false]
    refine ⟨?_, ?_, ?_⟩ <;> trivial

theorem parseSamples_presOffs_padded (t u : Track) (l : List Sample)
    (hs : t.Samples = none) (h : t.parseSamples = .ok u)
    (hl : u.Samples = some l) (hctts : t.cttsData ≠ none)
    (hpos : ∀ e ∈ cttsEntries (t.cttsData.getD []) t.cttsVersion, 0 < e.Count) :
    l.map (·.PresentationOffset) =
      (expandCtts (cttsEntries (t.cttsData.getD []) t.cttsVersion)).take l.length ++
      List.replicate
        (l.length -
          (expandCtts (cttsEntries (t.cttsData.getD []) t.cttsVersion)).length)
        0 := by
  by_cases hne : stszCount (t.stszData.getD []) = 0
  · have hu := parseSamples_ok_zero t u hs hne h
    rw [hu] at hl
    simp only at hl
    have : l = [] := by
      injection hl with hl2
      exact hl2.symm
    subst this
    simp
  · obtain ⟨cs, ct, res, hstsc0, hstts0, hfuse, hu⟩ :=
      parseSamples_ok_inv t u hs hne h
    have hl2 : l = res.1 := by
      rw [hu] at hl
      simp only at hl
      injection hl with hl3
      exact hl3.symm
    subst hl2
    have hmap := fuseFrom_presOffs (fuseCtxOf t) (fuseCtxOf_hasCtts t hctts)
      _ 0 _ res.1 res.2 hfuse
    rw [show (fuseCtxOf t).cttsD = t.cttsData.getD [] from rfl,
      show (fuseCtxOf t).cttsVersion = t.cttsVersion from rfl] at hmap
    cases hct0 : cttsEntryAt (t.cttsData.getD []) t.cttsVersion 0 with
    | some e0 =>
      obtain ⟨hi1, hi2, hi3⟩ := initState_ctts_some t cs ct hctts e0 hct0
      rw [hi1, hi2, hi3] at hmap
      have hcons : cttsEntries (t.cttsData.getD []) t.cttsVersion =
          e0 :: (cttsEntries (t.cttsData.getD []) t.cttsVersion).drop 1 :=
        cttsEntries_head _ _ _ hct0
      have he0pos : 0 < ((e0.Count : Nat) : Int) := by
        have := hpos e0 (by rw [hcons]; exact List.mem_cons_self _ _)
        omega
      have hdpos : ∀ e ∈ (cttsEntries (t.cttsData.getD []) t.cttsVersion).drop 1,
          0 < e.Count := by
        intro e he
        apply hpos e
        rw [hcons]
        exact List.mem_cons_of_mem _ he
      have hspec := simCtts_spec (t.cttsData.getD []) t.cttsVersion
        res.1.length e0 (e0.Count : Int) 1 he0pos hdpos
      rw [hmap, hspec]
      conv_rhs => rw [hcons]
      simp only [expandCtts, List.flatMap_cons, Int.toNat_natCast,
        List.length_append, List.length_replicate]
    | none =>
      obtain ⟨hi1, hi2, hi3⟩ := initState_ctts_none t cs ct hct0
      rw [hi1, hi2, hi3] at hmap
      have hnil : cttsEntries (t.cttsData.getD []) t.cttsVersion = [] := by
        rw [cttsEntryAt_eq] at hct0
        rw [← List.length_eq_zero]
        by_contra hlen
        rw [List.getElem?_eq_getElem (by omega)] at hct0
        exact absurd hct0 (by simp)
      rw [hmap, simCtts_exhausted _ _ _ _ _ _ (le_refl 0) hct0, hnil]
      simp [expandCtts]

end ISOBMFF

namespace ISOBMFF

theorem parseSamples_stsz_exhausted (t : Track) (hs : t.Samples = none)
    (h1 : t.stszData ≠ none) (h2 : t.sttsData ≠ none) (h3 : t.stscData ≠ none)
    (h4 : ¬(t.stcoData = none ∧ t.co64Data = none))
    (hstsc : stscEntryAt (t.stscData.getD []) 0 ≠ none)
    (hstts : sttsEntryAt (t.sttsData.getD []) 0 ≠ none)
    (hexh : stszAvail (t.stszData.getD []) < stszCount (t.stszData.getD [])) :
    t.parseSamples = .error .corruptData := by
  unfold Track.parseSamples
  rw [if_neg (by simp [hs]), if_neg (by simp [h1, h2, h3]), if_neg h4,
    if_neg (by omega : ¬ stszCount (t.stszData.getD []) = 0)]
  obtain ⟨cs, hcs⟩ := Option.ne_none_iff_exists'.mp hstsc
  obtain ⟨ct, hct⟩ := Option.ne_none_iff_exists'.mp hstts
  simp only [hcs, hct]
  rw [fuseFrom_stsz_exhaust (fuseCtxOf t) (stszCount (t.stszData.getD [])) 0
    (initState t cs ct) rfl (Nat.zero_le _) hexh (Nat.sub_le _ _)]

end ISOBMFF

namespace ISOBMFF

/-- C6 (amended): during sample fusion, when the stts iterator yields
fewer runs than there are samples the remaining samples continue to use
the last run's duration; when the ctts iterator is exhausted the
remaining samples carry composition offset 0 (not the last run's
offset); and when the stsz iterator is exhausted before all declared
samples are read, `parseSamples` fails the track with the corrupt-data
error. Durations and offsets are stated against the declared run
expansions, padded as described, for tables whose runs all have
positive counts. -/
theorem claim_C6_exhaustion (t : Track) (hs : t.Samples = none) :
    (∀ u l, t.parseSamples = .ok u → u.Samples = some l →
      ((∀ e ∈ sttsEntries (t.sttsData.getD []), 0 < e.Count) →
        l.map (·.Duration) =
          (expandStts (sttsEntries (t.sttsData.getD []))).take l.length ++
          List.replicate
            (l.length - (expandStts (sttsEntries (t.sttsData.getD []))).length)
            ((sttsEntries (t.sttsData.getD [])).getLastD ⟨0, 0⟩).Duration) ∧
      (t.cttsData ≠ none →
        (∀ e ∈ cttsEntries (t.cttsData.getD []) t.cttsVersion, 0 < e.Count) →
        l.map (·.PresentationOffset) =
          (expandCtts (cttsEntries (t.cttsData.getD []) t.cttsVersion)).take
            l.length ++
          List.replicate
            (l.length -
              (expandCtts (cttsEntries (t.cttsData.getD []) t.cttsVersion)).length)
            0)) ∧
    (t.stszData ≠ none → t.sttsData ≠ none → t.stscData ≠ none →
      ¬(t.stcoData = none ∧ t.co64Data = none) →
      stscEntryAt (t.stscData.getD []) 0 ≠ none →
      sttsEntryAt (t.sttsData.getD []) 0 ≠ none →
      stszAvail (t.stszData.getD []) < stszCount (t.stszData.getD []) →
      t.parseSamples = .error .corruptData) := by
  constructor
  · intro u l hok hl
    exact ⟨fun hpos => parseSamples_durations_padded t u l hs hok hl hpos,
      fun hctts hpos => parseSamples_presOffs_padded t u l hs hok hl hctts hpos⟩
  · intro h1 h2 h3 h4 h5 h6 h7
    exact parseSamples_stsz_exhausted t hs h1 h2 h3 h4 h5 h6 h7

/-- A track whose stts declares durations for only 2 of its 4 samples
and whose ctts covers only the first sample. -/
def exC6 : Track :=
  { stszData := some [0,0,0,5, 0,0,0,4],
    sttsData := some [0,0,0,1, 0,0,0,2, 0,0,0,10],
    stscData := some [0,0,0,1, 0,0,0,1, 0,0,0,9, 0,0,0,1],
    stcoData := some [0,0,0,1, 0,0,0,0],
    cttsData := some [0,0,0,1, 0,0,0,1, 0,0,0,7] }

/-- The parsed form of `exC6`. -/
def exC6p : Track := exC6.parseSamples.toOption.getD {}

/-- A track whose per-sample stsz declares 3 samples but stores only one
size entry. -/
def exC6bad : Track :=
  { stszData := some [0,0,0,0, 0,0,0,3, 0,0,0,10],
    sttsData := some [0,0,0,1, 0,0,0,3, 0,0,0,1],
    stscData := some [0,0,0,1, 0,0,0,1, 0,0,0,9, 0,0,0,1],
    stcoData := some [0,0,0,1, 0,0,0,0] }

theorem claim_C6_exhaustion_witness :
    ((exC6p.Samples.getD []).map (·.Duration) =
      (expandStts (sttsEntries (exC6.sttsData.getD []))).take
        (exC6p.Samples.getD []).length ++
      List.replicate
        ((exC6p.Samples.getD []).length -
          (expandStts (sttsEntries (exC6.sttsData.getD []))).length)
        ((sttsEntries (exC6.sttsData.getD [])).getLastD ⟨0, 0⟩).Duration) ∧
    ((exC6p.Samples.getD []).map (·.PresentationOffset) =
      (expandCtts (cttsEntries (exC6.cttsData.getD []) exC6.cttsVersion)).take
        (exC6p.Samples.getD []).length ++
      List.replicate
        ((exC6p.Samples.getD []).length -
          (expandCtts (cttsEntries (exC6.cttsData.getD [])
            exC6.cttsVersion)).length)
        0) ∧
    exC6bad.parseSamples = .error .corruptData :=
  ⟨((claim_C6_exhaustion exC6 (by decide)).1 exC6p (exC6p.Samples.getD [])
      (by decide) (by decide)).1 (by decide),
    ((claim_C6_exhaustion exC6 (by decide)).1 exC6p (exC6p.Samples.getD [])
      (by decide) (by decide)).2 (by decide) (by decide),
    (claim_C6_exhaustion exC6bad (by decide)).2 (by decide) (by decide)
      (by decide) (by decide) (by decide) (by decide) (by decide)⟩

/-- The claimed behaviour for ctts is refuted: with a single ctts run
`{count 1, offset 7}` and three samples, the code emits offsets
`[7, 0, 0]`, not `[7, 7, 7]` as continuing the last-seen run would. -/
def exC6ctts : Track :=
  { stszData := some [0,0,0,9, 0,0,0,3],
    sttsData := some [0,0,0,1, 0,0,0,3, 0,0,0,1],
    stscData := some [0,0,0,1, 0,0,0,1, 0,0,0,9, 0,0,0,1],
    stcoData := some [0,0,0,1, 0,0,0,0],
    cttsData := some [0,0,0,1, 0,0,0,1, 0,0,0,7] }

/-- The parsed form of `exC6ctts`. -/
def exC6cttsP : Track := exC6ctts.parseSamples.toOption.getD {}

theorem claim_C6_counterexample :
    exC6ctts.parseSamples = .ok exC6cttsP ∧
    (exC6cttsP.Samples.getD []).map (·.PresentationOffset) = [7, 0, 0] ∧
    (exC6cttsP.Samples.getD []).map (·.PresentationOffset) ≠ [7, 7, 7] := by
  decide

end ISOBMFF

namespace ISOBMFF

/-! ## Sync-sample semantics -/

/-- Number of entries the generic u32 iterator can actually yield. -/
def u32Avail (d : List Nat) : Nat := min (tblCount d) ((d.length - 4) / 4)

/-- The decoded u32 entries (exactly what the iterator yields); used for
the stss sync-sample list. -/
def u32Entries (d : List Nat) : List Nat :=
  (List.range (u32Avail d)).map fun i => readU32 d (4 + 4 * i)

theorem u32EntryAt_eq (d : List Nat) (i : Nat) :
    u32EntryAt d i = (u32Entries d)[i]? := by
  unfold u32EntryAt u32Entries u32Avail
  by_cases h : i < min (tblCount d) ((d.length - 4) / 4)
  · rw [if_pos ⟨by omega, by omega⟩, List.getElem?_map,
      List.getElem?_range (by omega)]
    rfl
  · rw [if_neg (by omega), List.getElem?_map]
    rw [List.getElem?_eq_none (by simpa using by omega)]
    rfl

/-- The sync projection of the fusion loop: the `IsSync` flags it
assigns to the next `k` samples starting at sample index `i`, when an
stss table is present. -/
def simSync (d : List Nat) : Nat → Nat → Nat → Bool → Nat → List Bool
  | 0, _, _, _, _ => []
  | k+1, i, nextSync, haveSync, idx =>
    (haveSync && (nextSync == i + 1)) ::
      (if haveSync && (nextSync == i + 1) then
        match u32EntryAt d idx with
        | some v => simSync d k (i + 1) v haveSync (idx + 1)
        | none => simSync d k (i + 1) nextSync false idx
      else simSync d k (i + 1) nextSync haveSync idx)

theorem fuseFrom_all_sync (c : FuseCtx) (hns : c.hasSync = false) :
    ∀ (fuel i : Nat) (st : FState) (l : List Sample) (fin : StscEntry),
      fuseFrom c fuel i st = .ok (l, fin) → ∀ s ∈ l, s.IsSync = true := by
  intro fuel
  induction fuel with
  | zero =>
    intro i st l fin h
    simp only [fuseFrom] at h
    cases h
    intro s hs
    exact absurd hs (by simp)
  | succ fuel ih =>
    intro i st l fin h
    simp only [fuseFrom] at h
    cases hsz : stszNext c.stszD st.stszIdx with
    | none => rw [hsz] at h; exact absurd h (by simp)
    | some size =>
      rw [hsz] at h
      simp only [] at h
      split at h
      · cases h
        intro s hs
        rcases List.mem_singleton.mp hs with rfl
        simp [hns]
      · cases hr : fuseFrom c fuel (i + 1)
            (stepState c { st with stszIdx := st.stszIdx + 1 } size
              (if c.hasSync then st.haveSync && (st.nextSync == i + 1) else true)) with
        | error e => rw [hr] at h; exact absurd h (by simp)
        | ok res =>
          rw [hr] at h
          cases h
          intro s hs
          rcases List.mem_cons.mp hs with rfl | hmem
          · simp [hns]
          · exact ih (i + 1) _ res.1 res.2 (by rw [hr]) s hmem

theorem fuseFrom_syncs (c : FuseCtx) (hsync : c.hasSync = true) :
    ∀ (fuel i : Nat) (st : FState) (l : List Sample) (fin : StscEntry),
      fuseFrom c fuel i st = .ok (l, fin) →
      l.map (·.IsSync) =
        simSync c.stssD l.length i st.nextSync st.haveSync st.syncIdx := by
  intro fuel
  induction fuel with
  | zero =>
    intro i st l fin h
    simp only [fuseFrom] at h
    cases h
    rfl
  | succ fuel ih =>
    intro i st l fin h
    simp only [fuseFrom] at h
    cases hsz : stszNext c.stszD st.stszIdx with
    | none => rw [hsz] at h; exact absurd h (by simp)
    | some size =>
      rw [hsz] at h
      simp only [] at h
      split at h
      · cases h
        simp only [List.map_cons, List.map_nil, List.length_cons, List.length_nil]
        show [st.haveSync && (st.nextSync == i + 1)] =
          simSync c.stssD 1 i st.nextSync st.haveSync st.syncIdx
        simp only [simSync]
        repeat' split
        all_goals rfl
      · cases hr : fuseFrom c fuel (i + 1)
            (stepState c { st with stszIdx := st.stszIdx + 1 } size
              (st.haveSync && (st.nextSync == i + 1))) with
        | error e => rw [hr] at h; exact absurd h (by simp)
        | ok res =>
          rw [hr] at h
          cases h
          have hih := ih (i + 1) _ res.1 res.2 (by rw [hr])
          simp only [List.map_cons, List.length_cons]
          rw [hih]
          rw [stepState_nextSync, stepState_haveSync, stepState_syncIdx]
          show _ = simSync c.stssD (res.1.length + 1) i st.nextSync st.haveSync
            st.syncIdx
          simp only [simSync, hsync, Bool.and_true]
          by_cases hcnd : (st.haveSync && (st.nextSync == i + 1)) = true
          · simp only [if_pos hcnd]
            cases he : u32EntryAt c.stssD st.syncIdx <;> rfl
          · simp only [if_neg hcnd]

end ISOBMFF

namespace ISOBMFF

theorem simSync_spec (d : List Nat)
    (hsorted : (u32Entries d).Pairwise (· < ·)) :
    ∀ (k i ns : Nat) (hs : Bool) (idx : Nat),
      (hs = true → 1 ≤ idx ∧ (u32Entries d)[idx - 1]? = some ns ∧
        (∀ x ∈ (u32Entries d).take (idx - 1), x < i + 1) ∧ i + 1 ≤ ns) →
      (hs = false → ∀ x ∈ u32Entries d, x < i + 1) →
      simSync d k i ns hs idx =
        (List.range k).map (fun j => decide ((i + j + 1) ∈ u32Entries d)) := by
  intro k
  induction k with
  | zero => intro i ns hs idx _ _; simp [simSync]
  | succ k ih =>
    intro i ns hs idx hA hB
    have hrange : (List.range (k + 1)).map
          (fun j => decide ((i + j + 1) ∈ u32Entries d)) =
        decide ((i + 1) ∈ u32Entries d) ::
          (List.range k).map (fun j => decide ((i + 1 + j + 1) ∈ u32Entries d)) := by
      rw [List.range_succ_eq_map, List.map_cons, List.map_map]
      refine congrArg₂ List.cons (by rw [Nat.add_zero]) ?_
      refine List.map_congr_left ?_
      intro j _
      show decide ((i + (j + 1) + 1) ∈ u32Entries d) = _
      rw [show i + (j + 1) + 1 = i + 1 + j + 1 from by omega]
    rw [hrange]
    simp only [simSync]
    cases hs with
    | false =>
      have hball := hB rfl
      have hnotin : ¬ ((i + 1) ∈ u32Entries d) := by
        intro hc
        have := hball _ hc
        omega
      refine congrArg₂ List.cons (by simp [hnotin]) ?_
      rw [Bool.false_and, if_neg (by simp)]
      exact ih (i + 1) ns false idx (by intro hc; exact absurd hc (by simp))
        (fun _ x hx => by have := hball x hx; omega)
    | true =>
      obtain ⟨hidx1, hget, htake, hle⟩ := hA rfl
      have hm : idx - 1 < (u32Entries d).length := by
        by_contra hge
        rw [List.getElem?_eq_none (by omega)] at hget
        exact absurd hget (by simp)
      have hgetE : (u32Entries d)[idx - 1] = ns := by
        rw [List.getElem?_eq_getElem hm] at hget
        exact Option.some_injective _ hget
      have hdropC : (u32Entries d).drop (idx - 1) =
          ns :: (u32Entries d).drop (idx - 1 + 1) := by
        rw [List.drop_eq_getElem_cons hm, hgetE]
      have hdp : ((u32Entries d).drop (idx - 1)).Pairwise (· < ·) :=
        hsorted.sublist (List.drop_sublist _ _)
      rw [hdropC] at hdp
      have hafter := (List.pairwise_cons.mp hdp).1
      have hmem : ((i + 1) ∈ u32Entries d) ↔ ns = i + 1 := by
        constructor
        · intro hin
          rw [← List.take_append_drop (idx - 1) (u32Entries d)] at hin
          rcases List.mem_append.mp hin with h1 | h2
          · have := htake _ h1
            omega
          · rw [hdropC] at h2
            rcases List.mem_cons.mp h2 with h3 | h4
            · omega
            · have := hafter _ h4
              omega
        · intro hns
          have hns' : ns ∈ u32Entries d :=
            List.mem_iff_getElem.mpr ⟨idx - 1, hm, hgetE⟩
          rwa [hns] at hns'
      rw [Bool.true_and]
      by_cases heq : ns = i + 1
      · refine congrArg₂ List.cons (by simp [heq, hmem.mpr heq]) ?_
        rw [if_pos (by simp only [beq_iff_eq]; exact heq)]
        cases he : u32EntryAt d idx with
        | some v =>
          have hgv : (u32Entries d)[idx]? = some v := by
            rw [← u32EntryAt_eq]; exact he
          have hmv : idx < (u32Entries d).length := by
            by_contra hge
            rw [List.getElem?_eq_none (by omega)] at hgv
            exact absurd hgv (by simp)
          have hgvE : (u32Entries d)[idx] = v := by
            rw [List.getElem?_eq_getElem hmv] at hgv
            exact Option.some_injective _ hgv
          have hvgt : ns < v := by
            rw [← hgetE, ← hgvE]
            exact List.pairwise_iff_getElem.mp hsorted _ _ hm hmv (by omega)
          refine ih (i + 1) v true (idx + 1) ?_
            (by intro hc; exact absurd hc (by simp))
          intro _
          refine ⟨by omega, ?_, ?_, by omega⟩
          · rw [Nat.add_sub_cancel]
            rw [List.getElem?_eq_getElem hmv, hgvE]
          · rw [Nat.add_sub_cancel]
            intro x hx
            rw [show idx = (idx - 1) + 1 from by omega, List.take_succ] at hx
            rcases List.mem_append.mp hx with h1 | h2
            · have := htake _ h1
              omega
            · rw [List.getElem?_eq_getElem hm, hgetE] at h2
              simp only [Option.toList_some, List.mem_singleton] at h2
              omega
        | none =>
          have hgn : (u32Entries d)[idx]? = none := by
            rw [← u32EntryAt_eq]; exact he
          have hlen : (u32Entries d).length ≤ idx := by
            by_contra hlt
            rw [List.getElem?_eq_getElem (by omega)] at hgn
            exact absurd hgn (by simp)
          refine ih (i + 1) ns false idx
            (by intro hc; exact absurd hc (by simp)) ?_
          intro _ x hx
          rw [← List.take_append_drop (idx - 1) (u32Entries d)] at hx
          rcases List.mem_append.mp hx with h1 | h2
          · have := htake _ h1
            omega
          · rw [hdropC] at h2
            rcases List.mem_cons.mp h2 with h3 | h4
            · omega
            · have hd : (u32Entries d).drop (idx - 1 + 1) = [] := by
                rw [List.drop_eq_nil_iff]
                omega
              rw [hd] at h4
              exact absurd h4 (by simp)
      · refine congrArg₂ List.cons ?_ ?_
        · have hnotin : ¬ ((i + 1) ∈ u32Entries d) := fun hc => heq (hmem.mp hc)
          simp [heq, hnotin]
        · rw [if_neg (by simp only [beq_iff_eq]; exact heq)]
          refine ih (i + 1) ns true idx ?_
            (by intro hc; exact absurd hc (by simp))
          intro _
          exact ⟨hidx1, hget, fun x hx => by have := htake x hx; omega, by omega⟩

end ISOBMFF

namespace ISOBMFF

theorem countP_mem_range (n : Nat) :
    ∀ L : List Nat, L.Nodup → (∀ x ∈ L, 1 ≤ x ∧ x ≤ n) →
      (List.range n).countP (fun j => decide ((j + 1) ∈ L)) = L.length := by
  induction n with
  | zero =>
    intro L hnd hb
    cases L with
    | nil => simp
    | cons x L' =>
      have := hb x (List.mem_cons_self _ _)
      omega
  | succ n ih =>
    intro L hnd hb
    rw [List.range_succ, List.countP_append]
    have hcong : (List.range n).countP (fun j => decide ((j + 1) ∈ L)) =
        (List.range n).countP (fun j => decide ((j + 1) ∈ L.erase (n + 1))) := by
      apply List.countP_congr
      intro x hx
      have hxn : x < n := List.mem_range.mp hx
      have hne2 : x + 1 ≠ n + 1 := by omega
      simp only [decide_eq_true_eq]
      exact (List.mem_erase_of_ne hne2).symm
    have hsub : ∀ x ∈ L.erase (n + 1), 1 ≤ x ∧ x ≤ n := by
      intro x hx
      have hxL : x ∈ L := List.mem_of_mem_erase hx
      have hne : x ≠ n + 1 := ((List.Nodup.mem_erase_iff hnd).mp hx).1
      have := hb x hxL
      omega
    have hih := ih (L.erase (n + 1)) (List.Nodup.erase _ hnd) hsub
    rw [hcong, hih]
    by_cases hmem : (n + 1) ∈ L
    · have hlen : (L.erase (n + 1)).length = L.length - 1 :=
        List.length_erase_of_mem hmem
      have hpos : 0 < L.length := List.length_pos_of_mem hmem
      have hc1 : List.countP (fun j => decide ((j + 1) ∈ L)) [n] = 1 := by
        simp [List.countP_cons, hmem]
      rw [hc1, hlen]
      omega
    · have herase : L.erase (n + 1) = L := List.erase_of_not_mem hmem
      have hc0 : List.countP (fun j => decide ((j + 1) ∈ L)) [n] = 0 := by
        simp [List.countP_cons, hmem]
      rw [hc0, herase]
      omega

theorem u32Entries_length_of_complete (d : List Nat)
    (hc : 4 + 4 * tblCount d ≤ d.length) :
    (u32Entries d).length = tblCount d := by
  simp only [u32Entries, List.length_map, List.length_range, u32Avail]
  have hdiv : tblCount d ≤ (d.length - 4) / 4 := by
    refine (Nat.le_div_iff_mul_le (by omega)).mpr ?_
    omega
  exact Nat.min_eq_left hdiv

theorem fuseCtxOf_hasSync (t : Track) (h : t.stssData ≠ none) :
    (fuseCtxOf t).hasSync = true := by
  simp [fuseCtxOf, h]

theorem fuseCtxOf_hasSync_false (t : Track) (h : t.stssData = none) :
    (fuseCtxOf t).hasSync = false := by
  simp [fuseCtxOf, h]

theorem initState_sync_some (t : Track) (cs : StscEntry) (ct : SttsEntry)
    (hss : t.stssData ≠ none) (v : Nat)
    (h0 : u32EntryAt (t.stssData.getD []) 0 = some v) :
    (initState t cs ct).nextSync = v ∧
    (initState t cs ct).haveSync = true ∧
    (initState t cs ct).syncIdx = 1 := by
  simp only [initState, fuseCtxOf_hasSync t hss, if_true]
  rw [show (fuseCtxOf t).stssD = t.stssData.getD [] from rfl, h0]
  refine ⟨?_, ?_, ?_⟩ <;> trivial

theorem initState_sync_none (t : Track) (cs : StscEntry) (ct : SttsEntry)
    (h0 : u32EntryAt (t.stssData.getD []) 0 = none) :
    (initState t cs ct).nextSync = 0 ∧
    (initState t cs ct).haveSync = false ∧
    (initState t cs ct).syncIdx = 0 := by
  simp only [initState]
  by_cases hb : (fuseCtxOf t).hasSync = true
  · simp only [hb, if_true]
    rw [show (fuseCtxOf t).stssD = t.stssData.getD [] from rfl, h0]
    refine ⟨?_, ?_, ?_⟩ <;> trivial
  · simp only [Bool.not_eq_true] at hb
    simp only [hb, Bool.false_eq_true, if_false]
    refine ⟨?_, ?_, ?_⟩ <;> trivial

end ISOBMFF

namespace ISOBMFF

/-- C3: for every track returned by the sample-parsing phase: with no
stss table every sample is a sync sample; with an stss table whose
payload is complete and whose entries are strictly increasing 1-based
sample indices in range, the samples flagged `IsSync` are exactly those
at the listed indices, and their number equals the stss entry count.
(The original claim, stated without the well-formedness hypotheses on
the stss entries, is refuted by `claim_C3_counterexample`.) -/
theorem claim_C3_sync_flags (t u : Track) (l : List Sample)
    (hs : t.Samples = none) (h : t.parseSamples = .ok u)
    (hl : u.Samples = some l) :
    (t.stssData = none → ∀ s ∈ l, s.IsSync = true) ∧
    (∀ D, t.stssData = some D →
      4 + 4 * tblCount D ≤ D.length →
      (u32Entries D).Pairwise (· < ·) →
      (∀ x ∈ u32Entries D, 1 ≤ x ∧ x ≤ stszCount (t.stszData.getD [])) →
      l.map (·.IsSync) =
          (List.range l.length).map (fun j => decide ((j + 1) ∈ u32Entries D)) ∧
        l.countP (·.IsSync) = tblCount D) := by
  constructor
  · intro hnone
    by_cases hne0 : stszCount (t.stszData.getD []) = 0
    · have hu := parseSamples_ok_zero t u hs hne0 h
      rw [hu] at hl
      simp only at hl
      have hle : l = [] := by
        injection hl with hl2
        exact hl2.symm
      subst hle
      intro s hsm
      exact absurd hsm (by simp)
    · obtain ⟨cs, ct, res, hstsc0, hstts0, hfuse, hu⟩ :=
        parseSamples_ok_inv t u hs hne0 h
      have hl2 : l = res.1 := by
        rw [hu] at hl
        simp only at hl
        injection hl with hl3
        exact hl3.symm
      subst hl2
      exact fuseFrom_all_sync (fuseCtxOf t) (fuseCtxOf_hasSync_false t hnone)
        _ 0 _ res.1 res.2 hfuse
  · intro D hD hcomp hsorted hbounds
    have hD' : t.stssData.getD [] = D := by rw [hD]; rfl
    have hssne : t.stssData ≠ none := by rw [hD]; simp
    by_cases hne0 : stszCount (t.stszData.getD []) = 0
    · have hu := parseSamples_ok_zero t u hs hne0 h
      rw [hu] at hl
      simp only at hl
      have hle : l = [] := by
        injection hl with hl2
        exact hl2.symm
      subst hle
      have hentnil : u32Entries D = [] := by
        cases hE : u32Entries D with
        | nil => rfl
        | cons x xs =>
          have hx := hbounds x (by rw [hE]; exact List.mem_cons_self _ _)
          omega
      have htbl : tblCount D = 0 := by
        have hln := u32Entries_length_of_complete D hcomp
        rw [hentnil] at hln
        simpa using hln.symm
      exact ⟨by simp, by simp [htbl]⟩
    · obtain ⟨cs, ct, res, hstsc0, hstts0, hfuse, hu⟩ :=
        parseSamples_ok_inv t u hs hne0 h
      have hl2 : l = res.1 := by
        rw [hu] at hl
        simp only at hl
        injection hl with hl3
        exact hl3.symm
      subst hl2
      have hsync : (fuseCtxOf t).hasSync = true := fuseCtxOf_hasSync t hssne
      have hfinalmap : res.1.map (·.IsSync) =
          (List.range res.1.length).map
            (fun j => decide ((j + 1) ∈ u32Entries D)) := by
        have hmap := fuseFrom_syncs (fuseCtxOf t) hsync _ 0 _ res.1 res.2 hfuse
        rw [show (fuseCtxOf t).stssD = t.stssData.getD [] from rfl, hD'] at hmap
        cases he0 : u32EntryAt D 0 with
        | some v =>
          obtain ⟨h1, h2, h3⟩ := initState_sync_some t cs ct hssne v
            (by rw [hD']; exact he0)
          rw [h1, h2, h3] at hmap
          have hv0 : (u32Entries D)[0]? = some v := by
            rw [← u32EntryAt_eq]
            exact he0
          have hvmem : v ∈ u32Entries D := by
            have hlt : 0 < (u32Entries D).length := by
              by_contra hge
              rw [List.getElem?_eq_none (by omega)] at hv0
              exact absurd hv0 (by simp)
            rw [List.getElem?_eq_getElem hlt] at hv0
            exact List.mem_iff_getElem.mpr ⟨0, hlt, Option.some_injective _ hv0⟩
          have hv1 : 1 ≤ v := (hbounds v hvmem).1
          have hspec := simSync_spec D hsorted res.1.length 0 v true 1
            (fun _ => ⟨le_refl 1,
              by rw [show (1 : Nat) - 1 = 0 from rfl]; exact hv0,
              by intro x hx
                 rw [show (1 : Nat) - 1 = 0 from rfl, List.take_zero] at hx
                 exact absurd hx (by simp),
              by omega⟩)
            (by intro hc; exact absurd hc (by simp))
          rw [hmap, hspec]
          refine List.map_congr_left ?_
          intro j _
          rw [Nat.zero_add]
        | none =>
          obtain ⟨h1, h2, h3⟩ := initState_sync_none t cs ct
            (by rw [hD']; exact he0)
          rw [h1, h2, h3] at hmap
          have hentnil : u32Entries D = [] := by
            have hq := u32EntryAt_eq D 0
            rw [he0] at hq
            cases hE : u32Entries D with
            | nil => rfl
            | cons x xs =>
              rw [hE] at hq
              simp at hq
          have hspec := simSync_spec D hsorted res.1.length 0 0 false 0
            (by intro hc; exact absurd hc (by simp))
            (fun _ x hx => by
              rw [hentnil] at hx
              exact absurd hx (by simp))
          rw [hmap, hspec]
          refine List.map_congr_left ?_
          intro j _
          rw [Nat.zero_add]
      refine ⟨hfinalmap, ?_⟩
      have hlen : res.1.length = stszCount (t.stszData.getD []) := by
        obtain ⟨l', hl', hlen'⟩ := parseSamples_samples_length t u hs h
        rw [hl] at hl'
        have he : res.1 = l' := by
          injection hl' with q
        subst he
        rw [hu] at hlen'
        exact hlen'
      have hbounds' : ∀ x ∈ u32Entries D, 1 ≤ x ∧ x ≤ res.1.length := by
        intro x hx
        have := hbounds x hx
        omega
      have hnd : (u32Entries D).Nodup := hsorted.imp Nat.ne_of_lt
      have hcm := countP_mem_range res.1.length (u32Entries D) hnd hbounds'
      have hfin : (u32Entries D).length = tblCount D :=
        u32Entries_length_of_complete D hcomp
      have hstep : res.1.countP (fun s => s.IsSync) =
          ((List.range res.1.length).map
            (fun j => decide ((j + 1) ∈ u32Entries D))).countP (fun b => b) := by
        rw [← hfinalmap, List.countP_map]
        rfl
      rw [hstep, List.countP_map, ← hfin, ← hcm]
      rfl

end ISOBMFF

namespace ISOBMFF

/-- A track with three samples and a well-formed stss listing sync
samples 1 and 3. -/
def exC3s : Track :=
  { stszData := some [0,0,0,5, 0,0,0,3],
    sttsData := some [0,0,0,1, 0,0,0,3, 0,0,0,1],
    stscData := some [0,0,0,1, 0,0,0,1, 0,0,0,9, 0,0,0,1],
    stcoData := some [0,0,0,1, 0,0,0,0],
    stssData := some [0,0,0,2, 0,0,0,1, 0,0,0,3] }

/-- The parsed form of `exC3s`. -/
def exC3sP : Track := exC3s.parseSamples.toOption.getD {}

theorem claim_C3_sync_flags_witness :
    (exC3sP.Samples.getD []).map (·.IsSync) =
      (List.range (exC3sP.Samples.getD []).length).map
        (fun j => decide ((j + 1) ∈ u32Entries [0,0,0,2, 0,0,0,1, 0,0,0,3])) ∧
    (exC3sP.Samples.getD []).countP (·.IsSync) =
      tblCount [0,0,0,2, 0,0,0,1, 0,0,0,3] :=
  (claim_C3_sync_flags exC3s exC3sP (exC3sP.Samples.getD [])
      (by decide) (by decide) (by decide)).2
    [0,0,0,2, 0,0,0,1, 0,0,0,3] (by decide) (by decide) (by decide) (by decide)

/-- A track with three samples whose stss declares count 2 but lists
the duplicate entries [2, 2]. -/
def exC3dup : Track :=
  { stszData := some [0,0,0,5, 0,0,0,3],
    sttsData := some [0,0,0,1, 0,0,0,3, 0,0,0,1],
    stscData := some [0,0,0,1, 0,0,0,1, 0,0,0,9, 0,0,0,1],
    stcoData := some [0,0,0,1, 0,0,0,0],
    stssData := some [0,0,0,2, 0,0,0,2, 0,0,0,2] }

/-- The parsed form of `exC3dup`. -/
def exC3dupP : Track := exC3dup.parseSamples.toOption.getD {}

/-- C3 counterexample: with a duplicated stss entry list [2, 2] the
track parses successfully but only one sample carries `IsSync = true`,
not `stss.count = 2` of them, refuting the unconditional claim. -/
theorem claim_C3_counterexample :
    exC3dup.parseSamples = .ok exC3dupP ∧
    tblCount (exC3dup.stssData.getD []) = 2 ∧
    (exC3dupP.Samples.getD []).countP (·.IsSync) = 1 := by decide

end ISOBMFF

namespace ISOBMFF

/-! ## Chunk semantics -/

/-- The chunk-offset entry the fusion loop would fetch at index `i`:
co64 or stco depending on the track. -/
def chunkEntryAt (c : FuseCtx) (i : Nat) : Option Int :=
  if c.hasCo64 then (co64EntryAt c.co64D i).map (fun v => toSigned64 v)
  else (u32EntryAt c.stcoD i).map (fun v => toSigned64 v)

theorem u32EntryAt_mono (d : List Nat) (j k : Nat) (hjk : j ≤ k)
    (hj : u32EntryAt d j = none) : u32EntryAt d k = none := by
  unfold u32EntryAt at *
  by_cases hk : k < tblCount d ∧ 4 + 4 * k + 4 ≤ d.length
  · rw [if_pos (by constructor <;> omega)] at hj
    exact absurd hj (by simp)
  · rw [if_neg hk]

theorem co64EntryAt_mono (d : List Nat) (j k : Nat) (hjk : j ≤ k)
    (hj : co64EntryAt d j = none) : co64EntryAt d k = none := by
  unfold co64EntryAt at *
  by_cases hk : k < tblCount d ∧ 4 + 8 * k + 8 ≤ d.length
  · rw [if_pos (by constructor <;> omega)] at hj
    exact absurd hj (by simp)
  · rw [if_neg hk]

theorem chunkEntryAt_mono (c : FuseCtx) (j k : Nat) (hjk : j ≤ k)
    (hj : chunkEntryAt c j = none) : chunkEntryAt c k = none := by
  unfold chunkEntryAt at *
  by_cases hco : c.hasCo64 = true
  · rw [if_pos hco] at *
    cases he : co64EntryAt c.co64D j with
    | none => rw [co64EntryAt_mono c.co64D j k hjk he]; rfl
    | some v => rw [he] at hj; exact absurd hj (by simp)
  · rw [if_neg hco] at *
    cases he : u32EntryAt c.stcoD j with
    | none => rw [u32EntryAt_mono c.stcoD j k hjk he]; rfl
    | some v => rw [he] at hj; exact absurd hj (by simp)

theorem chunkEntryAt_range (c : FuseCtx) (i : Nat) (v : Int)
    (h : chunkEntryAt c i = some v) :
    -9223372036854775808 ≤ v ∧ v < 9223372036854775808 := by
  unfold chunkEntryAt at h
  by_cases hco : c.hasCo64 = true
  · rw [if_pos hco] at h
    cases he : co64EntryAt c.co64D i with
    | none => rw [he] at h; exact absurd h (by simp)
    | some w =>
      rw [he] at h
      simp only [Option.map] at h
      injection h with h2
      rw [← h2]
      have hw : w < 18446744073709551616 := by
        unfold co64EntryAt at he
        split at he
        · injection he with he2
          rw [← he2]
          exact readU64_lt _ _
        · exact absurd he (by simp)
      exact toSigned64_range w hw
  · rw [if_neg hco] at h
    cases he : u32EntryAt c.stcoD i with
    | none => rw [he] at h; exact absurd h (by simp)
    | some w =>
      rw [he] at h
      simp only [Option.map] at h
      injection h with h2
      rw [← h2]
      have hw : w < 18446744073709551616 := by
        unfold u32EntryAt at he
        split at he
        · injection he with he2
          rw [← he2]
          have := readU32_lt c.stcoD (4 + 4 * i)
          omega
        · exact absurd he (by simp)
      exact toSigned64_range w hw

theorem chunkFetch_eq (c : FuseCtx) (coIdx : Nat) (old : Int) :
    chunkFetch c coIdx old =
      (match chunkEntryAt c coIdx with
      | some v => (v, coIdx + 1)
      | none => (old, coIdx)) := by
  unfold chunkFetch chunkEntryAt
  by_cases hco : c.hasCo64 = true
  · rw [if_pos hco, if_pos hco]
    cases co64EntryAt c.co64D coIdx <;> rfl
  · rw [if_neg hco, if_neg hco]
    cases u32EntryAt c.stcoD coIdx <;> rfl

/-- The chunk-relevant projection of the fusion loop state. -/
structure CState where
  sampleInChunk : Nat
  offsetInChunk : Int
  chunkIdx : Nat
  chunkOffset : Int
  coIdx : Nat
  curStsc : StscEntry
  nextStsc : Option StscEntry
  stscIdx : Nat
deriving Repr, DecidableEq

def cproj (st : FState) : CState :=
  ⟨st.sampleInChunk, st.offsetInChunk, st.chunkIdx, st.chunkOffset,
    st.coIdx, st.curStsc, st.nextStsc, st.stscIdx⟩

/-- `chunkStep` restricted to the chunk-relevant state. -/
def cstep (c : FuseCtx) (cs : CState) (size : Nat) : CState :=
  let sampleInChunk := cs.sampleInChunk + 1
  let offsetInChunk := wrapI64 (cs.offsetInChunk + (size : Int))
  if cs.curStsc.SamplesPerChunk ≤ sampleInChunk then
    let chunkIdx := cs.chunkIdx + 1
    let co := chunkFetch c cs.coIdx cs.chunkOffset
    let next : StscEntry × Option StscEntry × Nat :=
      match cs.nextStsc with
      | some ns =>
        if ns.FirstChunk ≤ chunkIdx then
          match stscEntryAt c.stscD cs.stscIdx with
          | some e => (ns, some e, cs.stscIdx + 1)
          | none => (ns, (none : Option StscEntry), cs.stscIdx)
        else (cs.curStsc, some ns, cs.stscIdx)
      | none => (cs.curStsc, (none : Option StscEntry), cs.stscIdx)
    { sampleInChunk := 0, offsetInChunk := 0, chunkIdx := chunkIdx,
      chunkOffset := co.1, coIdx := co.2,
      curStsc := next.1, nextStsc := next.2.1, stscIdx := next.2.2 }
  else
    { cs with
      sampleInChunk := sampleInChunk, offsetInChunk := offsetInChunk }

theorem cproj_chunkStep (c : FuseCtx) (st : FState) (size : Nat) :
    cproj (chunkStep c st size) = cstep c (cproj st) size := by
  simp only [cproj, chunkStep, cstep]
  repeat' split
  all_goals rfl

theorem cproj_sttsStep (c : FuseCtx) (st : FState) :
    cproj (sttsStep c st) = cproj st := by
  simp [cproj]

theorem cproj_cttsStep (c : FuseCtx) (st : FState) :
    cproj (cttsStep c st) = cproj st := by
  simp [cproj]

theorem cproj_syncStep (c : FuseCtx) (st : FState) (b : Bool) :
    cproj (syncStep c st b) = cproj st := by
  simp [cproj]

theorem cproj_stepState (c : FuseCtx) (st : FState) (size : Nat) (b : Bool) :
    cproj (stepState c st size b) = cstep c (cproj st) size := by
  unfold stepState
  rw [cproj_syncStep, cproj_cttsStep, cproj_sttsStep, cproj_chunkStep]

theorem cstep_chunkIdx (c : FuseCtx) (cs : CState) (size : Nat) :
    (cstep c cs size).chunkIdx =
      if cs.curStsc.SamplesPerChunk ≤ cs.sampleInChunk + 1 then cs.chunkIdx + 1
      else cs.chunkIdx := by
  simp only [cstep]
  repeat' split
  all_goals rfl

theorem cstep_offsetInChunk (c : FuseCtx) (cs : CState) (size : Nat) :
    (cstep c cs size).offsetInChunk =
      if cs.curStsc.SamplesPerChunk ≤ cs.sampleInChunk + 1 then 0
      else wrapI64 (cs.offsetInChunk + (size : Int)) := by
  simp only [cstep]
  repeat' split
  all_goals rfl

theorem cstep_chunkOffset (c : FuseCtx) (cs : CState) (size : Nat) :
    (cstep c cs size).chunkOffset =
      if cs.curStsc.SamplesPerChunk ≤ cs.sampleInChunk + 1 then
        (chunkFetch c cs.coIdx cs.chunkOffset).1
      else cs.chunkOffset := by
  simp only [cstep]
  repeat' split
  all_goals rfl

theorem cstep_coIdx (c : FuseCtx) (cs : CState) (size : Nat) :
    (cstep c cs size).coIdx =
      if cs.curStsc.SamplesPerChunk ≤ cs.sampleInChunk + 1 then
        (chunkFetch c cs.coIdx cs.chunkOffset).2
      else cs.coIdx := by
  simp only [cstep]
  repeat' split
  all_goals rfl

end ISOBMFF

namespace ISOBMFF

/-- The chunk projection of the fusion loop: for each of the next `k`
samples (sample index `i`, stsz cursor `szIdx`, chunk state `cs`), the
chunk index it falls in, its file offset `offsetInChunk + chunkOffset`,
and its size. -/
def simChunk (c : FuseCtx) : Nat → Nat → Nat → CState → List (Nat × Int × Nat)
  | 0, _, _, _ => []
  | k + 1, i, szIdx, cs =>
    match stszNext c.stszD szIdx with
    | none => []
    | some size =>
      (cs.chunkIdx, wrapI64 (cs.offsetInChunk + cs.chunkOffset), size) ::
        (if c.numSamples ≤ i + 1 then []
         else simChunk c k (i + 1) (szIdx + 1) (cstep c cs size))

theorem fuseFrom_chunks (c : FuseCtx) :
    ∀ (fuel i : Nat) (st : FState) (l : List Sample) (fin : StscEntry),
      fuseFrom c fuel i st = .ok (l, fin) →
      l.map (fun s => (s.Offset, s.Size)) =
        (simChunk c l.length i st.stszIdx (cproj st)).map
          (fun m => (m.2.1, m.2.2)) := by
  intro fuel
  induction fuel with
  | zero =>
    intro i st l fin h
    simp only [fuseFrom] at h
    cases h
    rfl
  | succ fuel ih =>
    intro i st l fin h
    simp only [fuseFrom] at h
    cases hsz : stszNext c.stszD st.stszIdx with
    | none => rw [hsz] at h; exact absurd h (by simp)
    | some size =>
      rw [hsz] at h
      simp only [] at h
      split at h
      · rename_i hbrk
        cases h
        simp only [List.map_cons, List.map_nil, List.length_cons,
          List.length_nil]
        show [(wrapI64 (st.offsetInChunk + st.chunkOffset), size)] =
          (simChunk c 1 i st.stszIdx (cproj st)).map (fun m => (m.2.1, m.2.2))
        simp only [simChunk, hsz, if_pos hbrk, List.map_cons, List.map_nil]
        rfl
      · rename_i hgt
        cases hr : fuseFrom c fuel (i + 1)
            (stepState c { st with stszIdx := st.stszIdx + 1 } size
              (if c.hasSync then st.haveSync && (st.nextSync == i + 1) else true)) with
        | error e => rw [hr] at h; exact absurd h (by simp)
        | ok res =>
          rw [hr] at h
          cases h
          have hih := ih (i + 1) _ res.1 res.2 (by rw [hr])
          have hih2 : res.1.map (fun s => (s.Offset, s.Size)) =
              (simChunk c res.1.length (i + 1) (st.stszIdx + 1)
                (cstep c (cproj st) size)).map (fun m => (m.2.1, m.2.2)) := by
            rw [cproj_stepState, stepState_stszIdx] at hih
            exact hih
          simp only [List.map_cons, List.length_cons]
          show (wrapI64 (st.offsetInChunk + st.chunkOffset), size) :: _ =
            (simChunk c (res.1.length + 1) i st.stszIdx (cproj st)).map
              (fun m => (m.2.1, m.2.2))
          simp only [simChunk, hsz, if_neg hgt, List.map_cons]
          rw [hih2]
          rfl

end ISOBMFF

namespace ISOBMFF

/-- The stco/co64 cursor invariant: the cursor tracks the chunk index,
except that once an offset fetch has failed the cursor stalls
permanently. -/
def CoInv (c : FuseCtx) (cs : CState) : Prop :=
  cs.coIdx = cs.chunkIdx ∨
    (cs.coIdx < cs.chunkIdx ∧ chunkEntryAt c cs.coIdx = none)

theorem CoInv_cstep (c : FuseCtx) (cs : CState) (size : Nat)
    (hinv : CoInv c cs) : CoInv c (cstep c cs size) := by
  unfold CoInv at hinv ⊢
  by_cases hc : cs.curStsc.SamplesPerChunk ≤ cs.sampleInChunk + 1
  · have hf := chunkFetch_eq c cs.coIdx cs.chunkOffset
    cases he : chunkEntryAt c cs.coIdx with
    | some v =>
      simp only [he] at hf
      rcases hinv with h1 | ⟨h2, h3⟩
      · left
        rw [cstep_coIdx, cstep_chunkIdx, if_pos hc, if_pos hc, hf]
        show cs.coIdx + 1 = cs.chunkIdx + 1
        omega
      · rw [he] at h3
        exact absurd h3 (by simp)
    | none =>
      simp only [he] at hf
      right
      constructor
      · rw [cstep_coIdx, cstep_chunkIdx, if_pos hc, if_pos hc, hf]
        show cs.coIdx < cs.chunkIdx + 1
        rcases hinv with h1 | ⟨h2, _⟩ <;> omega
      · rw [cstep_coIdx, if_pos hc, hf]
        exact he
  · rcases hinv with h1 | ⟨h2, h3⟩
    · left
      rw [cstep_coIdx, cstep_chunkIdx, if_neg hc, if_neg hc]
      exact h1
    · right
      rw [cstep_coIdx, cstep_chunkIdx, if_neg hc, if_neg hc]
      exact ⟨h2, h3⟩

theorem CoInv_start (c : FuseCtx) (cs : CState) (h1 : cs.chunkIdx = 1)
    (h2 : cs.coIdx = (chunkFetch c 0 0).2) : CoInv c cs := by
  unfold CoInv
  have hf := chunkFetch_eq c 0 0
  cases he : chunkEntryAt c 0 with
  | some v =>
    simp only [he] at hf
    left
    rw [h1, h2, hf]
  | none =>
    simp only [he] at hf
    right
    rw [h1, h2, hf]
    constructor
    · show (0 : Nat) < 1
      omega
    · show chunkEntryAt c 0 = none
      exact he

/-- The per-sample chunk relation of the claim: consecutive samples in
the same chunk advance the offset by the predecessor's size; a chunk
change moves to the next chunk index and, when the corresponding
stco/co64 entry exists, lands exactly on it. -/
def chunkRel (c : FuseCtx) (a b : Nat × Int × Nat) : Prop :=
  (b.1 = a.1 → b.2.1 = wrapI64 (a.2.1 + (a.2.2 : Int))) ∧
  (b.1 ≠ a.1 → b.1 = a.1 + 1 ∧
    ∀ v, chunkEntryAt c a.1 = some v → b.2.1 = v)

theorem simChunk_head_shape (c : FuseCtx) (k i szIdx : Nat) (cs : CState)
    (b : Nat × Int × Nat)
    (hb : (simChunk c k i szIdx cs).head? = some b) :
    b.1 = cs.chunkIdx ∧ b.2.1 = wrapI64 (cs.offsetInChunk + cs.chunkOffset) := by
  cases k with
  | zero => simp [simChunk] at hb
  | succ k =>
    simp only [simChunk] at hb
    cases hsz : stszNext c.stszD szIdx with
    | none =>
      rw [hsz] at hb
      simp at hb
    | some size =>
      rw [hsz] at hb
      simp only [List.head?_cons] at hb
      injection hb with hb2
      rw [← hb2]
      exact ⟨rfl, rfl⟩

theorem simChunk_chain (c : FuseCtx) :
    ∀ (k i szIdx : Nat) (cs : CState), CoInv c cs →
      List.Chain' (chunkRel c) (simChunk c k i szIdx cs) := by
  intro k
  induction k with
  | zero => intro i szIdx cs _; simp [simChunk]
  | succ k ih =>
    intro i szIdx cs hinv
    simp only [simChunk]
    cases hsz : stszNext c.stszD szIdx with
    | none => simp
    | some size =>
      show List.Chain' (chunkRel c)
        ((cs.chunkIdx, wrapI64 (cs.offsetInChunk + cs.chunkOffset), size) ::
          (if c.numSamples ≤ i + 1 then []
           else simChunk c k (i + 1) (szIdx + 1) (cstep c cs size)))
      by_cases hbrk : c.numSamples ≤ i + 1
      · rw [if_pos hbrk]
        simp
      · rw [if_neg hbrk]
        refine List.chain'_cons'.mpr
          ⟨?_, ih (i + 1) (szIdx + 1) (cstep c cs size)
            (CoInv_cstep c cs size hinv)⟩
        intro b hb
        have hsh := simChunk_head_shape c k (i + 1) (szIdx + 1)
          (cstep c cs size) b (Option.mem_def.mp hb)
        by_cases hc : cs.curStsc.SamplesPerChunk ≤ cs.sampleInChunk + 1
        · constructor
          · intro heq
            rw [hsh.1, cstep_chunkIdx, if_pos hc] at heq
            exact absurd heq (by omega)
          · intro _
            constructor
            · rw [hsh.1, cstep_chunkIdx, if_pos hc]
            · intro v hv
              have hv' : chunkEntryAt c cs.chunkIdx = some v := hv
              have hcoidx : cs.coIdx = cs.chunkIdx := by
                unfold CoInv at hinv
                rcases hinv with h1 | ⟨h2, h3⟩
                · exact h1
                · exact absurd
                    (chunkEntryAt_mono c cs.coIdx cs.chunkIdx (by omega) h3)
                    (by rw [hv']; simp)
              have hf := chunkFetch_eq c cs.coIdx cs.chunkOffset
              rw [hcoidx] at hf
              simp only [hv'] at hf
              obtain ⟨hr1, hr2⟩ := chunkEntryAt_range c cs.chunkIdx v hv'
              show b.2.1 = v
              rw [hsh.2, cstep_offsetInChunk, cstep_chunkOffset,
                if_pos hc, if_pos hc, hcoidx, hf]
              show wrapI64 ((0 : Int) + v) = v
              rw [show (0 : Int) + v = v from by omega]
              exact wrapI64_id v hr1 hr2
        · constructor
          · intro _
            show b.2.1 =
              wrapI64 (wrapI64 (cs.offsetInChunk + cs.chunkOffset) +
                (size : Int))
            rw [hsh.2, cstep_offsetInChunk, cstep_chunkOffset,
              if_neg hc, if_neg hc, wrapI64_add_left, wrapI64_add_left]
            congr 1
            ring
          · intro hne
            exact absurd (by rw [hsh.1, cstep_chunkIdx, if_neg hc]) hne

end ISOBMFF

namespace ISOBMFF

/-- The chunk assignment the fusion loop computes for a track: chunk
index, file offset and size of each sample, from the same initial
cursors `parseSamples` uses. -/
def trackChunks (t : Track) : List (Nat × Int × Nat) :=
  match stscEntryAt (t.stscData.getD []) 0, sttsEntryAt (t.sttsData.getD []) 0 with
  | some cs, some ct =>
      simChunk (fuseCtxOf t) (stszCount (t.stszData.getD [])) 0 0
        (cproj (initState t cs ct))
  | _, _ => []

/-- C2 (amended): for every track returned by the sample-parsing phase,
sample offsets and sizes follow the chunk walk `trackChunks`, with the
int64 semantics of the source: the first sample starts at the first
stco/co64 entry converted by Go's int64(v) (entries at or above 2^63
reinterpret as negative), samples within one chunk are laid out back to
back (offset advances by the predecessor's size under 64-bit wrapping
addition), and each chunk change moves to the next chunk index, landing
exactly on the int64 conversion of the corresponding stco/co64 entry
whenever that entry exists. -/
theorem claim_C2_chunk_offsets (t u : Track) (l : List Sample)
    (hs : t.Samples = none) (h : t.parseSamples = .ok u)
    (hl : u.Samples = some l) :
    l.map (fun s => (s.Offset, s.Size)) =
      (trackChunks t).map (fun m => (m.2.1, m.2.2)) ∧
    (∀ s0 lrest, l = s0 :: lrest →
      ∀ v, chunkEntryAt (fuseCtxOf t) 0 = some v → s0.Offset = v) ∧
    List.Chain' (chunkRel (fuseCtxOf t)) (trackChunks t) := by
  by_cases hne0 : stszCount (t.stszData.getD []) = 0
  · have hu := parseSamples_ok_zero t u hs hne0 h
    rw [hu] at hl
    simp only at hl
    have hle : l = [] := by
      injection hl with hl2
      exact hl2.symm
    subst hle
    have htc : trackChunks t = [] := by
      unfold trackChunks
      cases stscEntryAt (t.stscData.getD []) 0 with
      | none => rfl
      | some cs =>
        cases sttsEntryAt (t.sttsData.getD []) 0 with
        | none => rfl
        | some ct =>
          rw [hne0]
          rfl
    refine ⟨by rw [htc]; rfl, ?_, by rw [htc]; simp⟩
    intro s0 lrest hcons
    exact absurd hcons (by simp)
  · obtain ⟨cs, ct, res, hstsc0, hstts0, hfuse, hu⟩ :=
      parseSamples_ok_inv t u hs hne0 h
    have hl2 : l = res.1 := by
      rw [hu] at hl
      simp only at hl
      injection hl with hl3
      exact hl3.symm
    subst hl2
    have hlen : res.1.length = stszCount (t.stszData.getD []) := by
      obtain ⟨l', hl', hlen'⟩ := parseSamples_samples_length t u hs h
      rw [hl] at hl'
      have he : res.1 = l' := by
        injection hl' with q
      subst he
      rw [hu] at hlen'
      exact hlen'
    have htc : trackChunks t =
        simChunk (fuseCtxOf t) (stszCount (t.stszData.getD [])) 0 0
          (cproj (initState t cs ct)) := by
      unfold trackChunks
      rw [hstsc0, hstts0]
    have hmap := fuseFrom_chunks (fuseCtxOf t) _ 0 _ res.1 res.2 hfuse
    rw [show (initState t cs ct).stszIdx = 0 from rfl] at hmap
    rw [hlen] at hmap
    refine ⟨by rw [htc]; exact hmap, ?_, ?_⟩
    · intro s0 lrest hcons v hv
      cases hTC2 : trackChunks t with
      | nil =>
        rw [htc] at hTC2
        rw [hTC2, hcons] at hmap
        exact absurd hmap (by simp)
      | cons x rest =>
        have hSC : simChunk (fuseCtxOf t) (stszCount (t.stszData.getD [])) 0 0
            (cproj (initState t cs ct)) = x :: rest := by
          rw [← htc]
          exact hTC2
        have hsh := simChunk_head_shape (fuseCtxOf t)
          (stszCount (t.stszData.getD [])) 0 0 (cproj (initState t cs ct)) x
          (by rw [hSC]; rfl)
        have hf := chunkFetch_eq (fuseCtxOf t) 0 0
        simp only [hv] at hf
        have hx : x.2.1 = v := by
          obtain ⟨hr1, hr2⟩ := chunkEntryAt_range (fuseCtxOf t) 0 v hv
          rw [hsh.2]
          show wrapI64 ((0 : Int) + (chunkFetch (fuseCtxOf t) 0 0).1) = v
          rw [hf]
          show wrapI64 ((0 : Int) + v) = v
          rw [show (0 : Int) + v = v from by omega]
          exact wrapI64_id v hr1 hr2
        rw [hcons, hSC] at hmap
        simp only [List.map_cons] at hmap
        injection hmap with h1 h2
        injection h1 with ha hb
        rw [ha]
        exact hx
    · rw [htc]
      exact simChunk_chain (fuseCtxOf t) (stszCount (t.stszData.getD [])) 0 0
        (cproj (initState t cs ct)) (CoInv_start (fuseCtxOf t) _ rfl rfl)

/-- A track with three samples of sizes 5, 6, 7 laid out two samples
per chunk over the chunk offsets 4096 and 8192. -/
def exC2 : Track :=
  { stszData := some [0,0,0,0, 0,0,0,3, 0,0,0,5, 0,0,0,6, 0,0,0,7],
    sttsData := some [0,0,0,1, 0,0,0,3, 0,0,0,1],
    stscData := some [0,0,0,1, 0,0,0,1, 0,0,0,2, 0,0,0,1],
    stcoData := some [0,0,0,2, 0,0,16,0, 0,0,32,0] }

/-- The parsed form of `exC2`. -/
def exC2P : Track := exC2.parseSamples.toOption.getD {}

theorem claim_C2_chunk_offsets_witness :
    (exC2P.Samples.getD []).map (fun s => (s.Offset, s.Size)) =
      (trackChunks exC2).map (fun m => (m.2.1, m.2.2)) ∧
    (∀ s0 lrest, (exC2P.Samples.getD []) = s0 :: lrest →
      ∀ v, chunkEntryAt (fuseCtxOf exC2) 0 = some v → s0.Offset = v) ∧
    List.Chain' (chunkRel (fuseCtxOf exC2)) (trackChunks exC2) :=
  claim_C2_chunk_offsets exC2 exC2P (exC2P.Samples.getD [])
    (by decide) (by decide) (by decide)

/-- A track with a single sample whose only chunk offset comes from a
co64 entry of 2^63: Go's int64 conversion makes the sample offset
negative. -/
def exC2big : Track :=
  { stszData := some [0,0,0,0, 0,0,0,1, 0,0,0,5],
    sttsData := some [0,0,0,1, 0,0,0,1, 0,0,0,1],
    stscData := some [0,0,0,1, 0,0,0,1, 0,0,0,1, 0,0,0,1],
    co64Data := some [0,0,0,1, 128,0,0,0, 0,0,0,0],
    hasCo64 := true }

/-- C2 counterexample: the co64 table's first chunk offset is the
unsigned value 2^63, but the parsed first sample's Offset is the
negative int64 reinterpretation -2^63 -- so sample offsets do not equal
the raw stco/co64 chunk offsets, refuting the claim read over the
table's unsigned values. -/
theorem claim_C2_counterexample :
    co64EntryAt (fuseCtxOf exC2big).co64D 0 = some 9223372036854775808 ∧
    ((exC2big.parseSamples.toOption.getD {}).Samples.getD []).map
      (fun s => s.Offset) = [(-9223372036854775808 : Int)] := by decide

end ISOBMFF

namespace ISOBMFF

/-- The stsc run left active when the fusion loop finishes: the chunk
walk's `curStsc` after the final sample (the run governing the final
chunk reached). -/
def simStscFinal (c : FuseCtx) : Nat → Nat → Nat → CState → StscEntry
  | 0, _, _, cs => cs.curStsc
  | k + 1, i, szIdx, cs =>
    match stszNext c.stszD szIdx with
    | none => cs.curStsc
    | some size =>
      if c.numSamples ≤ i + 1 then cs.curStsc
      else simStscFinal c k (i + 1) (szIdx + 1) (cstep c cs size)

theorem fuseFrom_finalStsc (c : FuseCtx) :
    ∀ (fuel i : Nat) (st : FState) (l : List Sample) (fin : StscEntry),
      fuseFrom c fuel i st = .ok (l, fin) →
      fin = simStscFinal c fuel i st.stszIdx (cproj st) := by
  intro fuel
  induction fuel with
  | zero =>
    intro i st l fin h
    simp only [fuseFrom] at h
    cases h
    rfl
  | succ fuel ih =>
    intro i st l fin h
    simp only [fuseFrom] at h
    cases hsz : stszNext c.stszD st.stszIdx with
    | none => rw [hsz] at h; exact absurd h (by simp)
    | some size =>
      rw [hsz] at h
      simp only [] at h
      split at h
      · rename_i hbrk
        cases h
        simp only [simStscFinal, hsz, if_pos hbrk]
        rfl
      · rename_i hgt
        cases hr : fuseFrom c fuel (i + 1)
            (stepState c { st with stszIdx := st.stszIdx + 1 } size
              (if c.hasSync then st.haveSync && (st.nextSync == i + 1) else true)) with
        | error e => rw [hr] at h; exact absurd h (by simp)
        | ok res =>
          rw [hr] at h
          cases h
          have hih := ih (i + 1) _ res.1 res.2 (by rw [hr])
          rw [cproj_stepState, stepState_stszIdx] at hih
          simp only [simStscFinal, hsz, if_neg hgt]
          exact hih

/-- The finalised stsc run of a track, from the same initial cursors
`parseSamples` uses. -/
def trackFinalStsc (t : Track) : StscEntry :=
  match stscEntryAt (t.stscData.getD []) 0, sttsEntryAt (t.sttsData.getD []) 0 with
  | some cs, some ct =>
      simStscFinal (fuseCtxOf t) (stszCount (t.stszData.getD [])) 0 0
        (cproj (initState t cs ct))
  | _, _ => ⟨0, 0, 0⟩

/-- C4: after sample parsing (with at least one declared sample), a
track's `SampleDescIdx` is the `SampleDescriptionId` of the stsc run
still active at the end of the fusion loop's chunk walk — the last run
activated, governing the final chunk — whatever value was provisionally
stored before. -/
theorem claim_C4_sample_desc (t u : Track) (hs : t.Samples = none)
    (hne0 : stszCount (t.stszData.getD []) ≠ 0)
    (h : t.parseSamples = .ok u) :
    u.SampleDescIdx = (trackFinalStsc t).SampleDescriptionId := by
  obtain ⟨cs, ct, res, hstsc0, hstts0, hfuse, hu⟩ :=
    parseSamples_ok_inv t u hs hne0 h
  have hfin := fuseFrom_finalStsc (fuseCtxOf t) _ 0 _ res.1 res.2 hfuse
  rw [show (initState t cs ct).stszIdx = 0 from rfl] at hfin
  have htf : trackFinalStsc t =
      simStscFinal (fuseCtxOf t) (stszCount (t.stszData.getD [])) 0 0
        (cproj (initState t cs ct)) := by
    unfold trackFinalStsc
    rw [hstsc0, hstts0]
  rw [hu]
  show res.2.SampleDescriptionId = _
  rw [htf, ← hfin]

/-- A track with three single-sample chunks and two stsc runs whose
sample description ids differ (7 for chunk 1, then 9 from chunk 2 on). -/
def exC4 : Track :=
  { stszData := some [0,0,0,0, 0,0,0,3, 0,0,0,5, 0,0,0,6, 0,0,0,7],
    sttsData := some [0,0,0,1, 0,0,0,3, 0,0,0,1],
    stscData := some [0,0,0,2, 0,0,0,1, 0,0,0,1, 0,0,0,7,
      0,0,0,2, 0,0,0,1, 0,0,0,9],
    stcoData := some [0,0,0,3, 0,0,16,0, 0,0,32,0, 0,0,48,0] }

/-- The parsed form of `exC4`. -/
def exC4P : Track := exC4.parseSamples.toOption.getD {}

theorem claim_C4_sample_desc_witness :
    exC4P.SampleDescIdx = (trackFinalStsc exC4).SampleDescriptionId ∧
    (trackFinalStsc exC4).SampleDescriptionId = 9 ∧
    (stscEntryAt (exC4.stscData.getD []) 0).map (·.SampleDescriptionId) =
      some 7 :=
  ⟨claim_C4_sample_desc exC4 exC4P (by decide) (by decide) (by decide),
    by decide, by decide⟩

end ISOBMFF

namespace ISOBMFF

/-! ## Box codec layer (box.go / codec.go)

Byte buffers are `List Nat`; Go slice-bounds panics are modelled as the
distinguished outcome `DErr.panic`, explicit Go `error` returns as
`DErr.err`. -/

/-- Outcome of a decode: an explicit Go error, or a slice-bounds panic. -/
inductive DErr where
  | panic
  | err
deriving Repr, DecidableEq

/-- Big-endian 16-bit read at offset `i`. -/
def readU16 (b : List Nat) (i : Nat) : Nat :=
  (b.getD i 0 % 256) * 256 + (b.getD (i+1) 0 % 256)

/-- The 4 big-endian bytes of a 32-bit value (`be.PutUint32`). -/
def u32Bytes (v : Nat) : List Nat :=
  [v / 16777216 % 256, v / 65536 % 256, v / 256 % 256, v % 256]

/-- The 2 big-endian bytes of a 16-bit value (`be.PutUint16`). -/
def u16Bytes (v : Nat) : List Nat :=
  [v / 256 % 256, v % 256]

/-- The 8 big-endian bytes of a 64-bit value (`be.PutUint64`). -/
def u64Bytes (v : Nat) : List Nat :=
  [v / 72057594037927936 % 256, v / 281474976710656 % 256,
   v / 1099511627776 % 256, v / 4294967296 % 256,
   v / 16777216 % 256, v / 65536 % 256, v / 256 % 256, v % 256]

/-- The uint32 reinterpretation of an int32 value (`uint32(x)`). -/
def intToU32 (x : Int) : Nat := (x % 4294967296).toNat

/-- `be.Uint32(b[i:])`: panics when fewer than 4 bytes remain. -/
def rdU32 (b : List Nat) (i : Nat) : Except DErr Nat :=
  if i + 4 ≤ b.length then .ok (readU32 b i) else .error .panic

/-- `be.Uint16(b[i:])`: panics when fewer than 2 bytes remain. -/
def rdU16 (b : List Nat) (i : Nat) : Except DErr Nat :=
  if i + 2 ≤ b.length then .ok (readU16 b i) else .error .panic

/-- `be.Uint64(b[i:])`: panics when fewer than 8 bytes remain. -/
def rdU64 (b : List Nat) (i : Nat) : Except DErr Nat :=
  if i + 8 ≤ b.length then .ok (readU64 b i) else .error .panic

/-- `b[i:j]`: panics when the slice bounds are out of range. -/
def rdBytes (b : List Nat) (i j : Nat) : Except DErr (List Nat) :=
  if i ≤ j ∧ j ≤ b.length then .ok ((b.drop i).take (j - i))
  else .error .panic

/-- A `for i := 0; i < n; i++` decode loop collecting entries in order. -/
def decN (f : Nat → Except DErr E) : Nat → Except DErr (List E)
  | 0 => .ok []
  | n + 1 => do
      let init ← decN f n
      let e ← f n
      .ok (init ++ [e])

/-- `readString` of box.go: bytes from `offset` up to `maxLen`/end of
buffer, stopping at the first NUL. The final `buf[offset:end]` slice
panics when `offset` lies past the buffer (hdlr content shorter than
the name offset). -/
def readStringM (b : List Nat) (offset maxLen : Nat) :
    Except DErr (List Nat) :=
  if offset ≤ b.length then
    .ok (((b.drop offset).take
        (min (offset + maxLen) b.length - offset)).takeWhile
      (fun x => x % 256 ≠ 0))
  else .error .panic

end ISOBMFF

namespace ISOBMFF

/-! ### Typed payloads (codec.go structs); Go byte arrays are `List Nat`,
signed fields are `Int`, strings are byte lists. -/

structure FtypM where
  Brand : List Nat
  BrandVersion : Nat
  CompatibleBrands : List (List Nat)
deriving Repr, DecidableEq

structure MvhdM where
  CTime : List Nat
  MTime : List Nat
  TimeScale : Nat
  Duration : Nat
  PreferredRate : List Nat
  PreferredVolume : List Nat
  Matrix : List Nat
  PreviewTime : Nat
  PreviewDuration : Nat
  PosterTime : Nat
  SelectionTime : Nat
  SelectionDuration : Nat
  CurrentTime : Nat
  NextTrackId : Nat
deriving Repr, DecidableEq

structure TkhdM where
  CTime : List Nat
  MTime : List Nat
  TrackId : Nat
  Duration : Nat
  Layer : Nat
  AlternateGroup : Nat
  Volume : Nat
  Matrix : List Nat
  TrackWidth : Nat
  TrackHeight : Nat
deriving Repr, DecidableEq

structure MdhdM where
  CTime : List Nat
  MTime : List Nat
  TimeScale : Nat
  Duration : Nat
  Language : Nat
  Quality : Nat
  V1 : Bool
deriving Repr, DecidableEq

structure VmhdM where
  GraphicsMode : Nat
  Opcolor : List Nat
deriving Repr, DecidableEq

structure SmhdM where
  Balance : Nat
deriving Repr, DecidableEq

structure StszM where
  SampleSize : Nat
  Entries : List Nat
deriving Repr, DecidableEq

structure StcoM where
  Entries : List Nat
deriving Repr, DecidableEq

structure Co64M where
  Entries : List Nat
deriving Repr, DecidableEq

structure STTSEntryM where
  Count : Nat
  Duration : Nat
deriving Repr, DecidableEq

structure SttsM where
  Entries : List STTSEntryM
deriving Repr, DecidableEq

structure CTTSEntryM where
  Count : Nat
  CompositionOffset : Int
deriving Repr, DecidableEq

structure CttsM where
  Entries : List CTTSEntryM
deriving Repr, DecidableEq

structure STSCEntryM where
  FirstChunk : Nat
  SamplesPerChunk : Nat
  SampleDescriptionId : Nat
deriving Repr, DecidableEq

structure StscM where
  Entries : List STSCEntryM
deriving Repr, DecidableEq

structure DrefEntryM where
  Typ : List Nat
  Buf : List Nat
deriving Repr, DecidableEq

structure DrefM where
  Entries : List DrefEntryM
deriving Repr, DecidableEq

structure ElstEntryM where
  TrackDuration : Nat
  MediaTime : Int
  MediaRate : List Nat
deriving Repr, DecidableEq

structure ElstM where
  Entries : List ElstEntryM
deriving Repr, DecidableEq

structure HdlrM where
  HandlerType : List Nat
  Name : List Nat
deriving Repr, DecidableEq

structure MehdM where
  FragmentDuration : Nat
deriving Repr, DecidableEq

structure TrexM where
  TrackId : Nat
  DefaultSampleDescriptionIndex : Nat
  DefaultSampleDuration : Nat
  DefaultSampleSize : Nat
  DefaultSampleFlags : Nat
deriving Repr, DecidableEq

structure MfhdM where
  SequenceNumber : Nat
deriving Repr, DecidableEq

structure TfhdM where
  TrackId : Nat
deriving Repr, DecidableEq

structure TfdtM where
  BaseMediaDecodeTime : Nat
deriving Repr, DecidableEq

structure TrunEntryM where
  SampleDuration : Nat
  SampleSize : Nat
  SampleFlags : Nat
  SampleCompositionTimeOffset : Int
deriving Repr, DecidableEq

structure TrunM where
  DataOffset : Int
  Entries : List TrunEntryM
deriving Repr, DecidableEq

/-- Typed leaf payload: the box types with a (non-recursive) codec. -/
inductive LeafPayload where
  | ftyp : FtypM → LeafPayload
  | mvhd : MvhdM → LeafPayload
  | tkhd : TkhdM → LeafPayload
  | mdhd : MdhdM → LeafPayload
  | vmhd : VmhdM → LeafPayload
  | smhd : SmhdM → LeafPayload
  | stsz : StszM → LeafPayload
  | stco : StcoM → LeafPayload
  | co64 : Co64M → LeafPayload
  | stts : SttsM → LeafPayload
  | ctts : CttsM → LeafPayload
  | stsc : StscM → LeafPayload
  | dref : DrefM → LeafPayload
  | elst : ElstM → LeafPayload
  | hdlr : HdlrM → LeafPayload
  | mehd : MehdM → LeafPayload
  | trex : TrexM → LeafPayload
  | mfhd : MfhdM → LeafPayload
  | tfhd : TfhdM → LeafPayload
  | tfdt : TfdtM → LeafPayload
  | trun : TrunM → LeafPayload
deriving Repr, DecidableEq

/-- A decoded box: type bytes, version, flags, and either a typed leaf
payload, recursively decoded container children, or the raw buffer. -/
inductive BoxM where
  | leaf (type : List Nat) (version flags : Nat) (p : LeafPayload) : BoxM
  | container (type : List Nat) (version flags : Nat)
      (children : List BoxM) : BoxM
  | raw (type : List Nat) (version flags : Nat) (buffer : List Nat) : BoxM

/-! ### Box type constants (ASCII bytes) -/

def tFtyp : List Nat := [102,116,121,112]
def tMvhd : List Nat := [109,118,104,100]
def tTkhd : List Nat := [116,107,104,100]
def tMdhd : List Nat := [109,100,104,100]
def tVmhd : List Nat := [118,109,104,100]
def tSmhd : List Nat := [115,109,104,100]
def tStsd : List Nat := [115,116,115,100]
def tEsds : List Nat := [101,115,100,115]
def tStsz : List Nat := [115,116,115,122]
def tStco : List Nat := [115,116,99,111]
def tCo64 : List Nat := [99,111,54,52]
def tStss : List Nat := [115,116,115,115]
def tStts : List Nat := [115,116,116,115]
def tCtts : List Nat := [99,116,116,115]
def tStsc : List Nat := [115,116,115,99]
def tDref : List Nat := [100,114,101,102]
def tElst : List Nat := [101,108,115,116]
def tHdlr : List Nat := [104,100,108,114]
def tMehd : List Nat := [109,101,104,100]
def tTrex : List Nat := [116,114,101,120]
def tMfhd : List Nat := [109,102,104,100]
def tTfhd : List Nat := [116,102,104,100]
def tTfdt : List Nat := [116,102,100,116]
def tTrun : List Nat := [116,114,117,110]
def tMoov : List Nat := [109,111,111,118]
def tTrak : List Nat := [116,114,97,107]
def tEdts : List Nat := [101,100,116,115]
def tMdia : List Nat := [109,100,105,97]
def tMinf : List Nat := [109,105,110,102]
def tDinf : List Nat := [100,105,110,102]
def tStbl : List Nat := [115,116,98,108]
def tMvex : List Nat := [109,118,101,120]
def tMoof : List Nat := [109,111,111,102]
def tTraf : List Nat := [116,114,97,102]

/-- The fullBoxes set of box.go. -/
def fullBoxTypes : List (List Nat) :=
  [tMvhd, tTkhd, tMdhd, tVmhd, tSmhd, tStsd, tEsds, tStsz, tStco, tCo64,
   tStss, tStts, tCtts, tStsc, tDref, tElst, tHdlr, tMehd, tTrex, tMfhd,
   tTfhd, tTfdt, tTrun]

def isFullBox (t : List Nat) : Bool := fullBoxTypes.contains t

/-- The keys of containerDef in box.go. -/
def containerTypes : List (List Nat) :=
  [tMoov, tTrak, tEdts, tMdia, tMinf, tDinf, tStbl, tMvex, tMoof, tTraf]

def isContainerT (t : List Nat) : Bool := containerTypes.contains t

/-- The box types whose codec is embedded here: the 21 round-trip types
plus stss (which shares the stco codec). The remaining codecs of the Go
table (stsd, avc1, avcC, mp4a, esds, mdat) are recursive or
string-assembling and are outside the embedded dispatch; boxes of those
types fall through to the raw branch in this model. -/
def codecTypes : List (List Nat) :=
  [tFtyp, tMvhd, tTkhd, tMdhd, tVmhd, tSmhd, tStsz, tStco, tStss, tCo64,
   tStts, tCtts, tStsc, tDref, tElst, tHdlr, tMehd, tTrex, tMfhd, tTfhd,
   tTfdt, tTrun]

def hasCodecT (t : List Nat) : Bool := codecTypes.contains t

end ISOBMFF

namespace ISOBMFF

/-- The 6 big-endian bytes of a 48-bit value (mdhd v1 duration). -/
def u48Bytes (v : Nat) : List Nat :=
  [v / 1099511627776 % 256, v / 4294967296 % 256, v / 16777216 % 256,
   v / 65536 % 256, v / 256 % 256, v % 256]

/-- The 48-bit big-endian read of the mdhd v1 duration (6 indexed byte
reads in the source, which panic past the buffer). -/
def rd48 (b : List Nat) (i : Nat) : Except DErr Nat :=
  if i + 6 ≤ b.length then
    .ok ((b.getD i 0 % 256) * 1099511627776 +
      (b.getD (i+1) 0 % 256) * 4294967296 +
      (b.getD (i+2) 0 % 256) * 16777216 +
      (b.getD (i+3) 0 % 256) * 65536 +
      (b.getD (i+4) 0 % 256) * 256 + (b.getD (i+5) 0 % 256))
  else .error .panic

/-! ### Decoders (codec.go); each mirrors the source's reads and checks. -/

def decFtyp (buf : List Nat) (start endp : Nat) : Except DErr FtypM := do
  let b := (buf.drop start).take (endp - start)
  if b.length < 8 then .error .err
  else do
    let brand ← rdBytes b 0 4
    let bv ← rdU32 b 4
    let brands ← decN (fun i => rdBytes b (8 + 4 * i) (8 + 4 * i + 4))
      ((b.length - 8) / 4)
    .ok ⟨brand, bv, brands⟩

def decMvhd (buf : List Nat) (start : Nat) : Except DErr MvhdM := do
  let b := buf.drop start
  let ct ← rdBytes b 0 4
  let mt ← rdBytes b 4 8
  let ts ← rdU32 b 8
  let dur ← rdU32 b 12
  let pr ← rdBytes b 16 20
  let pv ← rdBytes b 20 22
  let mx ← rdBytes b 32 68
  let pt ← rdU32 b 68
  let pd ← rdU32 b 72
  let pot ← rdU32 b 76
  let st ← rdU32 b 80
  let sd ← rdU32 b 84
  let cur ← rdU32 b 88
  let nt ← rdU32 b 92
  .ok ⟨ct, mt, ts, dur, pr, pv, mx, pt, pd, pot, st, sd, cur, nt⟩

def decTkhd (buf : List Nat) (start : Nat) : Except DErr TkhdM := do
  let b := buf.drop start
  let ct ← rdBytes b 0 4
  let mt ← rdBytes b 4 8
  let tid ← rdU32 b 8
  let dur ← rdU32 b 16
  let layer ← rdU16 b 28
  let ag ← rdU16 b 30
  let vol ← rdU16 b 32
  let mx ← rdBytes b 36 72
  let tw ← rdU32 b 72
  let th ← rdU32 b 76
  .ok ⟨ct, mt, tid, dur, layer, ag, vol, mx, tw, th⟩

def decMdhd (buf : List Nat) (start endp : Nat) : Except DErr MdhdM := do
  let b := (buf.drop start).take (endp - start)
  if endp - start ≠ 20 then do
    let ct ← rdBytes b 0 8
    let mt ← rdBytes b 8 16
    let ts ← rdU32 b 16
    let dur ← rd48 b 20
    let lang ← rdU16 b 28
    let q ← rdU16 b 30
    .ok ⟨ct, mt, ts, dur, lang, q, true⟩
  else do
    let ct ← rdBytes b 0 4
    let mt ← rdBytes b 4 8
    let ts ← rdU32 b 8
    let dur ← rdU32 b 12
    let lang ← rdU16 b 16
    let q ← rdU16 b 18
    .ok ⟨ct ++ List.replicate 4 0, mt ++ List.replicate 4 0, ts, dur,
      lang, q, false⟩

def decVmhd (buf : List Nat) (start : Nat) : Except DErr VmhdM := do
  let b := buf.drop start
  let gm ← rdU16 b 0
  let o0 ← rdU16 b 2
  let o1 ← rdU16 b 4
  let o2 ← rdU16 b 6
  .ok ⟨gm, [o0, o1, o2]⟩

def decSmhd (buf : List Nat) (start : Nat) : Except DErr SmhdM := do
  let bal ← rdU16 (buf.drop start) 0
  .ok ⟨bal⟩

def decStsz (buf : List Nat) (start : Nat) : Except DErr StszM := do
  let b := buf.drop start
  let sampleSize ← rdU32 b 0
  let num ← rdU32 b 4
  let entries ← decN
    (fun i => if sampleSize = 0 then rdU32 b (8 + i * 4) else .ok sampleSize)
    num
  .ok ⟨sampleSize, entries⟩

def decStco (buf : List Nat) (start : Nat) : Except DErr StcoM := do
  let b := buf.drop start
  let num ← rdU32 b 0
  let entries ← decN (fun i => rdU32 b (4 + i * 4)) num
  .ok ⟨entries⟩

def decCo64 (buf : List Nat) (start : Nat) : Except DErr Co64M := do
  let b := buf.drop start
  let num ← rdU32 b 0
  let entries ← decN (fun i => rdU64 b (4 + i * 8)) num
  .ok ⟨entries⟩

def decStts (buf : List Nat) (start : Nat) : Except DErr SttsM := do
  let b := buf.drop start
  let num ← rdU32 b 0
  let entries ← decN (fun i => do
    let c ← rdU32 b (4 + i * 8)
    let d ← rdU32 b (4 + i * 8 + 4)
    .ok (⟨c, d⟩ : STTSEntryM)) num
  .ok ⟨entries⟩

def decCtts (buf : List Nat) (start : Nat) : Except DErr CttsM := do
  let b := buf.drop start
  let num ← rdU32 b 0
  let entries ← decN (fun i => do
    let c ← rdU32 b (4 + i * 8)
    let o ← rdU32 b (4 + i * 8 + 4)
    .ok (⟨c, toSigned32 o⟩ : CTTSEntryM)) num
  .ok ⟨entries⟩

def decStsc (buf : List Nat) (start : Nat) : Except DErr StscM := do
  let b := buf.drop start
  let num ← rdU32 b 0
  let entries ← decN (fun i => do
    let fc ← rdU32 b (4 + i * 12)
    let spc ← rdU32 b (4 + i * 12 + 4)
    let sdi ← rdU32 b (4 + i * 12 + 8)
    .ok (⟨fc, spc, sdi⟩ : STSCEntryM)) num
  .ok ⟨entries⟩

def decDrefEntries (b : List Nat) : Nat → Nat → Except DErr (List DrefEntryM)
  | 0, _ => .ok []
  | n + 1, ptr => do
      let size ← rdU32 b ptr
      let t ← rdBytes b (ptr + 4) (ptr + 8)
      let dataBuf ← rdBytes b (ptr + 8) (ptr + size)
      let rest ← decDrefEntries b n (ptr + size)
      .ok (⟨t, dataBuf⟩ :: rest)

def decDref (buf : List Nat) (start : Nat) : Except DErr DrefM := do
  let b := buf.drop start
  let num ← rdU32 b 0
  let entries ← decDrefEntries b num 4
  .ok ⟨entries⟩

def decElst (buf : List Nat) (start : Nat) : Except DErr ElstM := do
  let b := buf.drop start
  let num ← rdU32 b 0
  let entries ← decN (fun i => do
    let td ← rdU32 b (4 + i * 12)
    let mt ← rdU32 b (4 + i * 12 + 4)
    let mr ← rdBytes b (4 + i * 12 + 8) (4 + i * 12 + 12)
    .ok (⟨td, toSigned32 mt, mr⟩ : ElstEntryM)) num
  .ok ⟨entries⟩

def decHdlr (buf : List Nat) (start endp : Nat) : Except DErr HdlrM := do
  let b := (buf.drop start).take (endp - start)
  let ht ← rdBytes b 4 8
  let name ← readStringM b 20 (endp - start)
  .ok ⟨ht, name⟩

def decMehd (buf : List Nat) (start : Nat) : Except DErr MehdM := do
  let fd ← rdU32 (buf.drop start) 0
  .ok ⟨fd⟩

def decTrex (buf : List Nat) (start : Nat) : Except DErr TrexM := do
  let b := buf.drop start
  let tid ← rdU32 b 0
  let dsdi ← rdU32 b 4
  let dsd ← rdU32 b 8
  let dss ← rdU32 b 12
  let dsf ← rdU32 b 16
  .ok ⟨tid, dsdi, dsd, dss, dsf⟩

def decMfhd (buf : List Nat) (start : Nat) : Except DErr MfhdM := do
  let sn ← rdU32 (buf.drop start) 0
  .ok ⟨sn⟩

def decTfhd (buf : List Nat) (start : Nat) : Except DErr TfhdM := do
  let tid ← rdU32 (buf.drop start) 0
  .ok ⟨tid⟩

def decTfdt (buf : List Nat) (start : Nat) : Except DErr TfdtM := do
  let t ← rdU32 (buf.drop start) 0
  .ok ⟨t⟩

def decTrun (buf : List Nat) (start : Nat) : Except DErr TrunM := do
  let b := buf.drop start
  let num ← rdU32 b 0
  let doff ← rdU32 b 4
  let entries ← decN (fun i => do
    let sd ← rdU32 b (8 + i * 16)
    let ss ← rdU32 b (8 + i * 16 + 4)
    let sf ← rdU32 b (8 + i * 16 + 8)
    let so ← rdU32 b (8 + i * 16 + 12)
    .ok (⟨sd, ss, sf, toSigned32 so⟩ : TrunEntryM)) num
  .ok ⟨toSigned32 doff, entries⟩

/-- The codec dispatch of decodeBody (codec table of codec.go),
restricted to the embedded types. -/
def decodePayload (t buf : List Nat) (start endp : Nat) :
    Except DErr LeafPayload :=
  if t = tFtyp then (decFtyp buf start endp).map .ftyp
  else if t = tMvhd then (decMvhd buf start).map .mvhd
  else if t = tTkhd then (decTkhd buf start).map .tkhd
  else if t = tMdhd then (decMdhd buf start endp).map .mdhd
  else if t = tVmhd then (decVmhd buf start).map .vmhd
  else if t = tSmhd then (decSmhd buf start).map .smhd
  else if t = tStsz then (decStsz buf start).map .stsz
  else if t = tStco then (decStco buf start).map .stco
  else if t = tStss then (decStco buf start).map .stco
  else if t = tCo64 then (decCo64 buf start).map .co64
  else if t = tStts then (decStts buf start).map .stts
  else if t = tCtts then (decCtts buf start).map .ctts
  else if t = tStsc then (decStsc buf start).map .stsc
  else if t = tDref then (decDref buf start).map .dref
  else if t = tElst then (decElst buf start).map .elst
  else if t = tHdlr then (decHdlr buf start endp).map .hdlr
  else if t = tMehd then (decMehd buf start).map .mehd
  else if t = tTrex then (decTrex buf start).map .trex
  else if t = tMfhd then (decMfhd buf start).map .mfhd
  else if t = tTfhd then (decTfhd buf start).map .tfhd
  else if t = tTfdt then (decTfdt buf start).map .tfdt
  else if t = tTrun then (decTrun buf start).map .trun
  else .error .err

structure HeadersM where
  Size : Nat
  HeaderSize : Nat
  Typ : List Nat
  Version : Nat
  Flags : Nat
deriving Repr, DecidableEq

/-- ReadHeaders of box.go: 32-bit size and type, optional 64-bit
extended size, optional version/flags for full boxes. -/
def readHeadersM (buf : List Nat) (start endp : Nat) :
    Except DErr HeadersM := do
  if endp - start < 8 then .error .err
  else do
    let size32 ← rdU32 buf start
    let t ← rdBytes buf (start + 4) (start + 8)
    let sp ←
      if size32 = 1 then
        if endp - start < 16 then Except.error DErr.err
        else do
          let size ← rdU64 buf (start + 8)
          Except.ok (size, start + 16)
      else Except.ok (size32, start + 8)
    if isFullBox t then
      if endp - sp.2 < 4 then .error .err
      else do
        let vf ← rdU32 buf sp.2
        .ok ⟨sp.1, sp.2 + 4 - start, t, vf / 16777216, vf % 16777216⟩
    else .ok ⟨sp.1, sp.2 - start, t, 0, 0⟩

mutual

/-- Decode of box.go: headers, frame check, then container recursion,
codec dispatch, or raw capture; returns the box and its declared size
(used by container loops to advance). Recursion is fuelled. -/
def decodeM : Nat → List Nat → Nat → Nat → Except DErr (BoxM × Nat)
  | 0, _, _, _ => .error .err
  | fuel + 1, buf, start, endp => do
      let h ← readHeadersM buf start endp
      if endp - start < h.Size then .error .err
      else
        let cstart := start + h.HeaderSize
        let cend := start + h.Size
        if isContainerT h.Typ then do
          let cs ← decodeChildrenM fuel buf cstart cend
          .ok (.container h.Typ h.Version h.Flags cs, h.Size)
        else if hasCodecT h.Typ then do
          let p ← decodePayload h.Typ buf cstart cend
          .ok (.leaf h.Typ h.Version h.Flags p, h.Size)
        else do
          let bb ← rdBytes buf cstart cend
          .ok (.raw h.Typ h.Version h.Flags bb, h.Size)

/-- The container child loop of decodeBody. -/
def decodeChildrenM : Nat → List Nat → Nat → Nat → Except DErr (List BoxM)
  | 0, _, _, _ => .error .err
  | fuel + 1, buf, ptr, endp =>
    if 8 ≤ endp - ptr then do
      let cs ← decodeM fuel buf ptr endp
      let rest ← decodeChildrenM fuel buf (ptr + cs.2) endp
      .ok (cs.1 :: rest)
    else .ok []

end

/-- Decode an entire buffer, as mp4dump does: `Decode(data, 0, len(data))`. -/
def DecodeTop (buf : List Nat) : Except DErr BoxM :=
  (decodeM (buf.length + 1) buf 0 buf.length).map (·.1)

end ISOBMFF

namespace ISOBMFF

/-- A 12-byte mvhd box: full header only, empty content. ReadHeaders
and the frame check accept it, then decodeMvhd reads `b[0:4]` of the
empty content without any length check. -/
def exC7mvhd : List Nat := [0,0,0,12, 109,118,104,100, 0,0,0,0]

/-- A 16-byte stsz box whose 4-byte content holds only the fixed
sample-size field; decodeStsz then reads the count field `b[4:8]` past
the content without any length check. -/
def exC7stsz : List Nat := [0,0,0,16, 115,116,115,122, 0,0,0,0, 0,0,0,0]

/-- C7: the claim that box parsing never panics on malformed input is
refuted by the code: decodeMvhd and decodeStsz index the content buffer
without bounds checks, so Decode panics (modelled as the `DErr.panic`
outcome) on these well-framed but short boxes. -/
theorem claim_C7_decode_panics :
    DecodeTop exC7mvhd = .error .panic ∧
    DecodeTop exC7stsz = .error .panic :=
  ⟨rfl, rfl⟩

end ISOBMFF

namespace ISOBMFF

/-! ### Encoders (codec.go); writes tile the payload exactly, so they are
rendered as byte-list concatenations (cleared gaps become zero bytes). -/

def encFtyp (f : FtypM) : List Nat :=
  f.Brand ++ u32Bytes f.BrandVersion ++ f.CompatibleBrands.flatMap (fun x => x)

def encMvhd (m : MvhdM) : List Nat :=
  m.CTime ++ m.MTime ++ u32Bytes m.TimeScale ++ u32Bytes m.Duration ++
  m.PreferredRate ++ m.PreferredVolume ++ List.replicate 10 0 ++ m.Matrix ++
  u32Bytes m.PreviewTime ++ u32Bytes m.PreviewDuration ++
  u32Bytes m.PosterTime ++ u32Bytes m.SelectionTime ++
  u32Bytes m.SelectionDuration ++ u32Bytes m.CurrentTime ++
  u32Bytes m.NextTrackId

def encTkhd (t : TkhdM) : List Nat :=
  t.CTime ++ t.MTime ++ u32Bytes t.TrackId ++ List.replicate 4 0 ++
  u32Bytes t.Duration ++ List.replicate 8 0 ++ u16Bytes t.Layer ++
  u16Bytes t.AlternateGroup ++ u16Bytes t.Volume ++ List.replicate 2 0 ++
  t.Matrix ++ u32Bytes t.TrackWidth ++ u32Bytes t.TrackHeight

def encMdhd (m : MdhdM) : List Nat :=
  if m.V1 then
    m.CTime ++ m.MTime ++ u32Bytes m.TimeScale ++ u48Bytes m.Duration ++
    List.replicate 2 0 ++ u16Bytes m.Language ++ u16Bytes m.Quality
  else
    m.CTime.take 4 ++ m.MTime.take 4 ++ u32Bytes m.TimeScale ++
    u32Bytes m.Duration ++ u16Bytes m.Language ++ u16Bytes m.Quality

def encVmhd (v : VmhdM) : List Nat :=
  u16Bytes v.GraphicsMode ++ u16Bytes (v.Opcolor.getD 0 0) ++
  u16Bytes (v.Opcolor.getD 1 0) ++ u16Bytes (v.Opcolor.getD 2 0)

def encSmhd (s : SmhdM) : List Nat := u16Bytes s.Balance ++ [0, 0]

def encStsz (s : StszM) : List Nat :=
  u32Bytes 0 ++ u32Bytes s.Entries.length ++ s.Entries.flatMap u32Bytes

def encStco (s : StcoM) : List Nat :=
  u32Bytes s.Entries.length ++ s.Entries.flatMap u32Bytes

def encCo64 (s : Co64M) : List Nat :=
  u32Bytes s.Entries.length ++ s.Entries.flatMap u64Bytes

def encStts (s : SttsM) : List Nat :=
  u32Bytes s.Entries.length ++
  s.Entries.flatMap (fun e => u32Bytes e.Count ++ u32Bytes e.Duration)

def encCtts (s : CttsM) : List Nat :=
  u32Bytes s.Entries.length ++
  s.Entries.flatMap
    (fun e => u32Bytes e.Count ++ u32Bytes (intToU32 e.CompositionOffset))

def encStsc (s : StscM) : List Nat :=
  u32Bytes s.Entries.length ++
  s.Entries.flatMap (fun e => u32Bytes e.FirstChunk ++
    u32Bytes e.SamplesPerChunk ++ u32Bytes e.SampleDescriptionId)

def encDref (d : DrefM) : List Nat :=
  u32Bytes d.Entries.length ++
  d.Entries.flatMap (fun e => u32Bytes (8 + e.Buf.length) ++ e.Typ ++ e.Buf)

def encElst (s : ElstM) : List Nat :=
  u32Bytes s.Entries.length ++
  s.Entries.flatMap (fun e => u32Bytes e.TrackDuration ++
    u32Bytes (intToU32 e.MediaTime) ++ e.MediaRate)

def encHdlr (h : HdlrM) : List Nat :=
  List.replicate 4 0 ++ h.HandlerType ++ List.replicate 12 0 ++ h.Name ++ [0]

def encMehd (m : MehdM) : List Nat := u32Bytes m.FragmentDuration

def encTrex (t : TrexM) : List Nat :=
  u32Bytes t.TrackId ++ u32Bytes t.DefaultSampleDescriptionIndex ++
  u32Bytes t.DefaultSampleDuration ++ u32Bytes t.DefaultSampleSize ++
  u32Bytes t.DefaultSampleFlags

def encMfhd (m : MfhdM) : List Nat := u32Bytes m.SequenceNumber

def encTfhd (t : TfhdM) : List Nat := u32Bytes t.TrackId

def encTfdt (t : TfdtM) : List Nat := u32Bytes t.BaseMediaDecodeTime

def encTrun (t : TrunM) : List Nat :=
  u32Bytes t.Entries.length ++ u32Bytes (intToU32 t.DataOffset) ++
  t.Entries.flatMap (fun e => u32Bytes e.SampleDuration ++
    u32Bytes e.SampleSize ++ u32Bytes e.SampleFlags ++
    u32Bytes (intToU32 e.SampleCompositionTimeOffset))

/-- Payload encode dispatch (the encode column of the codec table). -/
def encodePayload : LeafPayload → List Nat
  | .ftyp f => encFtyp f
  | .mvhd m => encMvhd m
  | .tkhd t => encTkhd t
  | .mdhd m => encMdhd m
  | .vmhd v => encVmhd v
  | .smhd s => encSmhd s
  | .stsz s => encStsz s
  | .stco s => encStco s
  | .co64 s => encCo64 s
  | .stts s => encStts s
  | .ctts s => encCtts s
  | .stsc s => encStsc s
  | .dref d => encDref d
  | .elst s => encElst s
  | .hdlr h => encHdlr h
  | .mehd m => encMehd m
  | .trex t => encTrex t
  | .mfhd m => encMfhd m
  | .tfhd t => encTfhd t
  | .tfdt t => encTfdt t
  | .trun t => encTrun t

/-- encodingLength dispatch (the encodingLength column of the codec
table, translated per source). -/
def encLenPayload : LeafPayload → Nat
  | .ftyp f => 8 + 4 * f.CompatibleBrands.length
  | .mvhd _ => 96
  | .tkhd _ => 80
  | .mdhd m => if m.V1 then 32 else 20
  | .vmhd _ => 8
  | .smhd _ => 4
  | .stsz s => 8 + 4 * s.Entries.length
  | .stco s => 4 + 4 * s.Entries.length
  | .co64 s => 4 + 8 * s.Entries.length
  | .stts s => 4 + 8 * s.Entries.length
  | .ctts s => 4 + 8 * s.Entries.length
  | .stsc s => 4 + 12 * s.Entries.length
  | .dref d => 4 + (d.Entries.map (fun e => 8 + e.Buf.length)).sum
  | .elst s => 4 + 12 * s.Entries.length
  | .hdlr h => 21 + h.Name.length
  | .mehd _ => 4
  | .trex _ => 20
  | .mfhd _ => 4
  | .tfhd _ => 4
  | .tfdt _ => 4
  | .trun t => 8 + 16 * t.Entries.length

/-- The box type under which each payload is encoded. -/
def typeOf : LeafPayload → List Nat
  | .ftyp _ => tFtyp
  | .mvhd _ => tMvhd
  | .tkhd _ => tTkhd
  | .mdhd _ => tMdhd
  | .vmhd _ => tVmhd
  | .smhd _ => tSmhd
  | .stsz _ => tStsz
  | .stco _ => tStco
  | .co64 _ => tCo64
  | .stts _ => tStts
  | .ctts _ => tCtts
  | .stsc _ => tStsc
  | .dref _ => tDref
  | .elst _ => tElst
  | .hdlr _ => tHdlr
  | .mehd _ => tMehd
  | .trex _ => tTrex
  | .mfhd _ => tMfhd
  | .tfhd _ => tTfhd
  | .tfdt _ => tTfdt
  | .trun _ => tTrun

/-- Encode of box.go for a leaf box: EncodingLength to fix the size,
then the header (with extended size above uint32Max), the version/flags
word for full boxes, and the payload. -/
def encodeLeaf (t : List Nat) (version flags : Nat) (p : LeafPayload) :
    List Nat :=
  let size := 8 + (if isFullBox t then 4 else 0) + encLenPayload p
  let size := if size > 4294967295 then size + 8 else size
  (if size > 4294967295 then u32Bytes 1 ++ t ++ u64Bytes size
   else u32Bytes size ++ t) ++
  (if isFullBox t then u32Bytes (version * 16777216 + flags % 16777216)
   else []) ++
  encodePayload p

end ISOBMFF

namespace ISOBMFF

/-! ### Read-back lemmas: reading an encoded field recovers it. -/

theorem getD_drop (b : List Nat) (i k d : Nat) :
    (b.drop i).getD k d = b.getD (i + k) d := by
  simp [List.getD_eq_getElem?_getD, List.getElem?_drop]

theorem readU32_drop (b : List Nat) (i : Nat) :
    readU32 b i = readU32 (b.drop i) 0 := by
  unfold readU32
  rw [getD_drop, getD_drop, getD_drop, getD_drop]
  norm_num

theorem readU16_drop (b : List Nat) (i : Nat) :
    readU16 b i = readU16 (b.drop i) 0 := by
  unfold readU16
  rw [getD_drop, getD_drop]
  norm_num

theorem readU32_u32Bytes (v : Nat) (r : List Nat) (hv : v < 4294967296) :
    readU32 (u32Bytes v ++ r) 0 = v := by
  show (v / 16777216 % 256 % 256) * 16777216 + (v / 65536 % 256 % 256) * 65536 +
    (v / 256 % 256 % 256) * 256 + (v % 256 % 256) = v
  omega

theorem readU16_u16Bytes (v : Nat) (r : List Nat) (hv : v < 65536) :
    readU16 (u16Bytes v ++ r) 0 = v := by
  show (v / 256 % 256 % 256) * 256 + (v % 256 % 256) = v
  omega

theorem u32Bytes_mod (v : Nat) : u32Bytes v = u32Bytes (v % 4294967296) := by
  simp only [u32Bytes, List.cons.injEq, and_true]
  refine ⟨?_, ?_, ?_, ?_⟩ <;> first | trivial | omega

theorem u64Bytes_split (v : Nat) :
    u64Bytes v = u32Bytes (v / 4294967296) ++ u32Bytes (v % 4294967296) := by
  simp only [u64Bytes, u32Bytes, List.cons_append, List.nil_append,
    List.cons.injEq, and_true]
  refine ⟨?_, ?_, ?_, ?_, ?_, ?_, ?_, ?_⟩ <;> first | trivial | omega

theorem readU64_u64Bytes (v : Nat) (r : List Nat)
    (hv : v < 18446744073709551616) :
    readU64 (u64Bytes v ++ r) 0 = v := by
  rw [u64Bytes_split, List.append_assoc]
  unfold readU64
  rw [readU32_u32Bytes _ _ (by omega)]
  rw [readU32_drop]
  rw [show (u32Bytes (v / 4294967296) ++ (u32Bytes (v % 4294967296) ++ r)).drop
    (0 + 4) = u32Bytes (v % 4294967296) ++ r from by simp [u32Bytes]]
  rw [readU32_u32Bytes _ _ (by omega)]
  omega

theorem dropAt (b : List Nat) (i k : Nat) (seg r : List Nat)
    (h : b.drop i = seg ++ r) (hs : seg.length = k) :
    b.drop (i + k) = r := by
  have h2 : (b.drop i).drop k = r := by
    rw [h, ← hs, List.drop_left]
  rw [← h2, List.drop_drop]

theorem drop_len_eq (b : List Nat) (i : Nat) (seg r : List Nat)
    (h : b.drop i = seg ++ r) : b.length - i = seg.length + r.length := by
  rw [← List.length_drop, h, List.length_append]

theorem rdU32_eq (b : List Nat) (i v : Nat) (r : List Nat)
    (h : b.drop i = u32Bytes v ++ r) (hv : v < 4294967296) :
    rdU32 b i = .ok v := by
  have hl := drop_len_eq b i _ _ h
  simp only [u32Bytes, List.length_cons, List.length_nil] at hl
  unfold rdU32
  rw [if_pos (by omega), readU32_drop, h, readU32_u32Bytes v r hv]

theorem rdU16_eq (b : List Nat) (i v : Nat) (r : List Nat)
    (h : b.drop i = u16Bytes v ++ r) (hv : v < 65536) :
    rdU16 b i = .ok v := by
  have hl := drop_len_eq b i _ _ h
  simp only [u16Bytes, List.length_cons, List.length_nil] at hl
  unfold rdU16
  rw [if_pos (by omega), readU16_drop, h, readU16_u16Bytes v r hv]

theorem rdU64_eq (b : List Nat) (i v : Nat) (r : List Nat)
    (h : b.drop i = u64Bytes v ++ r) (hv : v < 18446744073709551616) :
    rdU64 b i = .ok v := by
  have hl := drop_len_eq b i _ _ h
  simp only [u64Bytes, List.length_cons, List.length_nil] at hl
  unfold rdU64
  rw [if_pos (by omega)]
  rw [show readU64 b i = readU64 (b.drop i) 0 from by
    unfold readU64
    rw [readU32_drop b i, readU32_drop b (i + 4), readU32_drop (b.drop i) 4,
      List.drop_drop]]
  rw [h, readU64_u64Bytes v r hv]

theorem rdBytes_eq (b : List Nat) (i j : Nat) (seg r : List Nat)
    (h : b.drop i = seg ++ r) (hs : seg.length = j - i) (hij : i ≤ j)
    (hib : i ≤ b.length) :
    rdBytes b i j = .ok seg := by
  have hl := drop_len_eq b i _ _ h
  unfold rdBytes
  rw [if_pos (by constructor <;> omega), h, ← hs, List.take_left]

theorem rd48_eq (b : List Nat) (i v : Nat) (r : List Nat)
    (h : b.drop i = u48Bytes v ++ r) (hv : v < 281474976710656) :
    rd48 b i = .ok v := by
  have hl := drop_len_eq b i _ _ h
  simp only [u48Bytes, List.length_cons, List.length_nil] at hl
  unfold rd48
  rw [if_pos (by omega)]
  have hg : ∀ k : Nat, b.getD (i + k) 0 = (u48Bytes v ++ r).getD k 0 := by
    intro k
    rw [← getD_drop, h]
  rw [show b.getD i 0 = b.getD (i + 0) 0 from by norm_num,
    hg 0, hg 1, hg 2, hg 3, hg 4, hg 5]
  show Except.ok ((v / 1099511627776 % 256 % 256) * 1099511627776 +
    (v / 4294967296 % 256 % 256) * 4294967296 +
    (v / 16777216 % 256 % 256) * 16777216 +
    (v / 65536 % 256 % 256) * 65536 +
    (v / 256 % 256 % 256) * 256 + v % 256 % 256) = Except.ok v
  congr 1
  omega

end ISOBMFF

namespace ISOBMFF

theorem decN_ok {E : Type} (f : Nat → Except DErr E) (g : Nat → E) :
    ∀ n : Nat, (∀ i, i < n → f i = .ok (g i)) →
      decN f n = .ok ((List.range n).map g) := by
  intro n
  induction n with
  | zero => intro _; rfl
  | succ n ih =>
    intro h
    have h1 := ih (fun i hi => h i (by omega))
    have h2 := h n (by omega)
    simp only [decN, h1, h2, List.range_succ, List.map_append, List.map_cons,
      List.map_nil]
    rfl

theorem range_map_getD {α : Type} (l : List α) (d : α) :
    (List.range l.length).map (fun i => l.getD i d) = l := by
  refine List.ext_getElem (by simp) ?_
  intro i h1 h2
  simp only [List.getElem_map, List.getElem_range,
    List.getD_eq_getElem?_getD]
  rw [List.getElem?_eq_getElem h2]
  rfl

theorem length_flatMap_const {E : Type} (enc : E → List Nat) (s : Nat) :
    ∀ l : List E, (∀ e ∈ l, (enc e).length = s) →
      (l.flatMap enc).length = s * l.length := by
  intro l
  induction l with
  | nil => intro _; simp
  | cons e tl ih =>
    intro h
    simp only [List.flatMap_cons, List.length_append,
      h e (List.mem_cons_self _ _),
      ih (fun x hx => h x (List.mem_cons_of_mem _ hx)), List.length_cons]
    ring

theorem drop_flatMap_fixed {E : Type} (enc : E → List Nat) (s : Nat) :
    ∀ (l : List E) (pre : List Nat) (i : Nat) (hi : i < l.length),
      (∀ e ∈ l, (enc e).length = s) →
      (pre ++ l.flatMap enc).drop (pre.length + i * s) =
        enc (l.get ⟨i, hi⟩) ++ (l.drop (i + 1)).flatMap enc := by
  intro l
  induction l with
  | nil =>
    intro pre i hi
    exact absurd hi (by simp)
  | cons e tl ih =>
    intro pre i hi hlen
    cases i with
    | zero =>
      rw [List.flatMap_cons, show pre.length + 0 * s = pre.length from by omega,
        List.drop_left]
      simp
    | succ i =>
      have hstep : (pre ++ (e :: tl).flatMap enc).drop
          (pre.length + (i + 1) * s) =
          ((pre ++ enc e) ++ tl.flatMap enc).drop
            ((pre ++ enc e).length + i * s) := by
        rw [List.flatMap_cons, ← List.append_assoc]
        congr 1
        rw [List.length_append, hlen e (List.mem_cons_self _ _)]
        ring
      rw [hstep, ih (pre ++ enc e) i
        (by simp only [List.length_cons] at hi; omega)
        (fun x hx => hlen x (List.mem_cons_of_mem _ hx))]
      rfl

theorem toSigned32_intToU32 (x : Int) (h1 : -2147483648 ≤ x)
    (h2 : x < 2147483648) : toSigned32 (intToU32 x) = x := by
  unfold toSigned32 intToU32
  omega

theorem intToU32_lt (x : Int) : intToU32 x < 4294967296 := by
  unfold intToU32
  omega

theorem takeWhile_nul (l : List Nat) (hnz : ∀ c ∈ l, c % 256 ≠ 0) :
    (l ++ [0]).takeWhile (fun x => decide (x % 256 ≠ 0)) = l := by
  induction l with
  | nil => rfl
  | cons c tl ih =>
    have hc := hnz c (List.mem_cons_self _ _)
    rw [List.cons_append, List.takeWhile_cons, if_pos (by simp [hc]),
      ih (fun x hx => hnz x (List.mem_cons_of_mem _ hx))]

end ISOBMFF

namespace ISOBMFF

theorem ebind_ok {α β : Type} (a : α) (f : α → Except DErr β) :
    (Except.ok a >>= f) = f a := rfl

theorem decodeLeaf_frame_full (t : List Nat) (version flags : Nat)
    (p q : LeafPayload)
    (ht : t.length = 4) (hfb : isFullBox t = true)
    (hcodec : hasCodecT t = true) (hcont : isContainerT t = false)
    (hlen : (encodePayload p).length = encLenPayload p)
    (hsz : 12 + encLenPayload p ≤ 4294967295)
    (hv : version < 256) (hf : flags < 16777216)
    (hdec : decodePayload t (encodeLeaf t version flags p) 12
        (12 + encLenPayload p) = .ok q) :
    DecodeTop (encodeLeaf t version flags p) = .ok (.leaf t version flags q) := by
  have hA : ¬ (8 + (if isFullBox t then 4 else 0) + encLenPayload p >
      4294967295) := by
    simp only [hfb, reduceIte]
    omega
  have hbuf : encodeLeaf t version flags p =
      u32Bytes (12 + encLenPayload p) ++ (t ++
        (u32Bytes (version * 16777216 + flags % 16777216) ++
          encodePayload p)) := by
    simp only [encodeLeaf]
    rw [if_neg hA, if_neg hA]
    simp only [hfb, reduceIte]
    simp [List.append_assoc]
  have hblen : (encodeLeaf t version flags p).length =
      12 + encLenPayload p := by
    rw [hbuf]
    simp only [List.length_append, u32Bytes, List.length_cons,
      List.length_nil, ht, hlen]
    omega
  have hd0 : (encodeLeaf t version flags p).drop 0 =
      u32Bytes (12 + encLenPayload p) ++ (t ++
        (u32Bytes (version * 16777216 + flags % 16777216) ++
          encodePayload p)) := by
    rw [List.drop_zero, hbuf]
  have hrdS : rdU32 (encodeLeaf t version flags p) 0 =
      .ok (12 + encLenPayload p) := rdU32_eq _ 0 _ _ hd0 (by omega)
  have hd4 : (encodeLeaf t version flags p).drop 4 =
      t ++ (u32Bytes (version * 16777216 + flags % 16777216) ++
        encodePayload p) := dropAt _ 0 4 _ _ hd0 rfl
  have hrdT : rdBytes (encodeLeaf t version flags p) 4 8 = .ok t :=
    rdBytes_eq _ 4 8 t _ hd4 (by omega) (by omega) (by omega)
  have hd8 : (encodeLeaf t version flags p).drop 8 =
      u32Bytes (version * 16777216 + flags % 16777216) ++ encodePayload p :=
    dropAt _ 4 4 t _ hd4 ht
  have hrdVF : rdU32 (encodeLeaf t version flags p) 8 =
      .ok (version * 16777216 + flags % 16777216) :=
    rdU32_eq _ 8 _ _ hd8 (by omega)
  have hheaders : readHeadersM (encodeLeaf t version flags p) 0
      (encodeLeaf t version flags p).length =
      .ok ⟨12 + encLenPayload p, 12, t, version, flags⟩ := by
    unfold readHeadersM
    rw [if_neg (show ¬ ((encodeLeaf t version flags p).length - 0 < 8) from
      by omega)]
    simp only [hrdS, ebind_ok, Nat.reduceAdd, Nat.zero_add]
    simp only [hrdT, ebind_ok]
    rw [if_neg (show ¬ (12 + encLenPayload p = 1) from by omega)]
    simp only [hfb, reduceIte]
    rw [if_neg (show ¬ ((encodeLeaf t version flags p).length - 8 < 4) from
      by omega)]
    simp only [hrdVF, ebind_ok]
    simp only [Except.ok.injEq, HeadersM.mk.injEq]
    refine ⟨trivial, trivial, trivial, by omega, by omega⟩
  unfold DecodeTop
  simp only [decodeM]
  simp only [hheaders, ebind_ok]
  rw [if_neg (show ¬ ((encodeLeaf t version flags p).length - 0 <
    12 + encLenPayload p) from by omega)]
  simp only [hcont, hcodec, reduceIte, Nat.zero_add, Nat.reduceAdd]
  simp only [hdec, ebind_ok]
  rfl

end ISOBMFF

namespace ISOBMFF

theorem decodeLeaf_frame_plain (t : List Nat) (p q : LeafPayload)
    (ht : t.length = 4) (hfb : isFullBox t = false)
    (hcodec : hasCodecT t = true) (hcont : isContainerT t = false)
    (hlen : (encodePayload p).length = encLenPayload p)
    (hsz : 8 + encLenPayload p ≤ 4294967295)
    (hdec : decodePayload t (encodeLeaf t 0 0 p) 8
        (8 + encLenPayload p) = .ok q) :
    DecodeTop (encodeLeaf t 0 0 p) = .ok (.leaf t 0 0 q) := by
  have hA : ¬ (8 + (if isFullBox t then 4 else 0) + encLenPayload p >
      4294967295) := by
    simp only [hfb, Bool.false_eq_true, if_false]
    omega
  have hbuf : encodeLeaf t 0 0 p =
      u32Bytes (8 + encLenPayload p) ++ (t ++ encodePayload p) := by
    simp only [encodeLeaf]
    rw [if_neg hA, if_neg hA]
    simp only [hfb, Bool.false_eq_true, if_false]
    simp [List.append_assoc]
  have hblen : (encodeLeaf t 0 0 p).length = 8 + encLenPayload p := by
    rw [hbuf]
    simp only [List.length_append, u32Bytes, List.length_cons,
      List.length_nil, ht, hlen]
    omega
  have hd0 : (encodeLeaf t 0 0 p).drop 0 =
      u32Bytes (8 + encLenPayload p) ++ (t ++ encodePayload p) := by
    rw [List.drop_zero, hbuf]
  have hrdS : rdU32 (encodeLeaf t 0 0 p) 0 = .ok (8 + encLenPayload p) :=
    rdU32_eq _ 0 _ _ hd0 (by omega)
  have hd4 : (encodeLeaf t 0 0 p).drop 4 = t ++ encodePayload p :=
    dropAt _ 0 4 _ _ hd0 rfl
  have hrdT : rdBytes (encodeLeaf t 0 0 p) 4 8 = .ok t :=
    rdBytes_eq _ 4 8 t _ hd4 (by omega) (by omega) (by omega)
  have hheaders : readHeadersM (encodeLeaf t 0 0 p) 0
      (encodeLeaf t 0 0 p).length =
      .ok ⟨8 + encLenPayload p, 8, t, 0, 0⟩ := by
    unfold readHeadersM
    rw [if_neg (show ¬ ((encodeLeaf t 0 0 p).length - 0 < 8) from by omega)]
    simp only [hrdS, ebind_ok, Nat.reduceAdd, Nat.zero_add]
    simp only [hrdT, ebind_ok]
    rw [if_neg (show ¬ (8 + encLenPayload p = 1) from by omega)]
    simp only [hfb, Bool.false_eq_true, if_false]
  unfold DecodeTop
  simp only [decodeM]
  simp only [hheaders, ebind_ok]
  rw [if_neg (show ¬ ((encodeLeaf t 0 0 p).length - 0 <
    8 + encLenPayload p) from by omega)]
  simp only [hcont, hcodec, reduceIte, Nat.zero_add, Nat.reduceAdd]
  simp only [hdec, ebind_ok]
  rfl

end ISOBMFF

namespace ISOBMFF

/-- Well-formedness of a payload value: Go-representable field ranges
(byte-array lengths, unsigned/signed field bounds), plus the cases the
encoder normalises away (stsz per-sample form, mdhd v0 time confinement,
NUL-free hdlr name). -/
def wfPayload : LeafPayload → Prop
  | .ftyp f => f.Brand.length = 4 ∧ f.BrandVersion < 4294967296 ∧
      (∀ br ∈ f.CompatibleBrands, br.length = 4)
  | .mvhd m => m.CTime.length = 4 ∧ m.MTime.length = 4 ∧
      m.TimeScale < 4294967296 ∧ m.Duration < 4294967296 ∧
      m.PreferredRate.length = 4 ∧ m.PreferredVolume.length = 2 ∧
      m.Matrix.length = 36 ∧ m.PreviewTime < 4294967296 ∧
      m.PreviewDuration < 4294967296 ∧ m.PosterTime < 4294967296 ∧
      m.SelectionTime < 4294967296 ∧ m.SelectionDuration < 4294967296 ∧
      m.CurrentTime < 4294967296 ∧ m.NextTrackId < 4294967296
  | .tkhd t => t.CTime.length = 4 ∧ t.MTime.length = 4 ∧
      t.TrackId < 4294967296 ∧ t.Duration < 4294967296 ∧ t.Layer < 65536 ∧
      t.AlternateGroup < 65536 ∧ t.Volume < 65536 ∧ t.Matrix.length = 36 ∧
      t.TrackWidth < 4294967296 ∧ t.TrackHeight < 4294967296
  | .mdhd m => m.CTime.length = 8 ∧ m.MTime.length = 8 ∧
      m.TimeScale < 4294967296 ∧ m.Language < 65536 ∧ m.Quality < 65536 ∧
      (m.V1 = true → m.Duration < 281474976710656) ∧
      (m.V1 = false → m.Duration < 4294967296 ∧
        m.CTime.drop 4 = [0, 0, 0, 0] ∧ m.MTime.drop 4 = [0, 0, 0, 0])
  | .vmhd v => v.GraphicsMode < 65536 ∧ v.Opcolor.length = 3 ∧
      (∀ x ∈ v.Opcolor, x < 65536)
  | .smhd s => s.Balance < 65536
  | .stsz s => s.SampleSize = 0 ∧ s.Entries.length < 4294967296 ∧
      (∀ x ∈ s.Entries, x < 4294967296)
  | .stco s => s.Entries.length < 4294967296 ∧
      (∀ x ∈ s.Entries, x < 4294967296)
  | .co64 s => s.Entries.length < 4294967296 ∧
      (∀ x ∈ s.Entries, x < 18446744073709551616)
  | .stts s => s.Entries.length < 4294967296 ∧
      (∀ e ∈ s.Entries, e.Count < 4294967296 ∧ e.Duration < 4294967296)
  | .ctts s => s.Entries.length < 4294967296 ∧
      (∀ e ∈ s.Entries, e.Count < 4294967296 ∧
        -2147483648 ≤ e.CompositionOffset ∧ e.CompositionOffset < 2147483648)
  | .stsc s => s.Entries.length < 4294967296 ∧
      (∀ e ∈ s.Entries, e.FirstChunk < 4294967296 ∧
        e.SamplesPerChunk < 4294967296 ∧ e.SampleDescriptionId < 4294967296)
  | .dref d => d.Entries.length < 4294967296 ∧
      (∀ e ∈ d.Entries, e.Typ.length = 4 ∧ 8 + e.Buf.length < 4294967296)
  | .elst s => s.Entries.length < 4294967296 ∧
      (∀ e ∈ s.Entries, e.TrackDuration < 4294967296 ∧
        -2147483648 ≤ e.MediaTime ∧ e.MediaTime < 2147483648 ∧
        e.MediaRate.length = 4)
  | .hdlr h => h.HandlerType.length = 4 ∧ (∀ c ∈ h.Name, c % 256 ≠ 0)
  | .mehd m => m.FragmentDuration < 4294967296
  | .trex t => t.TrackId < 4294967296 ∧
      t.DefaultSampleDescriptionIndex < 4294967296 ∧
      t.DefaultSampleDuration < 4294967296 ∧
      t.DefaultSampleSize < 4294967296 ∧ t.DefaultSampleFlags < 4294967296
  | .mfhd m => m.SequenceNumber < 4294967296
  | .tfhd t => t.TrackId < 4294967296
  | .tfdt t => t.BaseMediaDecodeTime < 4294967296
  | .trun t => t.Entries.length < 4294967296 ∧
      -2147483648 ≤ t.DataOffset ∧ t.DataOffset < 2147483648 ∧
      (∀ e ∈ t.Entries, e.SampleDuration < 4294967296 ∧
        e.SampleSize < 4294967296 ∧ e.SampleFlags < 4294967296 ∧
        -2147483648 ≤ e.SampleCompositionTimeOffset ∧
        e.SampleCompositionTimeOffset < 2147483648)

theorem decMvhd_enc (buf : List Nat) (start : Nat) (m : MvhdM)
    (hb : buf.drop start = encMvhd m)
    (hwf : wfPayload (.mvhd m)) :
    decMvhd buf start = .ok m := by
  obtain ⟨h0, h1, h2, h3, h4, h5, h6, h7, h8, h9, h10, h11, h12, h13⟩ := hwf
  have e0 : (buf.drop start).drop 0 = m.CTime ++ (m.MTime ++ (u32Bytes m.TimeScale ++ (u32Bytes m.Duration ++ (m.PreferredRate ++ (m.PreferredVolume ++ (List.replicate 10 0 ++ (m.Matrix ++ (u32Bytes m.PreviewTime ++ (u32Bytes m.PreviewDuration ++ (u32Bytes m.PosterTime ++ (u32Bytes m.SelectionTime ++ (u32Bytes m.SelectionDuration ++ (u32Bytes m.CurrentTime ++ (u32Bytes m.NextTrackId ++ [])))))))))))))) := by
    rw [List.drop_zero, hb, encMvhd]
    simp [List.append_assoc]
  have e4 := dropAt (buf.drop start) 0 4 _ _ e0 h0
  have e8 := dropAt (buf.drop start) 4 4 _ _ e4 h1
  have e12 := dropAt (buf.drop start) 8 4 _ _ e8 rfl
  have e16 := dropAt (buf.drop start) 12 4 _ _ e12 rfl
  have e20 := dropAt (buf.drop start) 16 4 _ _ e16 h4
  have e22 := dropAt (buf.drop start) 20 2 _ _ e20 h5
  have e32 := dropAt (buf.drop start) 22 10 _ _ e22 rfl
  have e68 := dropAt (buf.drop start) 32 36 _ _ e32 h6
  have e72 := dropAt (buf.drop start) 68 4 _ _ e68 rfl
  have e76 := dropAt (buf.drop start) 72 4 _ _ e72 rfl
  have e80 := dropAt (buf.drop start) 76 4 _ _ e76 rfl
  have e84 := dropAt (buf.drop start) 80 4 _ _ e80 rfl
  have e88 := dropAt (buf.drop start) 84 4 _ _ e84 rfl
  have e92 := dropAt (buf.drop start) 88 4 _ _ e88 rfl
  have r0 := rdBytes_eq (buf.drop start) 0 4 _ _ e0 (by omega) (by omega) (by have hq := drop_len_eq (buf.drop start) 0 _ _ e0; omega)
  have r4 := rdBytes_eq (buf.drop start) 4 8 _ _ e4 (by omega) (by omega) (by have hq := drop_len_eq (buf.drop start) 4 _ _ e4; omega)
  have r8 := rdU32_eq (buf.drop start) 8 _ _ e8 h2
  have r12 := rdU32_eq (buf.drop start) 12 _ _ e12 h3
  have r16 := rdBytes_eq (buf.drop start) 16 20 _ _ e16 (by omega) (by omega) (by have hq := drop_len_eq (buf.drop start) 16 _ _ e16; omega)
  have r20 := rdBytes_eq (buf.drop start) 20 22 _ _ e20 (by omega) (by omega) (by have hq := drop_len_eq (buf.drop start) 20 _ _ e20; omega)
  have r32 := rdBytes_eq (buf.drop start) 32 68 _ _ e32 (by omega) (by omega) (by have hq := drop_len_eq (buf.drop start) 32 _ _ e32; omega)
  have r68 := rdU32_eq (buf.drop start) 68 _ _ e68 h7
  have r72 := rdU32_eq (buf.drop start) 72 _ _ e72 h8
  have r76 := rdU32_eq (buf.drop start) 76 _ _ e76 h9
  have r80 := rdU32_eq (buf.drop start) 80 _ _ e80 h10
  have r84 := rdU32_eq (buf.drop start) 84 _ _ e84 h11
  have r88 := rdU32_eq (buf.drop start) 88 _ _ e88 h12
  have r92 := rdU32_eq (buf.drop start) 92 _ _ e92 h13
  simp only [decMvhd, r0, r4, r8, r12, r16, r20, r32, r68, r72, r76, r80, r84, r88, r92, ebind_ok]

theorem decTrex_enc (buf : List Nat) (start : Nat) (m : TrexM)
    (hb : buf.drop start = encTrex m)
    (hwf : wfPayload (.trex m)) :
    decTrex buf start = .ok m := by
  obtain ⟨h0, h1, h2, h3, h4⟩ := hwf
  have e0 : (buf.drop start).drop 0 = u32Bytes m.TrackId ++ (u32Bytes m.DefaultSampleDescriptionIndex ++ (u32Bytes m.DefaultSampleDuration ++ (u32Bytes m.DefaultSampleSize ++ (u32Bytes m.DefaultSampleFlags ++ [])))) := by
    rw [List.drop_zero, hb, encTrex]
    simp [List.append_assoc]
  have e4 := dropAt (buf.drop start) 0 4 _ _ e0 rfl
  have e8 := dropAt (buf.drop start) 4 4 _ _ e4 rfl
  have e12 := dropAt (buf.drop start) 8 4 _ _ e8 rfl
  have e16 := dropAt (buf.drop start) 12 4 _ _ e12 rfl
  have r0 := rdU32_eq (buf.drop start) 0 _ _ e0 h0
  have r4 := rdU32_eq (buf.drop start) 4 _ _ e4 h1
  have r8 := rdU32_eq (buf.drop start) 8 _ _ e8 h2
  have r12 := rdU32_eq (buf.drop start) 12 _ _ e12 h3
  have r16 := rdU32_eq (buf.drop start) 16 _ _ e16 h4
  simp only [decTrex, r0, r4, r8, r12, r16, ebind_ok]

theorem decTkhd_enc (buf : List Nat) (start : Nat) (m : TkhdM)
    (hb : buf.drop start = encTkhd m)
    (hwf : wfPayload (.tkhd m)) :
    decTkhd buf start = .ok m := by
  obtain ⟨h0, h1, h2, h3, h4, h5, h6, h7, h8, h9⟩ := hwf
  have e0 : (buf.drop start).drop 0 = m.CTime ++ (m.MTime ++ (u32Bytes m.TrackId ++ (List.replicate 4 0 ++ (u32Bytes m.Duration ++ (List.replicate 8 0 ++ (u16Bytes m.Layer ++ (u16Bytes m.AlternateGroup ++ (u16Bytes m.Volume ++ (List.replicate 2 0 ++ (m.Matrix ++ (u32Bytes m.TrackWidth ++ (u32Bytes m.TrackHeight ++ [])))))))))))) := by
    rw [List.drop_zero, hb, encTkhd]
    simp [List.append_assoc]
  have e4 := dropAt (buf.drop start) 0 4 _ _ e0 h0
  have e8 := dropAt (buf.drop start) 4 4 _ _ e4 h1
  have e12 := dropAt (buf.drop start) 8 4 _ _ e8 rfl
  have e16 := dropAt (buf.drop start) 12 4 _ _ e12 rfl
  have e20 := dropAt (buf.drop start) 16 4 _ _ e16 rfl
  have e28 := dropAt (buf.drop start) 20 8 _ _ e20 rfl
  have e30 := dropAt (buf.drop start) 28 2 _ _ e28 rfl
  have e32 := dropAt (buf.drop start) 30 2 _ _ e30 rfl
  have e34 := dropAt (buf.drop start) 32 2 _ _ e32 rfl
  have e36 := dropAt (buf.drop start) 34 2 _ _ e34 rfl
  have e72 := dropAt (buf.drop start) 36 36 _ _ e36 h7
  have e76 := dropAt (buf.drop start) 72 4 _ _ e72 rfl
  have r0 := rdBytes_eq (buf.drop start) 0 4 _ _ e0 (by omega) (by omega) (by have hq := drop_len_eq (buf.drop start) 0 _ _ e0; omega)
  have r4 := rdBytes_eq (buf.drop start) 4 8 _ _ e4 (by omega) (by omega) (by have hq := drop_len_eq (buf.drop start) 4 _ _ e4; omega)
  have r8 := rdU32_eq (buf.drop start) 8 _ _ e8 h2
  have r16 := rdU32_eq (buf.drop start) 16 _ _ e16 h3
  have r28 := rdU16_eq (buf.drop start) 28 _ _ e28 h4
  have r30 := rdU16_eq (buf.drop start) 30 _ _ e30 h5
  have r32 := rdU16_eq (buf.drop start) 32 _ _ e32 h6
  have r36 := rdBytes_eq (buf.drop start) 36 72 _ _ e36 (by omega) (by omega) (by have hq := drop_len_eq (buf.drop start) 36 _ _ e36; omega)
  have r72 := rdU32_eq (buf.drop start) 72 _ _ e72 h8
  have r76 := rdU32_eq (buf.drop start) 76 _ _ e76 h9
  simp only [decTkhd, r0, r4, r8, r16, r28, r30, r32, r36, r72, r76, ebind_ok]


end ISOBMFF

namespace ISOBMFF

theorem decMehd_enc (buf : List Nat) (start : Nat) (m : MehdM)
    (hb : buf.drop start = encMehd m) (hwf : wfPayload (.mehd m)) :
    decMehd buf start = .ok m := by
  have e0 : (buf.drop start).drop 0 = u32Bytes m.FragmentDuration ++ [] := by
    rw [List.drop_zero, hb, encMehd]
    simp
  have r0 := rdU32_eq (buf.drop start) 0 _ _ e0 hwf
  simp only [decMehd, r0, ebind_ok]

theorem decMfhd_enc (buf : List Nat) (start : Nat) (m : MfhdM)
    (hb : buf.drop start = encMfhd m) (hwf : wfPayload (.mfhd m)) :
    decMfhd buf start = .ok m := by
  have e0 : (buf.drop start).drop 0 = u32Bytes m.SequenceNumber ++ [] := by
    rw [List.drop_zero, hb, encMfhd]
    simp
  have r0 := rdU32_eq (buf.drop start) 0 _ _ e0 hwf
  simp only [decMfhd, r0, ebind_ok]

theorem decTfhd_enc (buf : List Nat) (start : Nat) (m : TfhdM)
    (hb : buf.drop start = encTfhd m) (hwf : wfPayload (.tfhd m)) :
    decTfhd buf start = .ok m := by
  have e0 : (buf.drop start).drop 0 = u32Bytes m.TrackId ++ [] := by
    rw [List.drop_zero, hb, encTfhd]
    simp
  have r0 := rdU32_eq (buf.drop start) 0 _ _ e0 hwf
  simp only [decTfhd, r0, ebind_ok]

theorem decTfdt_enc (buf : List Nat) (start : Nat) (m : TfdtM)
    (hb : buf.drop start = encTfdt m) (hwf : wfPayload (.tfdt m)) :
    decTfdt buf start = .ok m := by
  have e0 : (buf.drop start).drop 0 = u32Bytes m.BaseMediaDecodeTime ++ [] := by
    rw [List.drop_zero, hb, encTfdt]
    simp
  have r0 := rdU32_eq (buf.drop start) 0 _ _ e0 hwf
  simp only [decTfdt, r0, ebind_ok]

theorem decSmhd_enc (buf : List Nat) (start : Nat) (m : SmhdM)
    (hb : buf.drop start = encSmhd m) (hwf : wfPayload (.smhd m)) :
    decSmhd buf start = .ok m := by
  have e0 : (buf.drop start).drop 0 = u16Bytes m.Balance ++ [0, 0] := by
    rw [List.drop_zero, hb, encSmhd]
  have r0 := rdU16_eq (buf.drop start) 0 _ _ e0 hwf
  simp only [decSmhd, r0, ebind_ok]

theorem decVmhd_enc (buf : List Nat) (start : Nat) (m : VmhdM)
    (hb : buf.drop start = encVmhd m) (hwf : wfPayload (.vmhd m)) :
    decVmhd buf start = .ok m := by
  obtain ⟨h0, h1, h2⟩ := hwf
  obtain ⟨a, b, c, hop⟩ := List.length_eq_three.mp h1
  have ha : a < 65536 := h2 a (by rw [hop]; simp)
  have hbb : b < 65536 := h2 b (by rw [hop]; simp)
  have hc : c < 65536 := h2 c (by rw [hop]; simp)
  have e0 : (buf.drop start).drop 0 = u16Bytes m.GraphicsMode ++
      (u16Bytes a ++ (u16Bytes b ++ (u16Bytes c ++ []))) := by
    rw [List.drop_zero, hb, encVmhd, hop]
    simp [u16Bytes]
  have e2 := dropAt (buf.drop start) 0 2 _ _ e0 rfl
  have e4 := dropAt (buf.drop start) 2 2 _ _ e2 rfl
  have e6 := dropAt (buf.drop start) 4 2 _ _ e4 rfl
  have r0 := rdU16_eq (buf.drop start) 0 _ _ e0 h0
  have r2 := rdU16_eq (buf.drop start) 2 _ _ e2 ha
  have r4 := rdU16_eq (buf.drop start) 4 _ _ e4 hbb
  have r6 := rdU16_eq (buf.drop start) 6 _ _ e6 hc
  simp only [decVmhd, r0, r2, r4, r6, ebind_ok]
  rw [← hop]

end ISOBMFF

namespace ISOBMFF

theorem decStco_enc (buf : List Nat) (start : Nat) (m : StcoM)
    (hb : buf.drop start = encStco m) (hwf : wfPayload (.stco m)) :
    decStco buf start = .ok m := by
  obtain ⟨hn, hent⟩ := hwf
  have hb2 : buf.drop start =
      u32Bytes m.Entries.length ++ m.Entries.flatMap u32Bytes := by
    rw [hb, encStco]
  have e0 : (buf.drop start).drop 0 =
      u32Bytes m.Entries.length ++ m.Entries.flatMap u32Bytes := by
    rw [List.drop_zero, hb2]
  have r0 := rdU32_eq (buf.drop start) 0 _ _ e0 hn
  have hf : ∀ i, i < m.Entries.length →
      rdU32 (buf.drop start) (4 + i * 4) = .ok (m.Entries.getD i 0) := by
    intro i hi
    have hd2 : (buf.drop start).drop (4 + i * 4) =
        u32Bytes (m.Entries.get ⟨i, hi⟩) ++
          (m.Entries.drop (i + 1)).flatMap u32Bytes := by
      rw [hb2]
      exact drop_flatMap_fixed u32Bytes 4 m.Entries
        (u32Bytes m.Entries.length) i hi (fun e _ => rfl)
    have hbound : m.Entries.get ⟨i, hi⟩ < 4294967296 :=
      hent _ (m.Entries.get_mem i hi)
    rw [List.getD_eq_getElem _ _ hi]
    exact rdU32_eq (buf.drop start) (4 + i * 4) _ _ hd2 hbound
  have hdec := decN_ok _ (fun i => m.Entries.getD i 0) m.Entries.length hf
  rw [range_map_getD] at hdec
  simp only [decStco, r0, hdec, ebind_ok]

end ISOBMFF

namespace ISOBMFF

theorem decStsz_enc (buf : List Nat) (start : Nat) (m : StszM)
    (hb : buf.drop start = encStsz m) (hwf : wfPayload (.stsz m)) :
    decStsz buf start = .ok m := by
  obtain ⟨ss, entries⟩ := m
  obtain ⟨hss, hn, hent⟩ := hwf
  have hss2 : ss = 0 := hss
  subst hss2
  have hb2 : buf.drop start =
      (u32Bytes 0 ++ u32Bytes entries.length) ++ entries.flatMap u32Bytes := by
    rw [hb]
    rfl
  have e0 : (buf.drop start).drop 0 =
      u32Bytes 0 ++ (u32Bytes entries.length ++ entries.flatMap u32Bytes) := by
    rw [List.drop_zero, hb2, List.append_assoc]
  have r0 := rdU32_eq (buf.drop start) 0 _ _ e0 (by omega)
  have e4 := dropAt (buf.drop start) 0 4 _ _ e0 rfl
  have r4 := rdU32_eq (buf.drop start) 4 _ _ e4 hn
  have hf : ∀ i, i < entries.length →
      rdU32 (buf.drop start) (8 + i * 4) = .ok (entries.getD i 0) := by
    intro i hi
    have hd2 : (buf.drop start).drop (8 + i * 4) =
        u32Bytes (entries.get ⟨i, hi⟩) ++
          (entries.drop (i + 1)).flatMap u32Bytes := by
      rw [hb2]
      exact drop_flatMap_fixed u32Bytes 4 entries
        (u32Bytes 0 ++ u32Bytes entries.length) i hi (fun e _ => rfl)
    rw [List.getD_eq_getElem _ _ hi]
    exact rdU32_eq (buf.drop start) (8 + i * 4) _ _ hd2
      (hent _ (entries.get_mem i hi))
  have hdec := decN_ok _ (fun i => entries.getD i 0) entries.length hf
  rw [range_map_getD] at hdec
  simp only [decStsz, r0, r4, reduceIte, hdec, ebind_ok]

theorem decCo64_enc (buf : List Nat) (start : Nat) (m : Co64M)
    (hb : buf.drop start = encCo64 m) (hwf : wfPayload (.co64 m)) :
    decCo64 buf start = .ok m := by
  obtain ⟨hn, hent⟩ := hwf
  have hb2 : buf.drop start =
      u32Bytes m.Entries.length ++ m.Entries.flatMap u64Bytes := by
    rw [hb, encCo64]
  have e0 : (buf.drop start).drop 0 =
      u32Bytes m.Entries.length ++ m.Entries.flatMap u64Bytes := by
    rw [List.drop_zero, hb2]
  have r0 := rdU32_eq (buf.drop start) 0 _ _ e0 hn
  have hf : ∀ i, i < m.Entries.length →
      rdU64 (buf.drop start) (4 + i * 8) = .ok (m.Entries.getD i 0) := by
    intro i hi
    have hd2 : (buf.drop start).drop (4 + i * 8) =
        u64Bytes (m.Entries.get ⟨i, hi⟩) ++
          (m.Entries.drop (i + 1)).flatMap u64Bytes := by
      rw [hb2]
      exact drop_flatMap_fixed u64Bytes 8 m.Entries
        (u32Bytes m.Entries.length) i hi (fun e _ => rfl)
    rw [List.getD_eq_getElem _ _ hi]
    exact rdU64_eq (buf.drop start) (4 + i * 8) _ _ hd2
      (hent _ (m.Entries.get_mem i hi))
  have hdec := decN_ok _ (fun i => m.Entries.getD i 0) m.Entries.length hf
  rw [range_map_getD] at hdec
  simp only [decCo64, r0, hdec, ebind_ok]

theorem decStts_enc (buf : List Nat) (start : Nat) (m : SttsM)
    (hb : buf.drop start = encStts m) (hwf : wfPayload (.stts m)) :
    decStts buf start = .ok m := by
  obtain ⟨hn, hent⟩ := hwf
  have hb2 : buf.drop start = u32Bytes m.Entries.length ++
      m.Entries.flatMap (fun e => u32Bytes e.Count ++ u32Bytes e.Duration) := by
    rw [hb, encStts]
  have e0 : (buf.drop start).drop 0 = u32Bytes m.Entries.length ++
      m.Entries.flatMap (fun e => u32Bytes e.Count ++ u32Bytes e.Duration) := by
    rw [List.drop_zero, hb2]
  have r0 := rdU32_eq (buf.drop start) 0 _ _ e0 hn
  have hdec := decN_ok (fun i => do
      let c ← rdU32 (buf.drop start) (4 + i * 8)
      let d ← rdU32 (buf.drop start) (4 + i * 8 + 4)
      .ok (⟨c, d⟩ : STTSEntryM))
    (fun i => m.Entries.getD i ⟨0, 0⟩) m.Entries.length ?hf
  case hf =>
    intro i hi
    have hmem := m.Entries.get_mem i hi
    have hd2 : (buf.drop start).drop (4 + i * 8) =
        (u32Bytes (m.Entries.get ⟨i, hi⟩).Count ++
          u32Bytes (m.Entries.get ⟨i, hi⟩).Duration) ++
          (m.Entries.drop (i + 1)).flatMap
            (fun e => u32Bytes e.Count ++ u32Bytes e.Duration) := by
      rw [hb2]
      exact drop_flatMap_fixed _ 8 m.Entries
        (u32Bytes m.Entries.length) i hi (fun e _ => rfl)
    rw [List.append_assoc] at hd2
    have r1 := rdU32_eq (buf.drop start) (4 + i * 8) _ _ hd2
      (hent _ hmem).1
    have hd3 := dropAt (buf.drop start) (4 + i * 8) 4 _ _ hd2 rfl
    have r2 := rdU32_eq (buf.drop start) (4 + i * 8 + 4) _ _ hd3
      (hent _ hmem).2
    simp only [r1, r2, ebind_ok]
    rw [List.getD_eq_getElem _ _ hi]
    rfl
  rw [range_map_getD] at hdec
  simp only [decStts, r0, hdec, ebind_ok]

theorem decCtts_enc (buf : List Nat) (start : Nat) (m : CttsM)
    (hb : buf.drop start = encCtts m) (hwf : wfPayload (.ctts m)) :
    decCtts buf start = .ok m := by
  obtain ⟨hn, hent⟩ := hwf
  have hb2 : buf.drop start = u32Bytes m.Entries.length ++
      m.Entries.flatMap
        (fun e => u32Bytes e.Count ++ u32Bytes (intToU32 e.CompositionOffset)) := by
    rw [hb, encCtts]
  have e0 : (buf.drop start).drop 0 = u32Bytes m.Entries.length ++
      m.Entries.flatMap
        (fun e => u32Bytes e.Count ++ u32Bytes (intToU32 e.CompositionOffset)) := by
    rw [List.drop_zero, hb2]
  have r0 := rdU32_eq (buf.drop start) 0 _ _ e0 hn
  have hdec := decN_ok (fun i => do
      let c ← rdU32 (buf.drop start) (4 + i * 8)
      let o ← rdU32 (buf.drop start) (4 + i * 8 + 4)
      .ok (⟨c, toSigned32 o⟩ : CTTSEntryM))
    (fun i => m.Entries.getD i ⟨0, 0⟩) m.Entries.length ?hf
  case hf =>
    intro i hi
    have hmem := m.Entries.get_mem i hi
    have hd2 : (buf.drop start).drop (4 + i * 8) =
        (u32Bytes (m.Entries.get ⟨i, hi⟩).Count ++
          u32Bytes (intToU32 (m.Entries.get ⟨i, hi⟩).CompositionOffset)) ++
          (m.Entries.drop (i + 1)).flatMap
            (fun e => u32Bytes e.Count ++
              u32Bytes (intToU32 e.CompositionOffset)) := by
      rw [hb2]
      exact drop_flatMap_fixed _ 8 m.Entries
        (u32Bytes m.Entries.length) i hi (fun e _ => rfl)
    rw [List.append_assoc] at hd2
    have r1 := rdU32_eq (buf.drop start) (4 + i * 8) _ _ hd2
      (hent _ hmem).1
    have hd3 := dropAt (buf.drop start) (4 + i * 8) 4 _ _ hd2 rfl
    have r2 := rdU32_eq (buf.drop start) (4 + i * 8 + 4) _ _ hd3
      (intToU32_lt _)
    simp only [r1, r2, ebind_ok]
    rw [toSigned32_intToU32 _ (hent _ hmem).2.1 (hent _ hmem).2.2,
      List.getD_eq_getElem _ _ hi]
    rfl
  rw [range_map_getD] at hdec
  simp only [decCtts, r0, hdec, ebind_ok]

theorem decStsc_enc (buf : List Nat) (start : Nat) (m : StscM)
    (hb : buf.drop start = encStsc m) (hwf : wfPayload (.stsc m)) :
    decStsc buf start = .ok m := by
  obtain ⟨hn, hent⟩ := hwf
  have hb2 : buf.drop start = u32Bytes m.Entries.length ++
      m.Entries.flatMap (fun e => u32Bytes e.FirstChunk ++
        u32Bytes e.SamplesPerChunk ++ u32Bytes e.SampleDescriptionId) := by
    rw [hb, encStsc]
  have e0 : (buf.drop start).drop 0 = u32Bytes m.Entries.length ++
      m.Entries.flatMap (fun e => u32Bytes e.FirstChunk ++
        u32Bytes e.SamplesPerChunk ++ u32Bytes e.SampleDescriptionId) := by
    rw [List.drop_zero, hb2]
  have r0 := rdU32_eq (buf.drop start) 0 _ _ e0 hn
  have hdec := decN_ok (fun i => do
      let fc ← rdU32 (buf.drop start) (4 + i * 12)
      let spc ← rdU32 (buf.drop start) (4 + i * 12 + 4)
      let sdi ← rdU32 (buf.drop start) (4 + i * 12 + 8)
      .ok (⟨fc, spc, sdi⟩ : STSCEntryM))
    (fun i => m.Entries.getD i ⟨0, 0, 0⟩) m.Entries.length ?hf
  case hf =>
    intro i hi
    have hmem := m.Entries.get_mem i hi
    have hd2 : (buf.drop start).drop (4 + i * 12) =
        (u32Bytes (m.Entries.get ⟨i, hi⟩).FirstChunk ++
          u32Bytes (m.Entries.get ⟨i, hi⟩).SamplesPerChunk ++
          u32Bytes (m.Entries.get ⟨i, hi⟩).SampleDescriptionId) ++
          (m.Entries.drop (i + 1)).flatMap
            (fun e => u32Bytes e.FirstChunk ++ u32Bytes e.SamplesPerChunk ++
              u32Bytes e.SampleDescriptionId) := by
      rw [hb2]
      exact drop_flatMap_fixed _ 12 m.Entries
        (u32Bytes m.Entries.length) i hi (fun e _ => rfl)
    simp only [List.append_assoc] at hd2
    have r1 := rdU32_eq (buf.drop start) (4 + i * 12) _ _ hd2
      (hent _ hmem).1
    have hd3 := dropAt (buf.drop start) (4 + i * 12) 4 _ _ hd2 rfl
    have r2 := rdU32_eq (buf.drop start) (4 + i * 12 + 4) _ _ hd3
      (hent _ hmem).2.1
    have hd4 := dropAt (buf.drop start) (4 + i * 12 + 4) 4 _ _ hd3 rfl
    have r3 := rdU32_eq (buf.drop start) (4 + i * 12 + 8) _ _ hd4
      (hent _ hmem).2.2
    simp only [r1, r2, r3, ebind_ok]
    rw [List.getD_eq_getElem _ _ hi]
    rfl
  rw [range_map_getD] at hdec
  simp only [decStsc, r0, hdec, ebind_ok]

theorem decElst_enc (buf : List Nat) (start : Nat) (m : ElstM)
    (hb : buf.drop start = encElst m) (hwf : wfPayload (.elst m)) :
    decElst buf start = .ok m := by
  obtain ⟨hn, hent⟩ := hwf
  have hb2 : buf.drop start = u32Bytes m.Entries.length ++
      m.Entries.flatMap (fun e => u32Bytes e.TrackDuration ++
        u32Bytes (intToU32 e.MediaTime) ++ e.MediaRate) := by
    rw [hb, encElst]
  have e0 : (buf.drop start).drop 0 = u32Bytes m.Entries.length ++
      m.Entries.flatMap (fun e => u32Bytes e.TrackDuration ++
        u32Bytes (intToU32 e.MediaTime) ++ e.MediaRate) := by
    rw [List.drop_zero, hb2]
  have r0 := rdU32_eq (buf.drop start) 0 _ _ e0 hn
  have hdec := decN_ok (fun i => do
      let td ← rdU32 (buf.drop start) (4 + i * 12)
      let mt ← rdU32 (buf.drop start) (4 + i * 12 + 4)
      let mr ← rdBytes (buf.drop start) (4 + i * 12 + 8) (4 + i * 12 + 12)
      .ok (⟨td, toSigned32 mt, mr⟩ : ElstEntryM))
    (fun i => m.Entries.getD i ⟨0, 0, []⟩) m.Entries.length ?hf
  case hf =>
    intro i hi
    have hmem := m.Entries.get_mem i hi
    have hd2 : (buf.drop start).drop (4 + i * 12) =
        (u32Bytes (m.Entries.get ⟨i, hi⟩).TrackDuration ++
          u32Bytes (intToU32 (m.Entries.get ⟨i, hi⟩).MediaTime) ++
          (m.Entries.get ⟨i, hi⟩).MediaRate) ++
          (m.Entries.drop (i + 1)).flatMap
            (fun e => u32Bytes e.TrackDuration ++
              u32Bytes (intToU32 e.MediaTime) ++ e.MediaRate) := by
      rw [hb2]
      refine drop_flatMap_fixed _ 12 m.Entries
        (u32Bytes m.Entries.length) i hi ?_
      intro e he
      simp only [List.length_append, u32Bytes, List.length_cons,
        List.length_nil, (hent e he).2.2.2]
    simp only [List.append_assoc] at hd2
    have r1 := rdU32_eq (buf.drop start) (4 + i * 12) _ _ hd2
      (hent _ hmem).1
    have hd3 := dropAt (buf.drop start) (4 + i * 12) 4 _ _ hd2 rfl
    have r2 := rdU32_eq (buf.drop start) (4 + i * 12 + 4) _ _ hd3
      (intToU32_lt _)
    have hd4 := dropAt (buf.drop start) (4 + i * 12 + 4) 4 _ _ hd3 rfl
    have r3 := rdBytes_eq (buf.drop start) (4 + i * 12 + 8) (4 + i * 12 + 12)
      _ _ hd4 (by have := (hent _ hmem).2.2.2; omega) (by omega)
      (by have hq := drop_len_eq (buf.drop start) (4 + i * 12 + 8) _ _ hd4
          have := (hent _ hmem).2.2.2
          omega)
    simp only [r1, r2, r3, ebind_ok]
    rw [toSigned32_intToU32 _ (hent _ hmem).2.1 (hent _ hmem).2.2.1,
      List.getD_eq_getElem _ _ hi]
    rfl
  rw [range_map_getD] at hdec
  simp only [decElst, r0, hdec, ebind_ok]

theorem decTrun_enc (buf : List Nat) (start : Nat) (m : TrunM)
    (hb : buf.drop start = encTrun m) (hwf : wfPayload (.trun m)) :
    decTrun buf start = .ok m := by
  obtain ⟨hn, hd1, hd2i, hent⟩ := hwf
  have hb2 : buf.drop start =
      (u32Bytes m.Entries.length ++ u32Bytes (intToU32 m.DataOffset)) ++
      m.Entries.flatMap (fun e => u32Bytes e.SampleDuration ++
        u32Bytes e.SampleSize ++ u32Bytes e.SampleFlags ++
        u32Bytes (intToU32 e.SampleCompositionTimeOffset)) := by
    rw [hb, encTrun]
  have e0 : (buf.drop start).drop 0 =
      u32Bytes m.Entries.length ++ (u32Bytes (intToU32 m.DataOffset) ++
      m.Entries.flatMap (fun e => u32Bytes e.SampleDuration ++
        u32Bytes e.SampleSize ++ u32Bytes e.SampleFlags ++
        u32Bytes (intToU32 e.SampleCompositionTimeOffset))) := by
    rw [List.drop_zero, hb2, List.append_assoc]
  have r0 := rdU32_eq (buf.drop start) 0 _ _ e0 hn
  have e4 := dropAt (buf.drop start) 0 4 _ _ e0 rfl
  have r4 := rdU32_eq (buf.drop start) 4 _ _ e4 (intToU32_lt _)
  have hdec := decN_ok (fun i => do
      let sd ← rdU32 (buf.drop start) (8 + i * 16)
      let ss ← rdU32 (buf.drop start) (8 + i * 16 + 4)
      let sf ← rdU32 (buf.drop start) (8 + i * 16 + 8)
      let so ← rdU32 (buf.drop start) (8 + i * 16 + 12)
      .ok (⟨sd, ss, sf, toSigned32 so⟩ : TrunEntryM))
    (fun i => m.Entries.getD i ⟨0, 0, 0, 0⟩) m.Entries.length ?hf
  case hf =>
    intro i hi
    have hmem := m.Entries.get_mem i hi
    have hdd : (buf.drop start).drop (8 + i * 16) =
        (u32Bytes (m.Entries.get ⟨i, hi⟩).SampleDuration ++
          u32Bytes (m.Entries.get ⟨i, hi⟩).SampleSize ++
          u32Bytes (m.Entries.get ⟨i, hi⟩).SampleFlags ++
          u32Bytes (intToU32 (m.Entries.get ⟨i, hi⟩).SampleCompositionTimeOffset)) ++
          (m.Entries.drop (i + 1)).flatMap
            (fun e => u32Bytes e.SampleDuration ++ u32Bytes e.SampleSize ++
              u32Bytes e.SampleFlags ++
              u32Bytes (intToU32 e.SampleCompositionTimeOffset)) := by
      rw [hb2]
      exact drop_flatMap_fixed _ 16 m.Entries
        (u32Bytes m.Entries.length ++ u32Bytes (intToU32 m.DataOffset))
        i hi (fun e _ => rfl)
    simp only [List.append_assoc] at hdd
    have r1 := rdU32_eq (buf.drop start) (8 + i * 16) _ _ hdd
      (hent _ hmem).1
    have hq2 := dropAt (buf.drop start) (8 + i * 16) 4 _ _ hdd rfl
    have r2 := rdU32_eq (buf.drop start) (8 + i * 16 + 4) _ _ hq2
      (hent _ hmem).2.1
    have hq3 := dropAt (buf.drop start) (8 + i * 16 + 4) 4 _ _ hq2 rfl
    have r3 := rdU32_eq (buf.drop start) (8 + i * 16 + 8) _ _ hq3
      (hent _ hmem).2.2.1
    have hq4 := dropAt (buf.drop start) (8 + i * 16 + 8) 4 _ _ hq3 rfl
    have r4e := rdU32_eq (buf.drop start) (8 + i * 16 + 12) _ _ hq4
      (intToU32_lt _)
    simp only [r1, r2, r3, r4e, ebind_ok]
    rw [toSigned32_intToU32 _ (hent _ hmem).2.2.2.1 (hent _ hmem).2.2.2.2,
      List.getD_eq_getElem _ _ hi]
    rfl
  rw [range_map_getD] at hdec
  simp only [decTrun, r0, r4, hdec, ebind_ok]
  rw [toSigned32_intToU32 _ hd1 hd2i]

end ISOBMFF

namespace ISOBMFF

theorem decFtyp_enc (buf : List Nat) (start endp : Nat) (f : FtypM)
    (hb : (buf.drop start).take (endp - start) = encFtyp f)
    (hwf : wfPayload (.ftyp f)) :
    decFtyp buf start endp = .ok f := by
  obtain ⟨hbr, hbv, hcb⟩ := hwf
  have hflat : (f.CompatibleBrands.flatMap (fun x => x)).length =
      4 * f.CompatibleBrands.length :=
    length_flatMap_const _ 4 _ hcb
  have hBlen : ((buf.drop start).take (endp - start)).length =
      8 + 4 * f.CompatibleBrands.length := by
    rw [hb, encFtyp]
    simp only [List.length_append, hbr, u32Bytes, List.length_cons,
      List.length_nil, hflat]
  have e0 : ((buf.drop start).take (endp - start)).drop 0 =
      f.Brand ++ (u32Bytes f.BrandVersion ++
        f.CompatibleBrands.flatMap (fun x => x)) := by
    rw [List.drop_zero, hb, encFtyp, List.append_assoc]
  have r0 := rdBytes_eq _ 0 4 _ _ e0 (by rw [hbr]) (by omega) (by omega)
  have e4 := dropAt _ 0 4 _ _ e0 hbr
  have r4 := rdU32_eq _ 4 _ _ e4 hbv
  have hcount : ((((buf.drop start).take (endp - start)).length - 8) / 4) =
      f.CompatibleBrands.length := by rw [hBlen]; omega
  have hdec := decN_ok
    (fun i => rdBytes ((buf.drop start).take (endp - start))
      (8 + 4 * i) (8 + 4 * i + 4))
    (fun i => f.CompatibleBrands.getD i []) f.CompatibleBrands.length ?hf
  case hf =>
    intro i hi
    show rdBytes ((buf.drop start).take (endp - start)) (8 + 4 * i)
      (8 + 4 * i + 4) = Except.ok (f.CompatibleBrands.getD i [])
    have hmem := f.CompatibleBrands.get_mem i hi
    have h8 : (f.Brand ++ u32Bytes f.BrandVersion).length = 8 := by
      simp only [List.length_append, hbr, u32Bytes, List.length_cons,
        List.length_nil]
    have hd2 : ((buf.drop start).take (endp - start)).drop (8 + 4 * i) =
        f.CompatibleBrands.get ⟨i, hi⟩ ++
          (f.CompatibleBrands.drop (i + 1)).flatMap (fun x => x) := by
      rw [hb, encFtyp,
        show 8 + 4 * i = (f.Brand ++ u32Bytes f.BrandVersion).length + i * 4
          from by rw [h8]; omega]
      exact drop_flatMap_fixed _ 4 _ _ i hi hcb
    have hblen := hcb _ hmem
    have hr := rdBytes_eq _ (8 + 4 * i) (8 + 4 * i + 4) _ _ hd2
      (by rw [hblen]; omega) (by omega) (by rw [hBlen]; omega)
    rw [List.getD_eq_getElem _ _ hi]
    exact hr
  rw [range_map_getD] at hdec
  simp only [decFtyp]
  rw [if_neg (by rw [hBlen]; omega)]
  rw [hcount]
  simp only [r0, r4, hdec, ebind_ok]

theorem decMdhd_enc (buf : List Nat) (start endp : Nat) (m : MdhdM)
    (hb : (buf.drop start).take (endp - start) = encMdhd m)
    (hlen : endp - start = encLenPayload (.mdhd m))
    (hwf : wfPayload (.mdhd m)) :
    decMdhd buf start endp = .ok m := by
  obtain ⟨h0, h1, h2, h3, h4, h5, h6⟩ := hwf
  cases hv1 : m.V1 with
  | true =>
    have hd := h5 hv1
    have hlen2 : endp - start = 32 := by
      rw [hlen]; simp [encLenPayload, hv1]
    have e0 : ((buf.drop start).take (endp - start)).drop 0 =
        m.CTime ++ (m.MTime ++ (u32Bytes m.TimeScale ++ (u48Bytes m.Duration ++
          (List.replicate 2 0 ++ (u16Bytes m.Language ++
            (u16Bytes m.Quality ++ [])))))) := by
      rw [List.drop_zero, hb, encMdhd, if_pos hv1]
      simp [List.append_assoc]
    have r0 := rdBytes_eq _ 0 8 _ _ e0 (by rw [h0]) (by omega) (by omega)
    have e8 := dropAt _ 0 8 _ _ e0 h0
    have r8 := rdBytes_eq _ 8 16 _ _ e8 (by rw [h1]) (by omega)
      (by have hq := drop_len_eq _ 8 _ _ e8; omega)
    have e16 := dropAt _ 8 8 _ _ e8 h1
    have r16 := rdU32_eq _ 16 _ _ e16 h2
    have e20 := dropAt _ 16 4 _ _ e16 rfl
    have r20 := rd48_eq _ 20 _ _ e20 hd
    have e26 := dropAt _ 20 6 _ _ e20 rfl
    have e28 := dropAt _ 26 2 _ _ e26 rfl
    have r28 := rdU16_eq _ 28 _ _ e28 h3
    have e30 := dropAt _ 28 2 _ _ e28 rfl
    have r30 := rdU16_eq _ 30 _ _ e30 h4
    simp only [decMdhd]
    rw [if_pos (by omega)]
    simp only [r0, r8, r16, r20, r28, r30, ebind_ok]
    rw [← hv1]
  | false =>
    have hd := h6 hv1
    have hlen2 : endp - start = 20 := by
      rw [hlen]; simp [encLenPayload, hv1]
    have e0 : ((buf.drop start).take (endp - start)).drop 0 =
        m.CTime.take 4 ++ (m.MTime.take 4 ++ (u32Bytes m.TimeScale ++
          (u32Bytes m.Duration ++ (u16Bytes m.Language ++
            (u16Bytes m.Quality ++ []))))) := by
      rw [List.drop_zero, hb, encMdhd, if_neg (by rw [hv1]; exact Bool.false_ne_true)]
      simp [List.append_assoc]
    have hBlen : ((buf.drop start).take (endp - start)).length = 20 := by
      rw [hb, encMdhd, if_neg (by rw [hv1]; exact Bool.false_ne_true)]
      simp only [List.length_append, List.length_take, h0, h1, u32Bytes,
        u16Bytes, List.length_cons, List.length_nil]
      omega
    have r0 := rdBytes_eq _ 0 4 _ _ e0 (by simp [h0]) (by omega) (by omega)
    have e4 := dropAt _ 0 4 _ _ e0 (by simp [h0])
    have r4 := rdBytes_eq _ 4 8 _ _ e4 (by simp [h1]) (by omega)
      (by omega)
    have e8 := dropAt _ 4 4 _ _ e4 (by simp [h1])
    have r8 := rdU32_eq _ 8 _ _ e8 h2
    have e12 := dropAt _ 8 4 _ _ e8 rfl
    have r12 := rdU32_eq _ 12 _ _ e12 hd.1
    have e16 := dropAt _ 12 4 _ _ e12 rfl
    have r16 := rdU16_eq _ 16 _ _ e16 h3
    have e18 := dropAt _ 16 2 _ _ e16 rfl
    have r18 := rdU16_eq _ 18 _ _ e18 h4
    simp only [decMdhd]
    rw [if_neg (by omega)]
    simp only [r0, r4, r8, r12, r16, r18, ebind_ok]
    have hct : m.CTime.take 4 ++ List.replicate 4 0 = m.CTime := by
      rw [show (List.replicate 4 0 : List Nat) = [0, 0, 0, 0] from rfl,
        ← hd.2.1, List.take_append_drop]
    have hmt : m.MTime.take 4 ++ List.replicate 4 0 = m.MTime := by
      rw [show (List.replicate 4 0 : List Nat) = [0, 0, 0, 0] from rfl,
        ← hd.2.2, List.take_append_drop]
    rw [hct, hmt, ← hv1]

theorem decHdlr_enc (buf : List Nat) (start endp : Nat) (m : HdlrM)
    (hb : (buf.drop start).take (endp - start) = encHdlr m)
    (hlen : endp - start = 21 + m.Name.length)
    (hwf : wfPayload (.hdlr m)) :
    decHdlr buf start endp = .ok m := by
  obtain ⟨hht, hnz⟩ := hwf
  have e0 : ((buf.drop start).take (endp - start)).drop 0 =
      List.replicate 4 0 ++ (m.HandlerType ++
        (List.replicate 12 0 ++ (m.Name ++ [0]))) := by
    rw [List.drop_zero, hb, encHdlr]
    simp [List.append_assoc]
  have e4 := dropAt _ 0 4 _ _ e0 rfl
  have hq4 := drop_len_eq _ 4 _ _ e4
  have r4 := rdBytes_eq _ 4 8 _ _ e4 (by rw [hht]) (by omega)
    (by rw [hht] at hq4; omega)
  have e8 := dropAt _ 4 4 _ _ e4 hht
  have e20 := dropAt _ 8 12 _ _ e8 rfl
  have hBlen : ((buf.drop start).take (endp - start)).length =
      21 + m.Name.length := by
    rw [hb, encHdlr]
    simp only [List.length_append, List.length_replicate, hht,
      List.length_cons, List.length_nil]
    omega
  have hstr : readStringM ((buf.drop start).take (endp - start)) 20
      (endp - start) = .ok m.Name := by
    unfold readStringM
    rw [if_pos (by rw [hBlen]; omega)]
    rw [e20, hBlen, hlen,
      show min (20 + (21 + m.Name.length)) (21 + m.Name.length) - 20 =
        m.Name.length + 1 from by omega,
      show m.Name.length + 1 = (m.Name ++ [0]).length from by simp,
      List.take_length, takeWhile_nul m.Name hnz]
  simp only [decHdlr, r4, hstr, ebind_ok]

theorem decDrefEntries_enc (b : List Nat) (l : List DrefEntryM) :
    ∀ ptr : Nat,
      b.drop ptr = l.flatMap
        (fun e => u32Bytes (8 + e.Buf.length) ++ e.Typ ++ e.Buf) →
      (∀ e ∈ l, e.Typ.length = 4 ∧ 8 + e.Buf.length < 4294967296) →
      decDrefEntries b l.length ptr = .ok l := by
  induction l with
  | nil => intro ptr _ _; rfl
  | cons e tl ih =>
    intro ptr hd hwfl
    have hwfe := hwfl e (List.mem_cons_self _ _)
    have ht4 := hwfe.1
    have hd1 : b.drop ptr = u32Bytes (8 + e.Buf.length) ++
        (e.Typ ++ (e.Buf ++ tl.flatMap
          (fun x => u32Bytes (8 + x.Buf.length) ++ x.Typ ++ x.Buf))) := by
      rw [hd, List.flatMap_cons]
      simp [List.append_assoc]
    have r1 := rdU32_eq b ptr _ _ hd1 hwfe.2
    have hd2 := dropAt b ptr 4 _ _ hd1 rfl
    have hq2 := drop_len_eq b (ptr + 4) _ _ hd2
    have r2 := rdBytes_eq b (ptr + 4) (ptr + 8) _ _ hd2
      (by rw [ht4]; omega) (by omega) (by rw [ht4] at hq2; omega)
    have hd3x := dropAt b (ptr + 4) 4 _ _ hd2 ht4
    have r3 := rdBytes_eq b (ptr + 8) (ptr + (8 + e.Buf.length)) _ _ hd3x
      (by omega) (by omega) (by rw [ht4] at hq2; omega)
    have hd4 : b.drop (ptr + (8 + e.Buf.length)) = tl.flatMap
        (fun x => u32Bytes (8 + x.Buf.length) ++ x.Typ ++ x.Buf) := by
      have hstep := dropAt b (ptr + 8) e.Buf.length _ _ hd3x rfl
      rwa [show ptr + 8 + e.Buf.length = ptr + (8 + e.Buf.length)
        from by omega] at hstep
    have hrest := ih (ptr + (8 + e.Buf.length)) hd4
      (fun x hx => hwfl x (List.mem_cons_of_mem _ hx))
    show decDrefEntries b (tl.length + 1) ptr = .ok (e :: tl)
    simp only [decDrefEntries, r1, r2, r3, hrest, ebind_ok]

theorem decDref_enc (buf : List Nat) (start : Nat) (m : DrefM)
    (hb : buf.drop start = encDref m) (hwf : wfPayload (.dref m)) :
    decDref buf start = .ok m := by
  obtain ⟨hn, hent⟩ := hwf
  have e0 : (buf.drop start).drop 0 = u32Bytes m.Entries.length ++
      m.Entries.flatMap
        (fun e => u32Bytes (8 + e.Buf.length) ++ e.Typ ++ e.Buf) := by
    rw [List.drop_zero, hb, encDref]
  have r0 := rdU32_eq _ 0 _ _ e0 hn
  have e4 := dropAt _ 0 4 _ _ e0 rfl
  have hents := decDrefEntries_enc _ m.Entries 4 e4 hent
  simp only [decDref, r0, hents, ebind_ok]

end ISOBMFF

namespace ISOBMFF

theorem u32Bytes_length (v : Nat) : (u32Bytes v).length = 4 := rfl

theorem u16Bytes_length (v : Nat) : (u16Bytes v).length = 2 := rfl

theorem u48Bytes_length (v : Nat) : (u48Bytes v).length = 6 := rfl

theorem u64Bytes_length (v : Nat) : (u64Bytes v).length = 8 := rfl

theorem dref_flat_len (l : List DrefEntryM)
    (h : ∀ e ∈ l, e.Typ.length = 4) :
    (l.flatMap (fun e => u32Bytes (8 + e.Buf.length) ++ e.Typ ++ e.Buf)).length
      = (l.map (fun e => 8 + e.Buf.length)).sum := by
  induction l with
  | nil => rfl
  | cons e tl ih =>
    simp only [List.flatMap_cons, List.map_cons, List.sum_cons,
      List.length_append, h e (List.mem_cons_self _ _), u32Bytes_length,
      ih (fun x hx => h x (List.mem_cons_of_mem _ hx))]

theorem encPayload_len (p : LeafPayload) (hwf : wfPayload p) :
    (encodePayload p).length = encLenPayload p := by
  cases p with
  | ftyp f =>
    obtain ⟨hbr, _, hcb⟩ := hwf
    simp only [encodePayload, encLenPayload, encFtyp, List.length_append,
      hbr, u32Bytes, List.length_cons, List.length_nil,
      length_flatMap_const (fun x => x) 4 f.CompatibleBrands hcb] <;> omega
  | mvhd m =>
    obtain ⟨h0, h1, _, _, h4, h5, h6, _⟩ := hwf
    simp only [encodePayload, encLenPayload, encMvhd, List.length_append,
      List.length_replicate, h0, h1, h4, h5, h6, u32Bytes, List.length_cons,
      List.length_nil] <;> omega
  | tkhd t =>
    obtain ⟨h0, h1, _, _, _, _, _, h7, _⟩ := hwf
    simp only [encodePayload, encLenPayload, encTkhd, List.length_append,
      List.length_replicate, h0, h1, h7, u32Bytes, u16Bytes,
      List.length_cons, List.length_nil] <;> omega
  | mdhd m =>
    obtain ⟨h0, h1, _, _, _, _, _⟩ := hwf
    cases hv1 : m.V1 with
    | true =>
      simp only [encodePayload, encLenPayload, encMdhd, hv1, reduceIte,
        List.length_append, List.length_replicate, h0, h1, u32Bytes_length,
        u48Bytes_length, u16Bytes_length] <;> omega
    | false =>
      simp only [encodePayload, encLenPayload, encMdhd, hv1,
        Bool.false_eq_true, if_false, List.length_append, List.length_take,
        h0, h1, u32Bytes_length, u16Bytes_length] <;> omega
  | vmhd v =>
    simp only [encodePayload, encLenPayload, encVmhd, List.length_append,
      u16Bytes, List.length_cons, List.length_nil] <;> omega
  | smhd s =>
    simp only [encodePayload, encLenPayload, encSmhd, List.length_append,
      u16Bytes, List.length_cons, List.length_nil] <;> omega
  | stsz s =>
    simp only [encodePayload, encLenPayload, encStsz, List.length_append,
      u32Bytes, List.length_cons, List.length_nil,
      length_flatMap_const u32Bytes 4 s.Entries (fun e _ => rfl)] <;> omega
  | stco s =>
    simp only [encodePayload, encLenPayload, encStco, List.length_append,
      u32Bytes, List.length_cons, List.length_nil,
      length_flatMap_const u32Bytes 4 s.Entries (fun e _ => rfl)] <;> omega
  | co64 s =>
    simp only [encodePayload, encLenPayload, encCo64, List.length_append,
      u32Bytes, List.length_cons, List.length_nil,
      length_flatMap_const u64Bytes 8 s.Entries (fun e _ => rfl)] <;> omega
  | stts s =>
    simp only [encodePayload, encLenPayload, encStts, List.length_append,
      u32Bytes_length,
      length_flatMap_const
        (fun e => u32Bytes e.Count ++ u32Bytes e.Duration) 8 s.Entries
        (fun e _ => rfl)] <;> omega
  | ctts s =>
    simp only [encodePayload, encLenPayload, encCtts, List.length_append,
      u32Bytes_length,
      length_flatMap_const
        (fun e => u32Bytes e.Count ++ u32Bytes (intToU32 e.CompositionOffset))
        8 s.Entries (fun e _ => rfl)] <;> omega
  | stsc s =>
    simp only [encodePayload, encLenPayload, encStsc, List.length_append,
      u32Bytes_length,
      length_flatMap_const
        (fun e => u32Bytes e.FirstChunk ++ u32Bytes e.SamplesPerChunk ++
          u32Bytes e.SampleDescriptionId) 12 s.Entries
        (fun e _ => rfl)] <;> omega
  | dref d =>
    obtain ⟨_, hent⟩ := hwf
    simp only [encodePayload, encLenPayload, encDref, List.length_append,
      u32Bytes_length,
      dref_flat_len d.Entries (fun e he => (hent e he).1)] <;> omega
  | elst s =>
    obtain ⟨_, hent⟩ := hwf
    simp only [encodePayload, encLenPayload, encElst, List.length_append,
      u32Bytes_length,
      length_flatMap_const
        (fun e => u32Bytes e.TrackDuration ++ u32Bytes (intToU32 e.MediaTime)
          ++ e.MediaRate) 12 s.Entries
        (fun e he => by
          simp only [List.length_append, u32Bytes_length,
            (hent e he).2.2.2] <;> omega)] <;> omega
  | hdlr h =>
    obtain ⟨hht, _⟩ := hwf
    simp only [encodePayload, encLenPayload, encHdlr, List.length_append,
      List.length_replicate, hht, List.length_cons, List.length_nil] <;> omega
  | mehd m =>
    simp only [encodePayload, encLenPayload, encMehd, u32Bytes,
      List.length_cons, List.length_nil] <;> omega
  | trex t =>
    simp only [encodePayload, encLenPayload, encTrex, List.length_append,
      u32Bytes, List.length_cons, List.length_nil] <;> omega
  | mfhd m =>
    simp only [encodePayload, encLenPayload, encMfhd, u32Bytes,
      List.length_cons, List.length_nil] <;> omega
  | tfhd t =>
    simp only [encodePayload, encLenPayload, encTfhd, u32Bytes,
      List.length_cons, List.length_nil] <;> omega
  | tfdt t =>
    simp only [encodePayload, encLenPayload, encTfdt, u32Bytes,
      List.length_cons, List.length_nil] <;> omega
  | trun t =>
    simp only [encodePayload, encLenPayload, encTrun, List.length_append,
      u32Bytes_length,
      length_flatMap_const
        (fun e => u32Bytes e.SampleDuration ++ u32Bytes e.SampleSize ++
          u32Bytes e.SampleFlags ++
          u32Bytes (intToU32 e.SampleCompositionTimeOffset)) 16 t.Entries
        (fun e _ => rfl)] <;> omega

theorem encodeLeaf_drop_full (t : List Nat) (version flags : Nat)
    (p : LeafPayload) (ht : t.length = 4) (hfb : isFullBox t = true)
    (hsz : 12 + encLenPayload p ≤ 4294967295) :
    (encodeLeaf t version flags p).drop 12 = encodePayload p := by
  have hA : ¬ (8 + (if isFullBox t then 4 else 0) + encLenPayload p >
      4294967295) := by
    simp only [hfb, reduceIte]
    omega
  have hbuf : encodeLeaf t version flags p =
      u32Bytes (12 + encLenPayload p) ++ (t ++
        (u32Bytes (version * 16777216 + flags % 16777216) ++
          encodePayload p)) := by
    simp only [encodeLeaf]
    rw [if_neg hA, if_neg hA]
    simp only [hfb, reduceIte]
    simp [List.append_assoc]
  have hd0 : (encodeLeaf t version flags p).drop 0 =
      u32Bytes (12 + encLenPayload p) ++ (t ++
        (u32Bytes (version * 16777216 + flags % 16777216) ++
          encodePayload p)) := by
    rw [List.drop_zero, hbuf]
  have hd4 := dropAt _ 0 4 _ _ hd0 rfl
  have hd8 := dropAt _ 4 4 _ _ hd4 ht
  exact dropAt _ 8 4 _ _ hd8 rfl

theorem encodeLeaf_drop_plain (t : List Nat) (p : LeafPayload)
    (ht : t.length = 4) (hfb : isFullBox t = false)
    (hsz : 8 + encLenPayload p ≤ 4294967295) :
    (encodeLeaf t 0 0 p).drop 8 = encodePayload p := by
  have hA : ¬ (8 + (if isFullBox t then 4 else 0) + encLenPayload p >
      4294967295) := by
    simp only [hfb, Bool.false_eq_true, if_false]
    omega
  have hbuf : encodeLeaf t 0 0 p =
      u32Bytes (8 + encLenPayload p) ++ (t ++ encodePayload p) := by
    simp only [encodeLeaf]
    rw [if_neg hA, if_neg hA]
    simp only [hfb, Bool.false_eq_true, if_false]
    simp [List.append_assoc]
  have hd0 : (encodeLeaf t 0 0 p).drop 0 =
      u32Bytes (8 + encLenPayload p) ++ (t ++ encodePayload p) := by
    rw [List.drop_zero, hbuf]
  have hd4 := dropAt _ 0 4 _ _ hd0 rfl
  exact dropAt _ 4 4 _ _ hd4 ht

theorem decodeLeaf_frame_full_ext (t : List Nat) (version flags : Nat)
    (p q : LeafPayload)
    (ht : t.length = 4) (hfb : isFullBox t = true)
    (hcodec : hasCodecT t = true) (hcont : isContainerT t = false)
    (hlen : (encodePayload p).length = encLenPayload p)
    (hbig : 12 + encLenPayload p > 4294967295)
    (h64 : 20 + encLenPayload p < 18446744073709551616)
    (hv : version < 256) (hf : flags < 16777216)
    (hdec : decodePayload t (encodeLeaf t version flags p) 20
        (20 + encLenPayload p) = .ok q) :
    DecodeTop (encodeLeaf t version flags p) = .ok (.leaf t version flags q) := by
  have hA : (8 + (if isFullBox t then 4 else 0) + encLenPayload p >
      4294967295) := by
    simp only [hfb, reduceIte]
    omega
  have hbuf : encodeLeaf t version flags p =
      u32Bytes 1 ++ (t ++ (u64Bytes (20 + encLenPayload p) ++
        (u32Bytes (version * 16777216 + flags % 16777216) ++
          encodePayload p))) := by
    have hA8 : 8 + (if isFullBox t then 4 else 0) + encLenPayload p + 8 >
        4294967295 := by omega
    simp only [encodeLeaf]
    rw [if_pos hA, if_pos hA8]
    simp only [hfb, reduceIte]
    rw [show 8 + 4 + encLenPayload p + 8 = 20 + encLenPayload p from by omega]
    simp [List.append_assoc]
  have hblen : (encodeLeaf t version flags p).length =
      20 + encLenPayload p := by
    rw [hbuf]
    simp only [List.length_append, u32Bytes, u64Bytes, List.length_cons,
      List.length_nil, ht, hlen]
    omega
  have hd0 : (encodeLeaf t version flags p).drop 0 =
      u32Bytes 1 ++ (t ++ (u64Bytes (20 + encLenPayload p) ++
        (u32Bytes (version * 16777216 + flags % 16777216) ++
          encodePayload p))) := by
    rw [List.drop_zero, hbuf]
  have hrdS : rdU32 (encodeLeaf t version flags p) 0 = .ok 1 :=
    rdU32_eq _ 0 _ _ hd0 (by omega)
  have hd4 : (encodeLeaf t version flags p).drop 4 =
      t ++ (u64Bytes (20 + encLenPayload p) ++
        (u32Bytes (version * 16777216 + flags % 16777216) ++
          encodePayload p)) := dropAt _ 0 4 _ _ hd0 rfl
  have hrdT : rdBytes (encodeLeaf t version flags p) 4 8 = .ok t :=
    rdBytes_eq _ 4 8 t _ hd4 (by omega) (by omega) (by omega)
  have hd8 : (encodeLeaf t version flags p).drop 8 =
      u64Bytes (20 + encLenPayload p) ++
        (u32Bytes (version * 16777216 + flags % 16777216) ++
          encodePayload p) := dropAt _ 4 4 t _ hd4 ht
  have hrdE : rdU64 (encodeLeaf t version flags p) 8 =
      .ok (20 + encLenPayload p) := rdU64_eq _ 8 _ _ hd8 h64
  have hd16 : (encodeLeaf t version flags p).drop 16 =
      u32Bytes (version * 16777216 + flags % 16777216) ++ encodePayload p :=
    dropAt _ 8 8 _ _ hd8 rfl
  have hrdVF : rdU32 (encodeLeaf t version flags p) 16 =
      .ok (version * 16777216 + flags % 16777216) :=
    rdU32_eq _ 16 _ _ hd16 (by omega)
  have hheaders : readHeadersM (encodeLeaf t version flags p) 0
      (encodeLeaf t version flags p).length =
      .ok ⟨20 + encLenPayload p, 20, t, version, flags⟩ := by
    unfold readHeadersM
    rw [if_neg (show ¬ ((encodeLeaf t version flags p).length - 0 < 8) from
      by omega)]
    simp only [hrdS, ebind_ok, Nat.reduceAdd, Nat.zero_add]
    simp only [hrdT, ebind_ok]
    simp only [reduceIte]
    rw [if_neg (show ¬ ((encodeLeaf t version flags p).length - 0 < 16) from
      by omega)]
    simp only [hrdE, ebind_ok]
    simp only [hfb, reduceIte]
    rw [if_neg (show ¬ ((encodeLeaf t version flags p).length - 16 < 4) from
      by omega)]
    simp only [hrdVF, ebind_ok]
    simp only [Except.ok.injEq, HeadersM.mk.injEq]
    refine ⟨trivial, trivial, trivial, by omega, by omega⟩
  unfold DecodeTop
  simp only [decodeM]
  simp only [hheaders, ebind_ok]
  rw [if_neg (show ¬ ((encodeLeaf t version flags p).length - 0 <
    20 + encLenPayload p) from by omega)]
  simp only [hcont, hcodec, reduceIte, Nat.zero_add, Nat.reduceAdd]
  simp only [hdec, ebind_ok]
  rfl

theorem decodeLeaf_frame_plain_ext (t : List Nat) (p q : LeafPayload)
    (ht : t.length = 4) (hfb : isFullBox t = false)
    (hcodec : hasCodecT t = true) (hcont : isContainerT t = false)
    (hlen : (encodePayload p).length = encLenPayload p)
    (hbig : 8 + encLenPayload p > 4294967295)
    (h64 : 16 + encLenPayload p < 18446744073709551616)
    (hdec : decodePayload t (encodeLeaf t 0 0 p) 16
        (16 + encLenPayload p) = .ok q) :
    DecodeTop (encodeLeaf t 0 0 p) = .ok (.leaf t 0 0 q) := by
  have hA : (8 + (if isFullBox t then 4 else 0) + encLenPayload p >
      4294967295) := by
    simp only [hfb, Bool.false_eq_true, if_false]
    omega
  have hbuf : encodeLeaf t 0 0 p =
      u32Bytes 1 ++ (t ++ (u64Bytes (16 + encLenPayload p) ++
        encodePayload p)) := by
    have hA8 : 8 + (if isFullBox t then 4 else 0) + encLenPayload p + 8 >
        4294967295 := by omega
    simp only [encodeLeaf]
    rw [if_pos hA, if_pos hA8]
    simp only [hfb, Bool.false_eq_true, if_false]
    rw [show 8 + 0 + encLenPayload p + 8 = 16 + encLenPayload p from by omega]
    simp [List.append_assoc]
  have hblen : (encodeLeaf t 0 0 p).length = 16 + encLenPayload p := by
    rw [hbuf]
    simp only [List.length_append, u32Bytes, u64Bytes, List.length_cons,
      List.length_nil, ht, hlen]
    omega
  have hd0 : (encodeLeaf t 0 0 p).drop 0 =
      u32Bytes 1 ++ (t ++ (u64Bytes (16 + encLenPayload p) ++
        encodePayload p)) := by
    rw [List.drop_zero, hbuf]
  have hrdS : rdU32 (encodeLeaf t 0 0 p) 0 = .ok 1 :=
    rdU32_eq _ 0 _ _ hd0 (by omega)
  have hd4 : (encodeLeaf t 0 0 p).drop 4 =
      t ++ (u64Bytes (16 + encLenPayload p) ++ encodePayload p) :=
    dropAt _ 0 4 _ _ hd0 rfl
  have hrdT : rdBytes (encodeLeaf t 0 0 p) 4 8 = .ok t :=
    rdBytes_eq _ 4 8 t _ hd4 (by omega) (by omega) (by omega)
  have hd8 : (encodeLeaf t 0 0 p).drop 8 =
      u64Bytes (16 + encLenPayload p) ++ encodePayload p :=
    dropAt _ 4 4 t _ hd4 ht
  have hrdE : rdU64 (encodeLeaf t 0 0 p) 8 =
      .ok (16 + encLenPayload p) := rdU64_eq _ 8 _ _ hd8 h64
  have hheaders : readHeadersM (encodeLeaf t 0 0 p) 0
      (encodeLeaf t 0 0 p).length =
      .ok ⟨16 + encLenPayload p, 16, t, 0, 0⟩ := by
    unfold readHeadersM
    rw [if_neg (show ¬ ((encodeLeaf t 0 0 p).length - 0 < 8) from by omega)]
    simp only [hrdS, ebind_ok, Nat.reduceAdd, Nat.zero_add]
    simp only [hrdT, ebind_ok]
    simp only [reduceIte]
    rw [if_neg (show ¬ ((encodeLeaf t 0 0 p).length - 0 < 16) from by omega)]
    simp only [hrdE, ebind_ok]
    simp only [hfb, Bool.false_eq_true, if_false]
  unfold DecodeTop
  simp only [decodeM]
  simp only [hheaders, ebind_ok]
  rw [if_neg (show ¬ ((encodeLeaf t 0 0 p).length - 0 <
    16 + encLenPayload p) from by omega)]
  simp only [hcont, hcodec, reduceIte, Nat.zero_add, Nat.reduceAdd]
  simp only [hdec, ebind_ok]
  rfl

theorem encodeLeaf_drop_full_ext (t : List Nat) (version flags : Nat)
    (p : LeafPayload) (ht : t.length = 4) (hfb : isFullBox t = true)
    (hbig : 12 + encLenPayload p > 4294967295) :
    (encodeLeaf t version flags p).drop 20 = encodePayload p := by
  have hA : (8 + (if isFullBox t then 4 else 0) + encLenPayload p >
      4294967295) := by
    simp only [hfb, reduceIte]
    omega
  have hbuf : encodeLeaf t version flags p =
      u32Bytes 1 ++ (t ++ (u64Bytes (20 + encLenPayload p) ++
        (u32Bytes (version * 16777216 + flags % 16777216) ++
          encodePayload p))) := by
    have hA8 : 8 + (if isFullBox t then 4 else 0) + encLenPayload p + 8 >
        4294967295 := by omega
    simp only [encodeLeaf]
    rw [if_pos hA, if_pos hA8]
    simp only [hfb, reduceIte]
    rw [show 8 + 4 + encLenPayload p + 8 = 20 + encLenPayload p from by omega]
    simp [List.append_assoc]
  have hd0 : (encodeLeaf t version flags p).drop 0 =
      u32Bytes 1 ++ (t ++ (u64Bytes (20 + encLenPayload p) ++
        (u32Bytes (version * 16777216 + flags % 16777216) ++
          encodePayload p))) := by
    rw [List.drop_zero, hbuf]
  have hd4 := dropAt _ 0 4 _ _ hd0 rfl
  have hd8 := dropAt _ 4 4 _ _ hd4 ht
  have hd16 := dropAt _ 8 8 _ _ hd8 rfl
  exact dropAt _ 16 4 _ _ hd16 rfl

theorem encodeLeaf_drop_plain_ext (t : List Nat) (p : LeafPayload)
    (ht : t.length = 4) (hfb : isFullBox t = false)
    (hbig : 8 + encLenPayload p > 4294967295) :
    (encodeLeaf t 0 0 p).drop 16 = encodePayload p := by
  have hA : (8 + (if isFullBox t then 4 else 0) + encLenPayload p >
      4294967295) := by
    simp only [hfb, Bool.false_eq_true, if_false]
    omega
  have hbuf : encodeLeaf t 0 0 p =
      u32Bytes 1 ++ (t ++ (u64Bytes (16 + encLenPayload p) ++
        encodePayload p)) := by
    have hA8 : 8 + (if isFullBox t then 4 else 0) + encLenPayload p + 8 >
        4294967295 := by omega
    simp only [encodeLeaf]
    rw [if_pos hA, if_pos hA8]
    simp only [hfb, Bool.false_eq_true, if_false]
    rw [show 8 + 0 + encLenPayload p + 8 = 16 + encLenPayload p from by omega]
    simp [List.append_assoc]
  have hd0 : (encodeLeaf t 0 0 p).drop 0 =
      u32Bytes 1 ++ (t ++ (u64Bytes (16 + encLenPayload p) ++
        encodePayload p)) := by
    rw [List.drop_zero, hbuf]
  have hd4 := dropAt _ 0 4 _ _ hd0 rfl
  have hd8 := dropAt _ 4 4 _ _ hd4 ht
  exact dropAt _ 8 8 _ _ hd8 rfl


/-- C8 (amended): for every well-formed payload value of one of the 21
encodable types -- Go-representable field ranges, encoded size
representable in the 64-bit extended size field, stsz in per-sample
form, v0 mdhd times confined to 32 bits, hdlr name NUL-free -- decoding
the bytes produced by Encode yields the same box back, through either
the plain 32-bit size header or the extended-size header (ftyp is not a
full box, so its version and flags are not encoded and must be 0). -/
theorem claim_C8_roundtrip (p : LeafPayload) (version flags : Nat)
    (hwf : wfPayload p) (hv : version < 256) (hf : flags < 16777216)
    (hvf : isFullBox (typeOf p) = false → version = 0 ∧ flags = 0)
    (hsz64 : 20 + encLenPayload p < 18446744073709551616) :
    DecodeTop (encodeLeaf (typeOf p) version flags p) =
      .ok (.leaf (typeOf p) version flags p) := by
  have hlen : (encodePayload p).length = encLenPayload p :=
    encPayload_len p hwf
  cases p with
  | ftyp x =>
    obtain ⟨hv0, hf0⟩ := hvf rfl
    subst hv0
    subst hf0
    by_cases hbig : 8 + encLenPayload (.ftyp x) ≤ 4294967295
    · refine decodeLeaf_frame_plain tFtyp (.ftyp x) (.ftyp x) rfl rfl rfl rfl
        hlen hbig ?_
      have hdrop := encodeLeaf_drop_plain tFtyp (.ftyp x) rfl rfl hbig
      have hb : ((encodeLeaf tFtyp 0 0 (.ftyp x)).drop 8).take
          ((8 + encLenPayload (.ftyp x)) - 8) = encFtyp x := by
        rw [hdrop, show (8 + encLenPayload (.ftyp x)) - 8 =
          encLenPayload (.ftyp x) from by omega, ← hlen]
        exact List.take_length _
      show (decFtyp (encodeLeaf tFtyp 0 0 (.ftyp x)) 8
        (8 + encLenPayload (.ftyp x))).map LeafPayload.ftyp = .ok (.ftyp x)
      rw [decFtyp_enc _ 8 (8 + encLenPayload (.ftyp x)) x hb hwf]
      rfl
    · have hbig2 : 8 + encLenPayload (.ftyp x) > 4294967295 := by omega
      refine decodeLeaf_frame_plain_ext tFtyp (.ftyp x) (.ftyp x) rfl rfl rfl
        rfl hlen hbig2 (by omega) ?_
      have hdrop := encodeLeaf_drop_plain_ext tFtyp (.ftyp x) rfl rfl hbig2
      have hb : ((encodeLeaf tFtyp 0 0 (.ftyp x)).drop 16).take
          ((16 + encLenPayload (.ftyp x)) - 16) = encFtyp x := by
        rw [hdrop, show (16 + encLenPayload (.ftyp x)) - 16 =
          encLenPayload (.ftyp x) from by omega, ← hlen]
        exact List.take_length _
      show (decFtyp (encodeLeaf tFtyp 0 0 (.ftyp x)) 16
        (16 + encLenPayload (.ftyp x))).map LeafPayload.ftyp = .ok (.ftyp x)
      rw [decFtyp_enc _ 16 (16 + encLenPayload (.ftyp x)) x hb hwf]
      rfl
  | mdhd x =>
    have hsz : 12 + encLenPayload (.mdhd x) ≤ 4294967295 := by
      simp only [encLenPayload]
      split <;> omega
    refine decodeLeaf_frame_full tMdhd version flags (.mdhd x) (.mdhd x)
      rfl rfl rfl rfl hlen hsz hv hf ?_
    have hdrop := encodeLeaf_drop_full tMdhd version flags (.mdhd x)
      rfl rfl hsz
    have hb : ((encodeLeaf tMdhd version flags (.mdhd x)).drop 12).take
        ((12 + encLenPayload (.mdhd x)) - 12) = encMdhd x := by
      rw [hdrop, show (12 + encLenPayload (.mdhd x)) - 12 =
        encLenPayload (.mdhd x) from by omega, ← hlen]
      exact List.take_length _
    show (decMdhd (encodeLeaf tMdhd version flags (.mdhd x)) 12
      (12 + encLenPayload (.mdhd x))).map LeafPayload.mdhd = .ok (.mdhd x)
    rw [decMdhd_enc _ 12 (12 + encLenPayload (.mdhd x)) x hb (by omega) hwf]
    rfl
  | hdlr x =>
    by_cases hbig : 12 + encLenPayload (.hdlr x) ≤ 4294967295
    · refine decodeLeaf_frame_full tHdlr version flags (.hdlr x) (.hdlr x)
        rfl rfl rfl rfl hlen hbig hv hf ?_
      have hdrop := encodeLeaf_drop_full tHdlr version flags (.hdlr x)
        rfl rfl hbig
      have hb : ((encodeLeaf tHdlr version flags (.hdlr x)).drop 12).take
          ((12 + encLenPayload (.hdlr x)) - 12) = encHdlr x := by
        rw [hdrop, show (12 + encLenPayload (.hdlr x)) - 12 =
          encLenPayload (.hdlr x) from by omega, ← hlen]
        exact List.take_length _
      show (decHdlr (encodeLeaf tHdlr version flags (.hdlr x)) 12
        (12 + encLenPayload (.hdlr x))).map LeafPayload.hdlr = .ok (.hdlr x)
      rw [decHdlr_enc _ 12 (12 + encLenPayload (.hdlr x)) x hb
        (by simp only [encLenPayload]; omega) hwf]
      rfl
    · have hbig2 : 12 + encLenPayload (.hdlr x) > 4294967295 := by omega
      refine decodeLeaf_frame_full_ext tHdlr version flags (.hdlr x) (.hdlr x)
        rfl rfl rfl rfl hlen hbig2 hsz64 hv hf ?_
      have hdrop := encodeLeaf_drop_full_ext tHdlr version flags (.hdlr x)
        rfl rfl hbig2
      have hb : ((encodeLeaf tHdlr version flags (.hdlr x)).drop 20).take
          ((20 + encLenPayload (.hdlr x)) - 20) = encHdlr x := by
        rw [hdrop, show (20 + encLenPayload (.hdlr x)) - 20 =
          encLenPayload (.hdlr x) from by omega, ← hlen]
        exact List.take_length _
      show (decHdlr (encodeLeaf tHdlr version flags (.hdlr x)) 20
        (20 + encLenPayload (.hdlr x))).map LeafPayload.hdlr = .ok (.hdlr x)
      rw [decHdlr_enc _ 20 (20 + encLenPayload (.hdlr x)) x hb
        (by simp only [encLenPayload]; omega) hwf]
      rfl
  | mvhd x =>
    have hsz : 12 + encLenPayload (.mvhd x) ≤ 4294967295 := by
      simp only [encLenPayload]
      omega
    refine decodeLeaf_frame_full tMvhd version flags (.mvhd x) (.mvhd x)
      rfl rfl rfl rfl hlen hsz hv hf ?_
    have hdrop := encodeLeaf_drop_full tMvhd version flags (.mvhd x) rfl rfl hsz
    show (decMvhd (encodeLeaf tMvhd version flags (.mvhd x)) 12).map
      LeafPayload.mvhd = .ok (.mvhd x)
    rw [decMvhd_enc _ 12 x hdrop hwf]
    rfl
  | tkhd x =>
    have hsz : 12 + encLenPayload (.tkhd x) ≤ 4294967295 := by
      simp only [encLenPayload]
      omega
    refine decodeLeaf_frame_full tTkhd version flags (.tkhd x) (.tkhd x)
      rfl rfl rfl rfl hlen hsz hv hf ?_
    have hdrop := encodeLeaf_drop_full tTkhd version flags (.tkhd x) rfl rfl hsz
    show (decTkhd (encodeLeaf tTkhd version flags (.tkhd x)) 12).map
      LeafPayload.tkhd = .ok (.tkhd x)
    rw [decTkhd_enc _ 12 x hdrop hwf]
    rfl
  | vmhd x =>
    have hsz : 12 + encLenPayload (.vmhd x) ≤ 4294967295 := by
      simp only [encLenPayload]
      omega
    refine decodeLeaf_frame_full tVmhd version flags (.vmhd x) (.vmhd x)
      rfl rfl rfl rfl hlen hsz hv hf ?_
    have hdrop := encodeLeaf_drop_full tVmhd version flags (.vmhd x) rfl rfl hsz
    show (decVmhd (encodeLeaf tVmhd version flags (.vmhd x)) 12).map
      LeafPayload.vmhd = .ok (.vmhd x)
    rw [decVmhd_enc _ 12 x hdrop hwf]
    rfl
  | smhd x =>
    have hsz : 12 + encLenPayload (.smhd x) ≤ 4294967295 := by
      simp only [encLenPayload]
      omega
    refine decodeLeaf_frame_full tSmhd version flags (.smhd x) (.smhd x)
      rfl rfl rfl rfl hlen hsz hv hf ?_
    have hdrop := encodeLeaf_drop_full tSmhd version flags (.smhd x) rfl rfl hsz
    show (decSmhd (encodeLeaf tSmhd version flags (.smhd x)) 12).map
      LeafPayload.smhd = .ok (.smhd x)
    rw [decSmhd_enc _ 12 x hdrop hwf]
    rfl
  | mehd x =>
    have hsz : 12 + encLenPayload (.mehd x) ≤ 4294967295 := by
      simp only [encLenPayload]
      omega
    refine decodeLeaf_frame_full tMehd version flags (.mehd x) (.mehd x)
      rfl rfl rfl rfl hlen hsz hv hf ?_
    have hdrop := encodeLeaf_drop_full tMehd version flags (.mehd x) rfl rfl hsz
    show (decMehd (encodeLeaf tMehd version flags (.mehd x)) 12).map
      LeafPayload.mehd = .ok (.mehd x)
    rw [decMehd_enc _ 12 x hdrop hwf]
    rfl
  | trex x =>
    have hsz : 12 + encLenPayload (.trex x) ≤ 4294967295 := by
      simp only [encLenPayload]
      omega
    refine decodeLeaf_frame_full tTrex version flags (.trex x) (.trex x)
      rfl rfl rfl rfl hlen hsz hv hf ?_
    have hdrop := encodeLeaf_drop_full tTrex version flags (.trex x) rfl rfl hsz
    show (decTrex (encodeLeaf tTrex version flags (.trex x)) 12).map
      LeafPayload.trex = .ok (.trex x)
    rw [decTrex_enc _ 12 x hdrop hwf]
    rfl
  | mfhd x =>
    have hsz : 12 + encLenPayload (.mfhd x) ≤ 4294967295 := by
      simp only [encLenPayload]
      omega
    refine decodeLeaf_frame_full tMfhd version flags (.mfhd x) (.mfhd x)
      rfl rfl rfl rfl hlen hsz hv hf ?_
    have hdrop := encodeLeaf_drop_full tMfhd version flags (.mfhd x) rfl rfl hsz
    show (decMfhd (encodeLeaf tMfhd version flags (.mfhd x)) 12).map
      LeafPayload.mfhd = .ok (.mfhd x)
    rw [decMfhd_enc _ 12 x hdrop hwf]
    rfl
  | tfhd x =>
    have hsz : 12 + encLenPayload (.tfhd x) ≤ 4294967295 := by
      simp only [encLenPayload]
      omega
    refine decodeLeaf_frame_full tTfhd version flags (.tfhd x) (.tfhd x)
      rfl rfl rfl rfl hlen hsz hv hf ?_
    have hdrop := encodeLeaf_drop_full tTfhd version flags (.tfhd x) rfl rfl hsz
    show (decTfhd (encodeLeaf tTfhd version flags (.tfhd x)) 12).map
      LeafPayload.tfhd = .ok (.tfhd x)
    rw [decTfhd_enc _ 12 x hdrop hwf]
    rfl
  | tfdt x =>
    have hsz : 12 + encLenPayload (.tfdt x) ≤ 4294967295 := by
      simp only [encLenPayload]
      omega
    refine decodeLeaf_frame_full tTfdt version flags (.tfdt x) (.tfdt x)
      rfl rfl rfl rfl hlen hsz hv hf ?_
    have hdrop := encodeLeaf_drop_full tTfdt version flags (.tfdt x) rfl rfl hsz
    show (decTfdt (encodeLeaf tTfdt version flags (.tfdt x)) 12).map
      LeafPayload.tfdt = .ok (.tfdt x)
    rw [decTfdt_enc _ 12 x hdrop hwf]
    rfl
  | stsz x =>
    by_cases hbig : 12 + encLenPayload (.stsz x) ≤ 4294967295
    · refine decodeLeaf_frame_full tStsz version flags (.stsz x) (.stsz x)
        rfl rfl rfl rfl hlen hbig hv hf ?_
      have hdrop := encodeLeaf_drop_full tStsz version flags (.stsz x)
        rfl rfl hbig
      show (decStsz (encodeLeaf tStsz version flags (.stsz x)) 12).map
        LeafPayload.stsz = .ok (.stsz x)
      rw [decStsz_enc _ 12 x hdrop hwf]
      rfl
    · have hbig2 : 12 + encLenPayload (.stsz x) > 4294967295 := by omega
      refine decodeLeaf_frame_full_ext tStsz version flags (.stsz x) (.stsz x)
        rfl rfl rfl rfl hlen hbig2 hsz64 hv hf ?_
      have hdrop := encodeLeaf_drop_full_ext tStsz version flags (.stsz x)
        rfl rfl hbig2
      show (decStsz (encodeLeaf tStsz version flags (.stsz x)) 20).map
        LeafPayload.stsz = .ok (.stsz x)
      rw [decStsz_enc _ 20 x hdrop hwf]
      rfl
  | stco x =>
    by_cases hbig : 12 + encLenPayload (.stco x) ≤ 4294967295
    · refine decodeLeaf_frame_full tStco version flags (.stco x) (.stco x)
        rfl rfl rfl rfl hlen hbig hv hf ?_
      have hdrop := encodeLeaf_drop_full tStco version flags (.stco x)
        rfl rfl hbig
      show (decStco (encodeLeaf tStco version flags (.stco x)) 12).map
        LeafPayload.stco = .ok (.stco x)
      rw [decStco_enc _ 12 x hdrop hwf]
      rfl
    · have hbig2 : 12 + encLenPayload (.stco x) > 4294967295 := by omega
      refine decodeLeaf_frame_full_ext tStco version flags (.stco x) (.stco x)
        rfl rfl rfl rfl hlen hbig2 hsz64 hv hf ?_
      have hdrop := encodeLeaf_drop_full_ext tStco version flags (.stco x)
        rfl rfl hbig2
      show (decStco (encodeLeaf tStco version flags (.stco x)) 20).map
        LeafPayload.stco = .ok (.stco x)
      rw [decStco_enc _ 20 x hdrop hwf]
      rfl
  | co64 x =>
    by_cases hbig : 12 + encLenPayload (.co64 x) ≤ 4294967295
    · refine decodeLeaf_frame_full tCo64 version flags (.co64 x) (.co64 x)
        rfl rfl rfl rfl hlen hbig hv hf ?_
      have hdrop := encodeLeaf_drop_full tCo64 version flags (.co64 x)
        rfl rfl hbig
      show (decCo64 (encodeLeaf tCo64 version flags (.co64 x)) 12).map
        LeafPayload.co64 = .ok (.co64 x)
      rw [decCo64_enc _ 12 x hdrop hwf]
      rfl
    · have hbig2 : 12 + encLenPayload (.co64 x) > 4294967295 := by omega
      refine decodeLeaf_frame_full_ext tCo64 version flags (.co64 x) (.co64 x)
        rfl rfl rfl rfl hlen hbig2 hsz64 hv hf ?_
      have hdrop := encodeLeaf_drop_full_ext tCo64 version flags (.co64 x)
        rfl rfl hbig2
      show (decCo64 (encodeLeaf tCo64 version flags (.co64 x)) 20).map
        LeafPayload.co64 = .ok (.co64 x)
      rw [decCo64_enc _ 20 x hdrop hwf]
      rfl
  | stts x =>
    by_cases hbig : 12 + encLenPayload (.stts x) ≤ 4294967295
    · refine decodeLeaf_frame_full tStts version flags (.stts x) (.stts x)
        rfl rfl rfl rfl hlen hbig hv hf ?_
      have hdrop := encodeLeaf_drop_full tStts version flags (.stts x)
        rfl rfl hbig
      show (decStts (encodeLeaf tStts version flags (.stts x)) 12).map
        LeafPayload.stts = .ok (.stts x)
      rw [decStts_enc _ 12 x hdrop hwf]
      rfl
    · have hbig2 : 12 + encLenPayload (.stts x) > 4294967295 := by omega
      refine decodeLeaf_frame_full_ext tStts version flags (.stts x) (.stts x)
        rfl rfl rfl rfl hlen hbig2 hsz64 hv hf ?_
      have hdrop := encodeLeaf_drop_full_ext tStts version flags (.stts x)
        rfl rfl hbig2
      show (decStts (encodeLeaf tStts version flags (.stts x)) 20).map
        LeafPayload.stts = .ok (.stts x)
      rw [decStts_enc _ 20 x hdrop hwf]
      rfl
  | ctts x =>
    by_cases hbig : 12 + encLenPayload (.ctts x) ≤ 4294967295
    · refine decodeLeaf_frame_full tCtts version flags (.ctts x) (.ctts x)
        rfl rfl rfl rfl hlen hbig hv hf ?_
      have hdrop := encodeLeaf_drop_full tCtts version flags (.ctts x)
        rfl rfl hbig
      show (decCtts (encodeLeaf tCtts version flags (.ctts x)) 12).map
        LeafPayload.ctts = .ok (.ctts x)
      rw [decCtts_enc _ 12 x hdrop hwf]
      rfl
    · have hbig2 : 12 + encLenPayload (.ctts x) > 4294967295 := by omega
      refine decodeLeaf_frame_full_ext tCtts version flags (.ctts x) (.ctts x)
        rfl rfl rfl rfl hlen hbig2 hsz64 hv hf ?_
      have hdrop := encodeLeaf_drop_full_ext tCtts version flags (.ctts x)
        rfl rfl hbig2
      show (decCtts (encodeLeaf tCtts version flags (.ctts x)) 20).map
        LeafPayload.ctts = .ok (.ctts x)
      rw [decCtts_enc _ 20 x hdrop hwf]
      rfl
  | stsc x =>
    by_cases hbig : 12 + encLenPayload (.stsc x) ≤ 4294967295
    · refine decodeLeaf_frame_full tStsc version flags (.stsc x) (.stsc x)
        rfl rfl rfl rfl hlen hbig hv hf ?_
      have hdrop := encodeLeaf_drop_full tStsc version flags (.stsc x)
        rfl rfl hbig
      show (decStsc (encodeLeaf tStsc version flags (.stsc x)) 12).map
        LeafPayload.stsc = .ok (.stsc x)
      rw [decStsc_enc _ 12 x hdrop hwf]
      rfl
    · have hbig2 : 12 + encLenPayload (.stsc x) > 4294967295 := by omega
      refine decodeLeaf_frame_full_ext tStsc version flags (.stsc x) (.stsc x)
        rfl rfl rfl rfl hlen hbig2 hsz64 hv hf ?_
      have hdrop := encodeLeaf_drop_full_ext tStsc version flags (.stsc x)
        rfl rfl hbig2
      show (decStsc (encodeLeaf tStsc version flags (.stsc x)) 20).map
        LeafPayload.stsc = .ok (.stsc x)
      rw [decStsc_enc _ 20 x hdrop hwf]
      rfl
  | dref x =>
    by_cases hbig : 12 + encLenPayload (.dref x) ≤ 4294967295
    · refine decodeLeaf_frame_full tDref version flags (.dref x) (.dref x)
        rfl rfl rfl rfl hlen hbig hv hf ?_
      have hdrop := encodeLeaf_drop_full tDref version flags (.dref x)
        rfl rfl hbig
      show (decDref (encodeLeaf tDref version flags (.dref x)) 12).map
        LeafPayload.dref = .ok (.dref x)
      rw [decDref_enc _ 12 x hdrop hwf]
      rfl
    · have hbig2 : 12 + encLenPayload (.dref x) > 4294967295 := by omega
      refine decodeLeaf_frame_full_ext tDref version flags (.dref x) (.dref x)
        rfl rfl rfl rfl hlen hbig2 hsz64 hv hf ?_
      have hdrop := encodeLeaf_drop_full_ext tDref version flags (.dref x)
        rfl rfl hbig2
      show (decDref (encodeLeaf tDref version flags (.dref x)) 20).map
        LeafPayload.dref = .ok (.dref x)
      rw [decDref_enc _ 20 x hdrop hwf]
      rfl
  | elst x =>
    by_cases hbig : 12 + encLenPayload (.elst x) ≤ 4294967295
    · refine decodeLeaf_frame_full tElst version flags (.elst x) (.elst x)
        rfl rfl rfl rfl hlen hbig hv hf ?_
      have hdrop := encodeLeaf_drop_full tElst version flags (.elst x)
        rfl rfl hbig
      show (decElst (encodeLeaf tElst version flags (.elst x)) 12).map
        LeafPayload.elst = .ok (.elst x)
      rw [decElst_enc _ 12 x hdrop hwf]
      rfl
    · have hbig2 : 12 + encLenPayload (.elst x) > 4294967295 := by omega
      refine decodeLeaf_frame_full_ext tElst version flags (.elst x) (.elst x)
        rfl rfl rfl rfl hlen hbig2 hsz64 hv hf ?_
      have hdrop := encodeLeaf_drop_full_ext tElst version flags (.elst x)
        rfl rfl hbig2
      show (decElst (encodeLeaf tElst version flags (.elst x)) 20).map
        LeafPayload.elst = .ok (.elst x)
      rw [decElst_enc _ 20 x hdrop hwf]
      rfl
  | trun x =>
    by_cases hbig : 12 + encLenPayload (.trun x) ≤ 4294967295
    · refine decodeLeaf_frame_full tTrun version flags (.trun x) (.trun x)
        rfl rfl rfl rfl hlen hbig hv hf ?_
      have hdrop := encodeLeaf_drop_full tTrun version flags (.trun x)
        rfl rfl hbig
      show (decTrun (encodeLeaf tTrun version flags (.trun x)) 12).map
        LeafPayload.trun = .ok (.trun x)
      rw [decTrun_enc _ 12 x hdrop hwf]
      rfl
    · have hbig2 : 12 + encLenPayload (.trun x) > 4294967295 := by omega
      refine decodeLeaf_frame_full_ext tTrun version flags (.trun x) (.trun x)
        rfl rfl rfl rfl hlen hbig2 hsz64 hv hf ?_
      have hdrop := encodeLeaf_drop_full_ext tTrun version flags (.trun x)
        rfl rfl hbig2
      show (decTrun (encodeLeaf tTrun version flags (.trun x)) 20).map
        LeafPayload.trun = .ok (.trun x)
      rw [decTrun_enc _ 20 x hdrop hwf]
      rfl

/-- C8 counterexample: encodeStsz always writes 0 into the fixed
SampleSize field, so an stsz value with SampleSize 1 decodes back with
SampleSize 0 -- decode of encode is not the identity on stsz values that
are not in per-sample form. -/
theorem claim_C8_counterexample :
    DecodeTop (encodeLeaf tStsz 0 0 (.stsz ⟨1, []⟩)) =
      .ok (.leaf tStsz 0 0 (.stsz ⟨0, []⟩)) ∧
    (⟨1, []⟩ : StszM) ≠ (⟨0, []⟩ : StszM) :=
  ⟨rfl, by decide⟩

/-- C8 witness: a concrete stco box round-trips through encode/decode. -/
theorem claim_C8_roundtrip_witness :
    DecodeTop (encodeLeaf (typeOf (.stco ⟨[5]⟩)) 1 2 (.stco ⟨[5]⟩)) =
      .ok (.leaf (typeOf (.stco ⟨[5]⟩)) 1 2 (.stco ⟨[5]⟩)) :=
  claim_C8_roundtrip (.stco ⟨[5]⟩) 1 2 ⟨by decide, by decide⟩ (by decide)
    (by decide) (fun h => absurd h (by decide)) (by decide)

end ISOBMFF
